import Mathlib

/-!
Verification of the Catan training engine (`src/training/catan_env.py`).

The Python module is shallowly embedded below: pure helpers become Lean
functions, the mutable `CatanState` becomes an immutable structure threaded
through the step functions, Python `int` becomes `Int` (`Nat` where the source
can only ever hold non-negative values), and every operation that can raise in
Python (out-of-range list indexing, popping an empty deck, ...) returns
`Option` with `none` for the raising runs.
-/

set_option maxHeartbeats 4000000
set_option maxRecDepth 10000

namespace Catan

/-- The five resources, in the order of the Python `RESOURCES` list. -/
inductive Resource
  | lumber | brick | wool | grain | ore
deriving DecidableEq, Repr, Fintype

/-- `RESOURCES` -/
def Resource.all : List Resource := [.lumber, .brick, .wool, .grain, .ore]

/-- `TERRAIN_TYPES` -/
inductive Terrain
  | forest | hills | pasture | fields | mountains | desert
deriving DecidableEq, Repr, Fintype

/-- `TERRAIN_DISTRIBUTION` -/
def terrainDistribution : List Terrain :=
  [.forest, .forest, .forest, .forest,
   .hills, .hills, .hills,
   .pasture, .pasture, .pasture, .pasture,
   .fields, .fields, .fields, .fields,
   .mountains, .mountains, .mountains,
   .desert]

/-- `TERRAIN_TO_RESOURCE` -/
def terrainToResource : Terrain → Option Resource
  | .forest => some .lumber
  | .hills => some .brick
  | .pasture => some .wool
  | .fields => some .grain
  | .mountains => some .ore
  | .desert => none

/-- Development card kinds. -/
inductive DevCard
  | knight | victoryPoint | roadBuilding | yearOfPlenty | monopoly
deriving DecidableEq, Repr, Fintype

/-- `DEV_CARD_DISTRIBUTION` -/
def devCardDistribution : List DevCard :=
  List.replicate 14 .knight ++ List.replicate 5 .victoryPoint ++
  List.replicate 2 .roadBuilding ++ List.replicate 2 .yearOfPlenty ++
  List.replicate 2 .monopoly

/-- Building costs, `{resource: amount}` maps in the source. -/
def roadCost : Resource → Int
  | .lumber => 1 | .brick => 1 | _ => 0

def settlementCost : Resource → Int
  | .lumber => 1 | .brick => 1 | .wool => 1 | .grain => 1 | .ore => 0

def cityCost : Resource → Int
  | .grain => 2 | .ore => 3 | _ => 0

def devCardCost : Resource → Int
  | .wool => 1 | .grain => 1 | .ore => 1 | _ => 0

def MAX_SETTLEMENTS : Int := 5
def MAX_CITIES : Int := 4
def MAX_ROADS : Int := 15
def BANK_PER_RESOURCE : Int := 19
def VP_TO_WIN : Nat := 10
def MIN_LONGEST_ROAD : Nat := 5
def MIN_LARGEST_ARMY : Nat := 3

/-- Harbor kinds: the Python `type` field is the string `'generic'` or a
resource name. -/
inductive HarborType
  | generic
  | res (r : Resource)
deriving DecidableEq, Repr

/-- `STANDARD_HARBOR_TYPES` -/
def standardHarborTypes : List HarborType :=
  [.generic, .res .grain, .res .ore, .generic, .res .wool,
   .generic, .generic, .res .brick, .res .lumber]

/-- Game phases, mirroring the `PHASES` list. -/
inductive Phase
  | PRE_GAME
  | SETUP_PLACE_SETTLEMENT
  | SETUP_PLACE_ROAD
  | ROLL_DICE
  | DISCARD
  | MOVE_ROBBER
  | STEAL
  | TRADE_BUILD_PLAY
  | ROAD_BUILDING_PLACE
  | YEAR_OF_PLENTY_PICK
  | MONOPOLY_PICK
  | GAME_OVER
deriving DecidableEq, Repr, Fintype

/-! ## Board topology

Exact-arithmetic embedding of the pixel geometry.  `hex_to_pixel` yields
`x = size*(sqrt 3 * q + sqrt 3 / 2 * r)`, `y = size * 1.5 * r`, and
`hex_corner` adds `size*(cos θ, sin θ)` for `θ ∈ {-30°, 30°, ..., 270°}`,
whose cosines are `0` or `±√3/2` and sines `±1/2` or `±1`.  Every coordinate
that ever arises is therefore `size * (√3/2 * m, 1/2 * n)` for integers
`m, n`: centers have `m = 2q + r`, `n = 3r`, and the six corner offsets in
these units are listed below.  At `size = 50` distinct integer coordinates
are at least 25 pixels apart while `points_equal` uses `eps = 0.01` and the
accumulated IEEE rounding error is far below that, so the float
deduplication of the source coincides with exact equality of the integer
pair `(m, n)`; we represent a point by that pair. -/

/-- `STANDARD_HEX_POSITIONS`: the 3-4-5-4-3 diamond as axial `(q, r)`. -/
def standardHexPositions : List (Int × Int) :=
  [(0, -2), (1, -2), (2, -2),
   (-1, -1), (0, -1), (1, -1), (2, -1),
   (-2, 0), (-1, 0), (0, 0), (1, 0), (2, 0),
   (-2, 1), (-1, 1), (0, 1), (1, 1),
   (-2, 2), (-1, 2), (0, 2)]

/-- `hex_to_pixel` in exact integer units (see the section comment). -/
def hexToPixel (q r : Int) : Int × Int := (2 * q + r, 3 * r)

/-- The six corner offsets of `hex_corner` for `i = 0..5`, in exact units. -/
def cornerOffsets : List (Int × Int) :=
  [(1, -1), (1, 1), (0, 2), (-1, 1), (-1, -1), (0, -2)]

/-- `hex_corners`: the six corners of the hex centered at `c`. -/
def hexCorners (c : Int × Int) : List (Int × Int) :=
  cornerOffsets.map fun o => (c.1 + o.1, c.2 + o.2)

/-- `BoardTopology`: pre-computed adjacency tables. -/
structure BoardTopology where
  hexCoords : List (Int × Int)
  hexCenters : List (Int × Int)
  vertexPositions : List (Int × Int)
  vertexCount : Nat
  edgeCount : Nat
  vertexAdjacentVertices : List (List Nat)
  vertexAdjacentEdges : List (List Nat)
  vertexAdjacentHexes : List (List Nat)
  edgeEndpoints : List (Nat × Nat)
  edgeAdjacentEdges : List (List Nat)
  hexVertices : List (List Nat)
  hexEdges : List (List Nat)
deriving DecidableEq, Repr

/-- Steps 1/2 of `build_board_topology`: compute corners for every hex and
deduplicate vertices by scanning the already-assigned positions (the inner
`for vid, vp in enumerate(vertex_positions)` loop is `findIdx?`). -/
def collectVertices (centers : List (Int × Int)) :
    List (Int × Int) × List (List Nat) :=
  centers.foldl
    (fun acc c =>
      let inner := (hexCorners c).foldl
        (fun (acc2 : List (Int × Int) × List Nat) corner =>
          match acc2.1.findIdx? (fun vp => vp == corner) with
          | some i => (acc2.1, acc2.2 ++ [i])
          | none => (acc2.1 ++ [corner], acc2.2 ++ [acc2.1.length]))
        (acc.1, [])
      (inner.1, acc.2 ++ [inner.2]))
    ([], [])

/-- Step 3: identify edges from consecutive corner pairs, deduplicating by
the canonical `(min, max)` key.  `edge_map[key]` is the index of `key` in
`edge_endpoints`, so the dict is realised by `findIdx?` on that list.
The Python loop pairs `vids[i]` with `vids[(i+1) % 6]`; as `vids` always has
six entries this is `vids.zip (vids.rotate 1)`. -/
def collectEdges (hexCornerVids : List (List Nat)) :
    List (Nat × Nat) × List (List Nat) :=
  hexCornerVids.foldl
    (fun acc vids =>
      let inner := (vids.zip (vids.rotate 1)).foldl
        (fun (acc2 : List (Nat × Nat) × List Nat) p =>
          let key := (min p.1 p.2, max p.1 p.2)
          match acc2.1.findIdx? (fun e => e == key) with
          | some i => (acc2.1, acc2.2 ++ [i])
          | none => (acc2.1 ++ [key], acc2.2 ++ [acc2.1.length]))
        (acc.1, [])
      (inner.1, acc.2 ++ [inner.2]))
    ([], [])

/-- Step 4, `vertex -> hexes` table. -/
def buildVertexAdjHexes (vertexCount : Nat) (hexVertices : List (List Nat)) :
    List (List Nat) :=
  hexVertices.enum.foldl
    (fun tbl he =>
      he.2.foldl
        (fun tbl2 vid =>
          List.modify (fun l => if he.1 ∈ l then l else l ++ [he.1]) vid tbl2)
        tbl)
    (List.replicate vertexCount [])

/-- Step 4, `vertex -> edges` table. -/
def buildVertexAdjEdges (vertexCount : Nat) (edgeEndpoints : List (Nat × Nat)) :
    List (List Nat) :=
  edgeEndpoints.enum.foldl
    (fun tbl ee =>
      let tbl2 := List.modify (fun l => l ++ [ee.1]) ee.2.1 tbl
      List.modify (fun l => l ++ [ee.1]) ee.2.2 tbl2)
    (List.replicate vertexCount [])

/-- Step 4, `vertex -> vertices` table. -/
def buildVertexAdjVerts (vertexCount : Nat) (edgeEndpoints : List (Nat × Nat)) :
    List (List Nat) :=
  edgeEndpoints.foldl
    (fun tbl e =>
      let tbl2 := List.modify (fun l => if e.2 ∈ l then l else l ++ [e.2]) e.1 tbl
      List.modify (fun l => if e.1 ∈ l then l else l ++ [e.1]) e.2 tbl2)
    (List.replicate vertexCount [])

/-- Step 4, `edge -> edges` table (edges sharing a vertex). -/
def buildEdgeAdjEdges (edgeEndpoints : List (Nat × Nat))
    (vAdjEdges : List (List Nat)) : List (List Nat) :=
  edgeEndpoints.enum.foldl
    (fun tbl ee =>
      List.modify
        (fun l =>
          ((vAdjEdges.getD ee.2.1 []) ++ (vAdjEdges.getD ee.2.2 [])).foldl
            (fun l2 adj => if adj ≠ ee.1 ∧ adj ∉ l2 then l2 ++ [adj] else l2) l)
        ee.1 tbl)
    (List.replicate edgeEndpoints.length [])

/-- `build_board_topology` (hex positions default to the standard list). -/
def buildBoardTopology (hexPositions : List (Int × Int)) : BoardTopology :=
  let hexCenters := hexPositions.map fun p => hexToPixel p.1 p.2
  let cv := collectVertices hexCenters
  let vertexPositions := cv.1
  let hexCornerVids := cv.2
  let vertexCount := vertexPositions.length
  let ce := collectEdges hexCornerVids
  let edgeEndpoints := ce.1
  let hexEdgeIds := ce.2
  let edgeCount := edgeEndpoints.length
  let vAdjEdges := buildVertexAdjEdges vertexCount edgeEndpoints
  { hexCoords := hexPositions
    hexCenters := hexCenters
    vertexPositions := vertexPositions
    vertexCount := vertexCount
    edgeCount := edgeCount
    vertexAdjacentVertices := buildVertexAdjVerts vertexCount edgeEndpoints
    vertexAdjacentEdges := vAdjEdges
    vertexAdjacentHexes := buildVertexAdjHexes vertexCount hexCornerVids
    edgeEndpoints := edgeEndpoints
    edgeAdjacentEdges := buildEdgeAdjEdges edgeEndpoints vAdjEdges
    hexVertices := hexCornerVids
    hexEdges := hexEdgeIds }

/-- The standard 19-hex board topology built by `reset`. -/
def standardTopology : BoardTopology := buildBoardTopology standardHexPositions

/-- The standard topology, materialised as literal data so that kernel
evaluation of concrete states is cheap; `stdTopoData_eq` checks it against
the builder. -/
def stdTopoData : BoardTopology :=
  {
    hexCoords := [(0, -2), (1, -2), (2, -2), (-1, -1), (0, -1), (1, -1), (2, -1), (-2, 0), (-1, 0), (0, 0), (1, 0), (2, 0), (-2, 1), (-1, 1), (0, 1), (1, 1), (-2, 2), (-1, 2), (0, 2)]
    hexCenters := [(-2, -6), (0, -6), (2, -6), (-3, -3), (-1, -3), (1, -3), (3, -3), (-4, 0), (-2, 0), (0, 0), (2, 0), (4, 0), (-3, 3), (-1, 3), (1, 3), (3, 3), (-2, 6), (0, 6), (2, 6)]
    vertexPositions := [(-1, -7), (-1, -5), (-2, -4), (-3, -5), (-3, -7), (-2, -8), (1, -7), (1, -5), (0, -4), (0, -8), (3, -7), (3, -5), (2, -4), (2, -8), (-2, -2), (-3, -1), (-4, -2), (-4, -4), (0, -2), (-1, -1), (2, -2), (1, -1), (4, -4), (4, -2), (3, -1), (-3, 1), (-4, 2), (-5, 1), (-5, -1), (-1, 1), (-2, 2), (1, 1), (0, 2), (3, 1), (2, 2), (5, -1), (5, 1), (4, 2), (-2, 4), (-3, 5), (-4, 4), (0, 4), (-1, 5), (2, 4), (1, 5), (4, 4), (3, 5), (-1, 7), (-2, 8), (-3, 7), (1, 7), (0, 8), (3, 7), (2, 8)]
    vertexCount := 54
    edgeCount := 72
    vertexAdjacentVertices := [[1, 5, 9], [0, 2, 8], [1, 3, 14], [2, 4, 17], [3, 5], [4, 0], [7, 9, 13], [6, 8, 12], [7, 1, 18], [0, 6], [11, 13], [10, 12, 22], [11, 7, 20], [6, 10], [2, 15, 19], [14, 16, 25], [15, 17, 28], [16, 3], [8, 19, 21], [18, 14, 29], [12, 21, 24], [20, 18, 31], [23, 11], [22, 24, 35], [23, 20, 33], [15, 26, 30], [25, 27, 40], [26, 28], [27, 16], [19, 30, 32], [29, 25, 38], [21, 32, 34], [31, 29, 41], [24, 34, 37], [33, 31, 43], [36, 23], [35, 37], [36, 33, 45], [30, 39, 42], [38, 40, 49], [39, 26], [32, 42, 44], [41, 38, 47], [34, 44, 46], [43, 41, 50], [37, 46], [45, 43, 52], [42, 48, 51], [47, 49], [48, 39], [44, 51, 53], [50, 47], [46, 53], [52, 50]]
    vertexAdjacentEdges := [[0, 5, 9], [0, 1, 8], [1, 2, 16], [2, 3, 20], [3, 4], [4, 5], [6, 10, 14], [6, 7, 13], [7, 8, 21], [9, 10], [11, 15], [11, 12, 30], [12, 13, 24], [14, 15], [16, 17, 23], [17, 18, 31], [18, 19, 35], [19, 20], [21, 22, 26], [22, 23, 36], [24, 25, 29], [25, 26, 39], [27, 30], [27, 28, 48], [28, 29, 42], [31, 32, 38], [32, 33, 52], [33, 34], [34, 35], [36, 37, 41], [37, 38, 49], [39, 40, 44], [40, 41, 53], [42, 43, 47], [43, 44, 56], [45, 48], [45, 46], [46, 47, 59], [49, 50, 55], [50, 51, 65], [51, 52], [53, 54, 58], [54, 55, 62], [56, 57, 61], [57, 58, 66], [59, 60], [60, 61, 69], [62, 63, 68], [63, 64], [64, 65], [66, 67, 71], [67, 68], [69, 70], [70, 71]]
    vertexAdjacentHexes := [[0, 1], [0, 1, 4], [0, 3, 4], [0, 3], [0], [0], [1, 2], [1, 2, 5], [1, 4, 5], [1], [2], [2, 6], [2, 5, 6], [2], [3, 4, 8], [3, 7, 8], [3, 7], [3], [4, 5, 9], [4, 8, 9], [5, 6, 10], [5, 9, 10], [6], [6, 11], [6, 10, 11], [7, 8, 12], [7, 12], [7], [7], [8, 9, 13], [8, 12, 13], [9, 10, 14], [9, 13, 14], [10, 11, 15], [10, 14, 15], [11], [11], [11, 15], [12, 13, 16], [12, 16], [12], [13, 14, 17], [13, 16, 17], [14, 15, 18], [14, 17, 18], [15], [15, 18], [16, 17], [16], [16], [17, 18], [17], [18], [18]]
    edgeEndpoints := [(0, 1), (1, 2), (2, 3), (3, 4), (4, 5), (0, 5), (6, 7), (7, 8), (1, 8), (0, 9), (6, 9), (10, 11), (11, 12), (7, 12), (6, 13), (10, 13), (2, 14), (14, 15), (15, 16), (16, 17), (3, 17), (8, 18), (18, 19), (14, 19), (12, 20), (20, 21), (18, 21), (22, 23), (23, 24), (20, 24), (11, 22), (15, 25), (25, 26), (26, 27), (27, 28), (16, 28), (19, 29), (29, 30), (25, 30), (21, 31), (31, 32), (29, 32), (24, 33), (33, 34), (31, 34), (35, 36), (36, 37), (33, 37), (23, 35), (30, 38), (38, 39), (39, 40), (26, 40), (32, 41), (41, 42), (38, 42), (34, 43), (43, 44), (41, 44), (37, 45), (45, 46), (43, 46), (42, 47), (47, 48), (48, 49), (39, 49), (44, 50), (50, 51), (47, 51), (46, 52), (52, 53), (50, 53)]
    edgeAdjacentEdges := [[5, 9, 1, 8], [0, 8, 2, 16], [1, 16, 3, 20], [2, 20, 4], [3, 5], [0, 9, 4], [10, 14, 7, 13], [6, 13, 8, 21], [0, 1, 7, 21], [0, 5, 10], [6, 14, 9], [15, 12, 30], [11, 30, 13, 24], [6, 7, 12, 24], [6, 10, 15], [11, 14], [1, 2, 17, 23], [16, 23, 18, 31], [17, 31, 19, 35], [18, 35, 20], [2, 3, 19], [7, 8, 22, 26], [21, 26, 23, 36], [16, 17, 22, 36], [12, 13, 25, 29], [24, 29, 26, 39], [21, 22, 25, 39], [30, 28, 48], [27, 48, 29, 42], [24, 25, 28, 42], [11, 12, 27], [17, 18, 32, 38], [31, 38, 33, 52], [32, 52, 34], [33, 35], [18, 19, 34], [22, 23, 37, 41], [36, 41, 38, 49], [31, 32, 37, 49], [25, 26, 40, 44], [39, 44, 41, 53], [36, 37, 40, 53], [28, 29, 43, 47], [42, 47, 44, 56], [39, 40, 43, 56], [48, 46], [45, 47, 59], [42, 43, 46, 59], [27, 28, 45], [37, 38, 50, 55], [49, 55, 51, 65], [50, 65, 52], [32, 33, 51], [40, 41, 54, 58], [53, 58, 55, 62], [49, 50, 54, 62], [43, 44, 57, 61], [56, 61, 58, 66], [53, 54, 57, 66], [46, 47, 60], [59, 61, 69], [56, 57, 60, 69], [54, 55, 63, 68], [62, 68, 64], [63, 65], [50, 51, 64], [57, 58, 67, 71], [66, 71, 68], [62, 63, 67], [60, 61, 70], [69, 71], [66, 67, 70]]
    hexVertices := [[0, 1, 2, 3, 4, 5], [6, 7, 8, 1, 0, 9], [10, 11, 12, 7, 6, 13], [2, 14, 15, 16, 17, 3], [8, 18, 19, 14, 2, 1], [12, 20, 21, 18, 8, 7], [22, 23, 24, 20, 12, 11], [15, 25, 26, 27, 28, 16], [19, 29, 30, 25, 15, 14], [21, 31, 32, 29, 19, 18], [24, 33, 34, 31, 21, 20], [35, 36, 37, 33, 24, 23], [30, 38, 39, 40, 26, 25], [32, 41, 42, 38, 30, 29], [34, 43, 44, 41, 32, 31], [37, 45, 46, 43, 34, 33], [42, 47, 48, 49, 39, 38], [44, 50, 51, 47, 42, 41], [46, 52, 53, 50, 44, 43]]
    hexEdges := [[0, 1, 2, 3, 4, 5], [6, 7, 8, 0, 9, 10], [11, 12, 13, 6, 14, 15], [16, 17, 18, 19, 20, 2], [21, 22, 23, 16, 1, 8], [24, 25, 26, 21, 7, 13], [27, 28, 29, 24, 12, 30], [31, 32, 33, 34, 35, 18], [36, 37, 38, 31, 17, 23], [39, 40, 41, 36, 22, 26], [42, 43, 44, 39, 25, 29], [45, 46, 47, 42, 28, 48], [49, 50, 51, 52, 32, 38], [53, 54, 55, 49, 37, 41], [56, 57, 58, 53, 40, 44], [59, 60, 61, 56, 43, 47], [62, 63, 64, 65, 50, 55], [66, 67, 68, 62, 54, 58], [69, 70, 71, 66, 57, 61]]
  }

theorem stdTopoData_eq : stdTopoData = standardTopology := by decide

/-! ## Harbors and trade ratios -/

/-- `Harbor`: a trade discount bound to two vertices (`type` is `htype` here). -/
structure Harbor where
  htype : HarborType
  vertices : Nat × Nat
deriving DecidableEq, Repr

/-- `get_trade_ratio`: best ratio for `resource` given the player's building
vertices; starts at 4, a reachable generic harbor lowers it to 3, a reachable
harbor specific to `resource` lowers it to 2. -/
def getTradeRatioFn (harbors : List Harbor) (playerVertices : List Nat)
    (resource : Resource) : Nat :=
  harbors.foldl
    (fun ratio h =>
      if h.vertices.1 ∈ playerVertices ∨ h.vertices.2 ∈ playerVertices then
        match h.htype with
        | .generic => min ratio 3
        | .res r => if r = resource then min ratio 2 else ratio
      else ratio)
    4

/-! ## Tiny helpers -/

/-- `_empty_resources` -/
def emptyResources : Resource → Int := fun _ => 0

/-- `_has_resources` -/
def hasResources (hand cost : Resource → Int) : Bool :=
  Resource.all.all fun r => cost r ≤ hand r

/-- `_total_resources` -/
def totalResources (hand : Resource → Int) : Int :=
  (Resource.all.map hand).sum

/-- Point update of a resource map (`hand[r] = v`). -/
def updRes (h : Resource → Int) (r : Resource) (v : Int) : Resource → Int :=
  fun x => if x = r then v else h x

/-- Increment of a resource map (`hand[r] += k`). -/
def addRes (h : Resource → Int) (r : Resource) (k : Int) : Resource → Int :=
  updRes h r (h r + k)

/-! ## Player and game state -/

/-- `PlayerState` (resource counters are `Int`: the Python `int`s are
decremented blind, so non-negativity is a theorem, not a type invariant). -/
structure PlayerState where
  id : Nat
  resources : Resource → Int
  devCards : List DevCard
  newDevCards : List DevCard
  knightsPlayed : Nat
  remainingSettlements : Int
  remainingCities : Int
  remainingRoads : Int
  hasPlayedDevCardThisTurn : Bool

/-- A fresh player, as `reset` creates them (`PlayerState(id=i)`). -/
def PlayerState.init (i : Nat) : PlayerState :=
  { id := i
    resources := emptyResources
    devCards := []
    newDevCards := []
    knightsPlayed := 0
    remainingSettlements := MAX_SETTLEMENTS
    remainingCities := MAX_CITIES
    remainingRoads := MAX_ROADS
    hasPlayedDevCardThisTurn := false }

inductive BuildingKind
  | settlement | city
deriving DecidableEq, Repr

/-- `CatanState`.  The Python `topology` field is `Optional` only until
`reset` runs; we model the post-reset states, where it is always present.
`state.copy()` is the identity here since the embedding is pure. -/
structure CatanState where
  phase : Phase
  currentPlayer : Nat
  playerCount : Nat
  turnNumber : Nat
  topology : BoardTopology
  hexTerrains : List Terrain
  hexNumbers : List (Option Nat)
  vertexBuildings : List (Option (BuildingKind × Nat))
  edgeRoads : List (Option Nat)
  harbors : List Harbor
  robberHex : Nat
  players : List PlayerState
  devCardDeck : List DevCard
  bank : Resource → Int
  longestRoadPlayer : Option Nat
  longestRoadLength : Nat
  largestArmyPlayer : Option Nat
  largestArmySize : Nat
  lastRoll : Option (Nat × Nat)
  setupRound : Nat
  setupIdx : Nat
  playersNeedingDiscard : List Nat
  roadBuildingRoadsLeft : Int
  lastPlacedVertex : Option Nat
  winner : Option Nat

/-- `get_setup_order`: snake draft. -/
def getSetupOrder (playerCount : Nat) : List Nat :=
  List.range playerCount ++ (List.range playerCount).reverse

/-- Python `l[i] = a` raises `IndexError` out of range; this is the
`Option`-returning embedding of that assignment. -/
def setAt {α : Type} (l : List α) (i : Nat) (a : α) : Option (List α) := do
  let _ ← l.get? i
  pure (l.set i a)

/-- In-place mutation `l[i].f(...)` of one player, `none` when `l[i]` raises. -/
def setPlayer (l : List PlayerState) (i : Nat) (f : PlayerState → PlayerState) :
    Option (List PlayerState) := do
  let p ← l.get? i
  pure (l.set i (f p))

/-! ## Longest road -/

/-- `_lr_dfs`.  The Python recursion adds the edge to `visited_edges`,
recurses, then discards it again: that backtracking discipline is exactly
pure recursion on `eid :: visited`.  Recursion depth is bounded by the
number of the player's edges, so fuel `edgeCount + 1` never runs out on the
runs the source performs; `none` only reports a run Python could not make
either (an out-of-range table read). -/
def lrDfs (s : CatanState) (player : Nat) (playerEdges : List Nat) :
    Nat → Nat → List Nat → Option Nat
  | 0, _, _ => none
  | fuel + 1, vertex, visited => do
    let adj ← s.topology.vertexAdjacentEdges.get? vertex
    adj.foldlM
      (fun maxLen eid => do
        if eid ∈ playerEdges ∧ eid ∉ visited then
          let e ← s.topology.edgeEndpoints.get? eid
          let nextV := if e.1 = vertex then e.2 else e.1
          let b ← s.vertexBuildings.get? nextV
          let blocked := match b with
            | some bb => bb.2 != player
            | none => false
          if blocked then pure (max maxLen 1)
          else do
            let path ← lrDfs s player playerEdges fuel nextV (eid :: visited)
            pure (max maxLen (1 + path))
        else pure maxLen)
      0

/-- `calculate_longest_road`.  The Python `start_vertices` set may hold each
vertex once; we fold `max` over a list with possible repeats, which changes
nothing. -/
def calcLongestRoad (s : CatanState) (player : Nat) : Option Nat := do
  let playerEdges ← (List.range s.topology.edgeCount).filterM fun eid => do
    let r ← s.edgeRoads.get? eid
    pure (r == some player)
  if playerEdges.isEmpty then pure 0
  else do
    let startVertices ← playerEdges.foldlM
      (fun (acc : List Nat) eid => do
        let e ← s.topology.edgeEndpoints.get? eid
        pure (acc ++ [e.1, e.2]))
      []
    startVertices.foldlM
      (fun maxLen sv => do
        let len ← lrDfs s player playerEdges (s.topology.edgeCount + 1) sv []
        pure (max maxLen len))
      0

/-- `update_longest_road` (in place in Python; returns the new state here). -/
def updateLongestRoad (s : CatanState) : Option CatanState := do
  let first ← (List.range s.playerCount).foldlM
    (fun (acc : Option Nat × Nat) pid => do
      let len ← calcLongestRoad s pid
      if MIN_LONGEST_ROAD ≤ len then
        match acc.1 with
        | none => pure (some pid, len)
        | some _ => if acc.2 < len then pure (some pid, len) else pure acc
      else pure acc)
    (s.longestRoadPlayer, s.longestRoadLength)
  let final ← match first.1 with
    | none => pure first
    | some hp => do
      let cur ← calcLongestRoad s hp
      if cur < MIN_LONGEST_ROAD then
        (List.range s.playerCount).foldlM
          (fun (acc : Option Nat × Nat) pid => do
            let len ← calcLongestRoad s pid
            if MIN_LONGEST_ROAD ≤ len ∧ acc.2 < len then pure (some pid, len)
            else pure acc)
          ((none : Option Nat), 0)
      else pure first
  pure { s with longestRoadPlayer := final.1, longestRoadLength := final.2 }

/-- `update_largest_army`. -/
def updateLargestArmy (s : CatanState) : Option CatanState := do
  let final ← (List.range s.playerCount).foldlM
    (fun (acc : Option Nat × Nat) pid => do
      let p ← s.players.get? pid
      if MIN_LARGEST_ARMY ≤ p.knightsPlayed then
        match acc.1 with
        | none => pure (some pid, p.knightsPlayed)
        | some _ => if acc.2 < p.knightsPlayed then pure (some pid, p.knightsPlayed) else pure acc
      else pure acc)
    (s.largestArmyPlayer, s.largestArmySize)
  pure { s with largestArmyPlayer := final.1, largestArmySize := final.2 }

/-! ## Victory points -/

/-- The building-scan loop of `calculate_vp` (1 per settlement, 2 per
city). -/
def vpBase (s : CatanState) (player : Nat) : Option Nat :=
  (List.range s.topology.vertexCount).foldlM
    (fun (acc : Nat) vid => do
      let b ← s.vertexBuildings.get? vid
      pure (match b with
        | some bb =>
          if bb.2 = player then acc + (if bb.1 = .city then 2 else 1) else acc
        | none => acc))
    0

/-- `calculate_vp`: recomputed from board contents, award holders and
victory-point development cards (played and newly bought). -/
def calculateVp (s : CatanState) (player : Nat) : Option Nat := do
  let base ← vpBase s player
  let withAwards := base + (if s.longestRoadPlayer = some player then 2 else 0) +
    (if s.largestArmyPlayer = some player then 2 else 0)
  let p ← s.players.get? player
  pure (withAwards + p.devCards.count .victoryPoint + p.newDevCards.count .victoryPoint)

/-- `check_game_over`: if the current player has at least 10 VP the phase
becomes `GAME_OVER` and the winner is recorded. -/
def checkGameOver (s : CatanState) : Option CatanState := do
  let vp ← calculateVp s s.currentPlayer
  if VP_TO_WIN ≤ vp then
    pure { s with phase := .GAME_OVER, winner := some s.currentPlayer }
  else pure s

/-! ## Building / road validity helpers -/

/-- `_is_vertex_accessible` (the Python `any(...)` generator short-circuits;
so does `anyM`). -/
def isVertexAccessible (s : CatanState) (player vertex : Nat) : Option Bool := do
  let b ← s.vertexBuildings.get? vertex
  match b with
  | some bb => pure (bb.2 == player)
  | none => do
    let adj ← s.topology.vertexAdjacentEdges.get? vertex
    adj.anyM fun eid => do
      let r ← s.edgeRoads.get? eid
      pure (r == some player)

/-- `get_valid_road_edges_no_resource_check` -/
def getValidRoadEdgesNoResourceCheck (s : CatanState) (player : Nat) :
    Option (List Nat) := do
  let p ← s.players.get? player
  if p.remainingRoads ≤ 0 then pure []
  else
    (List.range s.topology.edgeCount).filterM fun eid => do
      let r ← s.edgeRoads.get? eid
      if r.isSome then pure false
      else do
        let e ← s.topology.edgeEndpoints.get? eid
        let a1 ← isVertexAccessible s player e.1
        if a1 then pure true else isVertexAccessible s player e.2

/-- `get_valid_road_edges` -/
def getValidRoadEdges (s : CatanState) (player : Nat) : Option (List Nat) := do
  let p ← s.players.get? player
  if p.remainingRoads ≤ 0 then pure []
  else if ¬ hasResources p.resources roadCost then pure []
  else getValidRoadEdgesNoResourceCheck s player

/-- `_is_valid_settlement_vertex` (main game). -/
def isValidSettlementVertex (s : CatanState) (player vid : Nat) : Option Bool := do
  let b ← s.vertexBuildings.get? vid
  if b.isSome then pure false
  else do
    let adjs ← s.topology.vertexAdjacentVertices.get? vid
    let occupied ← adjs.anyM fun adj => do
      let ab ← s.vertexBuildings.get? adj
      pure ab.isSome
    if occupied then pure false
    else do
      let edges ← s.topology.vertexAdjacentEdges.get? vid
      edges.anyM fun eid => do
        let r ← s.edgeRoads.get? eid
        pure (r == some player)

/-- `get_valid_settlement_vertices` -/
def getValidSettlementVertices (s : CatanState) (player : Nat) :
    Option (List Nat) := do
  let p ← s.players.get? player
  if p.remainingSettlements ≤ 0 then pure []
  else if ¬ hasResources p.resources settlementCost then pure []
  else (List.range s.topology.vertexCount).filterM (isValidSettlementVertex s player)

/-- `get_valid_city_vertices` -/
def getValidCityVertices (s : CatanState) (player : Nat) : Option (List Nat) := do
  let p ← s.players.get? player
  if p.remainingCities ≤ 0 then pure []
  else if ¬ hasResources p.resources cityCost then pure []
  else
    (List.range s.topology.vertexCount).filterM fun vid => do
      let b ← s.vertexBuildings.get? vid
      pure (match b with
        | some bb => bb.1 == BuildingKind.settlement && bb.2 == player
        | none => false)

/-- `get_valid_setup_settlement_vertices` -/
def getValidSetupSettlementVertices (s : CatanState) : Option (List Nat) :=
  (List.range s.topology.vertexCount).filterM fun vid => do
    let b ← s.vertexBuildings.get? vid
    if b.isSome then pure false
    else do
      let adjs ← s.topology.vertexAdjacentVertices.get? vid
      let hasAdj ← adjs.anyM fun adj => do
        let ab ← s.vertexBuildings.get? adj
        pure ab.isSome
      pure (!hasAdj)

/-- `get_valid_setup_road_edges` -/
def getValidSetupRoadEdges (s : CatanState) : Option (List Nat) :=
  match s.lastPlacedVertex with
  | none => pure []
  | some v => do
    let adj ← s.topology.vertexAdjacentEdges.get? v
    adj.filterM fun eid => do
      let r ← s.edgeRoads.get? eid
      pure r.isNone

/-- `get_valid_robber_hexes` -/
def getValidRobberHexes (s : CatanState) : List Nat :=
  (List.range s.hexTerrains.length).filter fun hid => hid ≠ s.robberHex

/-- Structural insertion sort standing in for Python `sorted` on a list of
distinct naturals (Mathlib's `mergeSort` does not reduce in the kernel). -/
def insertSorted (a : Nat) : List Nat → List Nat
  | [] => [a]
  | b :: bs => if a ≤ b then a :: b :: bs else b :: insertSorted a bs

def sortNats (l : List Nat) : List Nat := l.foldr insertSorted []

/-- `get_steal_targets`: opponents with a building on the hex and a
non-empty hand, as a sorted deduplicated list (the Python set). -/
def getStealTargets (s : CatanState) (hexId thief : Nat) : Option (List Nat) := do
  let verts ← s.topology.hexVertices.get? hexId
  let targets ← verts.foldlM
    (fun (acc : List Nat) vid => do
      let b ← s.vertexBuildings.get? vid
      match b with
      | some bb =>
        if bb.2 ≠ thief then do
          let p ← s.players.get? bb.2
          if 0 < totalResources p.resources then
            pure (if bb.2 ∈ acc then acc else acc ++ [bb.2])
          else pure acc
        else pure acc
      | none => pure acc)
    []
  pure (sortNats targets)

/-- `_get_player_vertices` -/
def getPlayerVertices (s : CatanState) (player : Nat) : Option (List Nat) :=
  (List.range s.topology.vertexCount).filterM fun vid => do
    let b ← s.vertexBuildings.get? vid
    pure (match b with
      | some bb => bb.2 == player
      | none => false)

/-- `_get_player_trade_ratio` -/
def playerTradeRatioFn (s : CatanState) (player : Nat) (resource : Resource) :
    Option Nat := do
  let pverts ← getPlayerVertices s player
  pure (getTradeRatioFn s.harbors pverts resource)

/-- `is_valid_maritime_trade` -/
def isValidMaritimeTrade (s : CatanState) (player : Nat)
    (give receive : Resource) : Option Bool := do
  if give = receive then pure false
  else do
    let ratio ← playerTradeRatioFn s player give
    let p ← s.players.get? player
    if p.resources give < (ratio : Int) then pure false
    else if s.bank receive ≤ 0 then pure false
    else pure true

/-- `can_buy_dev_card` -/
def canBuyDevCard (s : CatanState) (player : Nat) : Option Bool := do
  if s.devCardDeck.length = 0 then pure false
  else do
    let p ← s.players.get? player
    pure (hasResources p.resources devCardCost)

/-- `can_play_dev_card` -/
def canPlayDevCard (s : CatanState) (player : Nat) (cardType : DevCard) :
    Option Bool := do
  let p ← s.players.get? player
  if p.hasPlayedDevCardThisTurn then pure false
  else if cardType = .victoryPoint then pure false
  else pure (cardType ∈ p.devCards)

/-! ## Resource distribution -/

/-- The Python `player_demand` dict (insertion-ordered) as an association
list; `bumpDemand` is `player_demand[b[1]] = player_demand.get(b[1], 0) + amount`. -/
def bumpDemand (l : List (Nat × Nat)) (pid amount : Nat) : List (Nat × Nat) :=
  match l with
  | [] => [(pid, amount)]
  | x :: xs => if x.1 = pid then (x.1, x.2 + amount) :: xs else x :: bumpDemand xs pid amount

/-- One iteration of the `_distribute_resources` hex loop (the loop body for
hex `hid`): the hex pays its own demand in full unless that demand exceeds
what is left in the bank at that point. -/
def distHexStep (st : CatanState) (diceTotal : Nat) (hid : Nat) : Option CatanState := do
  let num ← st.hexNumbers.get? hid
  if num ≠ some diceTotal then pure st
  else if hid = st.robberHex then pure st
  else do
    let terr ← st.hexTerrains.get? hid
    match terrainToResource terr with
    | none => pure st
    | some resource => do
      let verts ← st.topology.hexVertices.get? hid
      let demand ← verts.foldlM
        (fun (acc : Nat × List (Nat × Nat)) vid => do
          let b ← st.vertexBuildings.get? vid
          match b with
          | none => pure acc
          | some bb =>
            let amount := if bb.1 = BuildingKind.city then 2 else 1
            pure (acc.1 + amount, bumpDemand acc.2 bb.2 amount))
        (0, [])
      if st.bank resource < (demand.1 : Int) then pure st
      else
        demand.2.foldlM
          (fun st2 pa => do
            let players' ← setPlayer st2.players pa.1 fun p =>
              { p with resources := addRes p.resources resource (pa.2 : Int) }
            pure { st2 with players := players',
                            bank := addRes st2.bank resource (-(pa.2 : Int)) })
          st

/-- `_distribute_resources`: walk the hexes in index order, running
`distHexStep` on each. -/
def distributeResources (s : CatanState) (diceTotal : Nat) : Option CatanState :=
  if diceTotal = 7 then pure s
  else
    (List.range s.hexTerrains.length).foldlM
      (fun st hid => distHexStep st diceTotal hid) s

/-- Spec wording: the claim of one building adjacent to a producing hex
(1 unit per settlement, 2 per city, nothing for an empty corner). -/
def specBuildingClaim (b : Option (BuildingKind × Nat)) : Nat :=
  match b with
  | none => 0
  | some bb => if bb.1 = .city then 2 else 1

/-- Spec wording: a producing hex's total demand, the sum of the claims of
the buildings on its corner vertices. -/
def specHexDemand (st : CatanState) (verts : List Nat) : Option Nat :=
  (verts.mapM fun vid => st.vertexBuildings.get? vid).map
    fun bs => (bs.map specBuildingClaim).sum

/-- Spec wording: one player's demand at a hex, the sum of the claims of
that player's buildings on its corner vertices. -/
def specPlayerDemand (st : CatanState) (verts : List Nat) (pid : Nat) : Option Nat :=
  (verts.mapM fun vid => st.vertexBuildings.get? vid).map
    fun bs => ((bs.filter fun b =>
        match b with
        | some bb => bb.2 == pid
        | none => false).map specBuildingClaim).sum

/-- Lookup in the demand association list (0 when the player is absent). -/
def alookup : List (Nat × Nat) → Nat → Nat
  | [], _ => 0
  | x :: xs, pid => if x.1 = pid then x.2 else alookup xs pid

/-- Spec wording (claim C3): the roll-wide demand for resource `r` — the sum
of the demands of every hex whose token equals the roll and that is not
under the robber and produces `r`. -/
def rollWideDemand (s : CatanState) (diceTotal : Nat) (r : Resource) : Option Nat :=
  (List.range s.hexTerrains.length).foldlM
    (fun acc hid => do
      let num ← s.hexNumbers.get? hid
      let terr ← s.hexTerrains.get? hid
      if num = some diceTotal ∧ hid ≠ s.robberHex ∧ terrainToResource terr = some r then do
        let verts ← s.topology.hexVertices.get? hid
        let dHex ← specHexDemand s verts
        pure (acc + dHex)
      else pure acc)
    0

/-- Claim C3's skip rule read per roll: whenever the roll-wide demand for a
resource exceeds the bank's remaining supply, nobody receives any of that
resource on that roll. -/
def perRollSkipClaim : Prop :=
  ∀ (s : CatanState) (diceTotal : Nat) (r : Resource) (s' : CatanState) (dem : Nat),
    diceTotal ≠ 7 →
    distributeResources s diceTotal = some s' →
    rollWideDemand s diceTotal r = some dem →
    s.bank r < (dem : Int) →
    ∀ i p p', s.players.get? i = some p → s'.players.get? i = some p' →
      p'.resources r = p.resources r

/-- `_remove_dev_card` -/
def removeDevCard (cards : List DevCard) (cardType : DevCard) : List DevCard :=
  match cards.findIdx? (fun c => c == cardType) with
  | none => cards
  | some idx => cards.take idx ++ cards.drop (idx + 1)

/-! ## Actions -/

/-- The action tuples of the environment.  `DISCARD_RESOURCES` carries the
per-resource counts in `RESOURCES` order (the Python tuple tail); they are
naturals because the enumerator only ever emits values drawn from `range`. -/
inductive Action
  | PLACE_SETUP_SETTLEMENT (v : Nat)
  | PLACE_SETUP_ROAD (e : Nat)
  | ROLL_DICE
  | DISCARD_RESOURCES (counts : List Nat)
  | MOVE_ROBBER (h : Nat)
  | STEAL_RESOURCE (victim : Option Nat)
  | BUILD_ROAD (e : Nat)
  | BUILD_SETTLEMENT (v : Nat)
  | BUILD_CITY (v : Nat)
  | BUY_DEV_CARD
  | PLAY_KNIGHT
  | PLAY_ROAD_BUILDING
  | PLACE_ROAD_BUILDING_ROAD (e : Nat)
  | PLAY_YEAR_OF_PLENTY
  | PICK_YEAR_OF_PLENTY_RESOURCES (r1 r2 : Resource)
  | PLAY_MONOPOLY
  | PICK_MONOPOLY_RESOURCE (r : Resource)
  | MARITIME_TRADE (give receive : Resource)
  | END_TURN
deriving DecidableEq, Repr

/-- `get_acting_player` -/
def getActingPlayer (s : CatanState) : Nat :=
  if s.phase = .DISCARD ∧ s.playersNeedingDiscard ≠ [] then
    s.playersNeedingDiscard.headD 0
  else s.currentPlayer

/-! ## Discard enumeration -/

/-- The `_recurse` helper of `_enumerate_discard`, structurally recursive on
the remaining resource slots.  `remaining` is a Python `int`; `take` ranges
over `range(min(hand[r], remaining) + 1)`, and a branch is pruned when the
remaining target exceeds the sum still available in the untried slots. -/
def discardRecurse (hand : Resource → Int) :
    List Resource → Int → List Nat → List (List Nat)
  | [], remaining, chosen => if remaining = 0 then [chosen] else []
  | r :: rest, remaining, chosen =>
    (List.range (min (hand r) remaining + 1).toNat).flatMap fun take =>
      if (rest.map hand).sum < remaining - take then []
      else discardRecurse hand rest (remaining - take) (chosen ++ [take])

/-- `_enumerate_discard` -/
def enumerateDiscard (hand : Resource → Int) (count : Int) : List Action :=
  (discardRecurse hand Resource.all count []).map Action.DISCARD_RESOURCES

/-! ## Legal actions -/

/-- The year-of-plenty picks: unordered pairs (`RESOURCES[i:]`) the bank can
supply. -/
def yopActions (s : CatanState) : List Action :=
  Resource.all.enum.flatMap fun ir =>
    (Resource.all.drop ir.1).filterMap fun r2 =>
      if ir.2 = r2 then
        if 2 ≤ s.bank ir.2 then some (.PICK_YEAR_OF_PLENTY_RESOURCES ir.2 r2) else none
      else
        if 1 ≤ s.bank ir.2 ∧ 1 ≤ s.bank r2 then
          some (.PICK_YEAR_OF_PLENTY_RESOURCES ir.2 r2)
        else none

/-- `_trade_build_play_actions` -/
def tradeBuildPlayActions (s : CatanState) : Option (List Action) := do
  let pid := s.currentPlayer
  let roadEdges ← getValidRoadEdges s pid
  let settleVerts ← getValidSettlementVertices s pid
  let cityVerts ← getValidCityVertices s pid
  let canBuy ← canBuyDevCard s pid
  let knightOk ← canPlayDevCard s pid .knight
  let rbOk ← canPlayDevCard s pid .roadBuilding
  let yopOk ← canPlayDevCard s pid .yearOfPlenty
  let monoOk ← canPlayDevCard s pid .monopoly
  let maritime ← Resource.all.foldlM
    (fun acc give =>
      Resource.all.foldlM
        (fun (acc2 : List Action) receive => do
          let v ← isValidMaritimeTrade s pid give receive
          pure (if v then acc2 ++ [Action.MARITIME_TRADE give receive] else acc2))
        acc)
    []
  pure (roadEdges.map Action.BUILD_ROAD ++
        settleVerts.map Action.BUILD_SETTLEMENT ++
        cityVerts.map Action.BUILD_CITY ++
        (if canBuy then [Action.BUY_DEV_CARD] else []) ++
        (if knightOk then [Action.PLAY_KNIGHT] else []) ++
        (if rbOk then [Action.PLAY_ROAD_BUILDING] else []) ++
        (if yopOk then [Action.PLAY_YEAR_OF_PLENTY] else []) ++
        (if monoOk then [Action.PLAY_MONOPOLY] else []) ++
        maritime ++ [Action.END_TURN])

/-- `get_legal_actions` -/
def getLegalActions (s : CatanState) : Option (List Action) :=
  match s.phase with
  | .GAME_OVER => some []
  | .SETUP_PLACE_SETTLEMENT => do
    let verts ← getValidSetupSettlementVertices s
    pure (verts.map Action.PLACE_SETUP_SETTLEMENT)
  | .SETUP_PLACE_ROAD => do
    let edges ← getValidSetupRoadEdges s
    pure (edges.map Action.PLACE_SETUP_ROAD)
  | .ROLL_DICE => some [.ROLL_DICE]
  | .DISCARD =>
    match s.playersNeedingDiscard with
    | [] => none
    | pid :: _ => do
      let p ← s.players.get? pid
      let total := totalResources p.resources
      pure (enumerateDiscard p.resources (total.fdiv 2))
  | .MOVE_ROBBER => some ((getValidRobberHexes s).map Action.MOVE_ROBBER)
  | .STEAL => do
    let targets ← getStealTargets s s.robberHex s.currentPlayer
    if targets.isEmpty then pure [.STEAL_RESOURCE none]
    else pure (targets.map fun t => Action.STEAL_RESOURCE (some t))
  | .TRADE_BUILD_PLAY => tradeBuildPlayActions s
  | .ROAD_BUILDING_PLACE => do
    let edges ← getValidRoadEdgesNoResourceCheck s s.currentPlayer
    pure (edges.map Action.PLACE_ROAD_BUILDING_ROAD)
  | .YEAR_OF_PLENTY_PICK => some (yopActions s)
  | .MONOPOLY_PICK => some (Resource.all.map Action.PICK_MONOPOLY_RESOURCE)
  | .PRE_GAME => some []

/-! ## Action application -/

/-- `_apply_setup_settlement` -/
def applySetupSettlement (s : CatanState) (vertex : Nat) : Option CatanState := do
  let pid := s.currentPlayer
  let vb ← setAt s.vertexBuildings vertex (some (.settlement, pid))
  let players ← setPlayer s.players pid fun p =>
    { p with remainingSettlements := p.remainingSettlements - 1 }
  let s1 := { s with vertexBuildings := vb, players := players }
  let s2 ←
    if s1.setupRound = 1 then do
      let adjHexes ← s1.topology.vertexAdjacentHexes.get? vertex
      adjHexes.foldlM
        (fun st hid => do
          let terr ← st.hexTerrains.get? hid
          match terrainToResource terr with
          | none => pure st
          | some res => do
            let players' ← setPlayer st.players pid fun p =>
              { p with resources := addRes p.resources res 1 }
            pure { st with players := players', bank := addRes st.bank res (-1) })
        s1
    else pure s1
  pure { s2 with lastPlacedVertex := some vertex, phase := .SETUP_PLACE_ROAD }

/-- `_apply_setup_road` -/
def applySetupRoad (s : CatanState) (edge : Nat) : Option CatanState := do
  let pid := s.currentPlayer
  let er ← setAt s.edgeRoads edge (some pid)
  let players ← setPlayer s.players pid fun p =>
    { p with remainingRoads := p.remainingRoads - 1 }
  let s1 := { s with edgeRoads := er, players := players }
  let order := getSetupOrder s1.playerCount
  let nextIdx := s1.setupIdx + 1
  if order.length ≤ nextIdx then
    pure { s1 with phase := .ROLL_DICE, currentPlayer := 0,
                   lastPlacedVertex := none, turnNumber := 1 }
  else do
    let np ← order.get? nextIdx
    pure { s1 with currentPlayer := np, setupIdx := nextIdx,
                   setupRound := if s1.playerCount ≤ nextIdx then 1 else 0,
                   phase := .SETUP_PLACE_SETTLEMENT, lastPlacedVertex := none }

/-- `_apply_roll_dice`, with the two die values supplied by the caller
(the `randint(1, 7)` draws). -/
def applyRollDice (s : CatanState) (d1 d2 : Nat) : Option CatanState := do
  let total := d1 + d2
  let s1 := { s with lastRoll := some (d1, d2) }
  if total = 7 then do
    let need ← (List.range s1.playerCount).filterM fun pid => do
      let p ← s1.players.get? pid
      pure (7 < totalResources p.resources)
    if need.isEmpty then pure { s1 with phase := .MOVE_ROBBER }
    else pure { s1 with phase := .DISCARD, playersNeedingDiscard := need }
  else do
    let s2 ← distributeResources s1 total
    pure { s2 with phase := .TRADE_BUILD_PLAY }

/-- `_apply_discard` (amounts already unpacked from the action tuple). -/
def applyDiscard (s : CatanState) (amounts : Resource → Int) : Option CatanState := do
  match s.playersNeedingDiscard with
  | [] => none
  | pid :: rest => do
    let players ← setPlayer s.players pid fun p =>
      { p with resources := fun r => p.resources r - amounts r }
    let s1 := { s with players := players, bank := fun r => s.bank r + amounts r,
                       playersNeedingDiscard := rest }
    if rest.isEmpty then pure { s1 with phase := .MOVE_ROBBER }
    else pure s1

/-- `_apply_move_robber` -/
def applyMoveRobber (s : CatanState) (hexId : Nat) : Option CatanState := do
  let s1 := { s with robberHex := hexId }
  let targets ← getStealTargets s1 hexId s1.currentPlayer
  pure { s1 with phase := if targets.isEmpty then .TRADE_BUILD_PLAY else .STEAL }

/-- `_apply_steal`.  `randIdx` stands for the `randint(0, len(available))`
draw; the source always draws in range, so runs with `randIdx` out of range
are `none` and never correspond to a Python run. -/
def applySteal (s : CatanState) (victim : Option Nat) (randIdx : Nat) :
    Option CatanState := do
  match victim with
  | none => pure { s with phase := .TRADE_BUILD_PLAY }
  | some v => do
    let vres ← s.players.get? v
    let available := Resource.all.flatMap fun r =>
      List.replicate (vres.resources r).toNat r
    if available.isEmpty then pure { s with phase := .TRADE_BUILD_PLAY }
    else do
      let stolen ← available.get? randIdx
      let players1 ← setPlayer s.players v fun p =>
        { p with resources := addRes p.resources stolen (-1) }
      let players2 ← setPlayer players1 s.currentPlayer fun p =>
        { p with resources := addRes p.resources stolen 1 }
      pure { s with players := players2, phase := .TRADE_BUILD_PLAY }

/-- `_apply_build_road` -/
def applyBuildRoad (s : CatanState) (player edge : Nat) (free : Bool) :
    Option CatanState := do
  let er ← setAt s.edgeRoads edge (some player)
  let players ← setPlayer s.players player fun p =>
    { p with remainingRoads := p.remainingRoads - 1 }
  let s1 := { s with edgeRoads := er, players := players }
  if free then pure s1
  else do
    let players2 ← setPlayer s1.players player fun p =>
      { p with resources := fun r => p.resources r - roadCost r }
    pure { s1 with players := players2, bank := fun r => s1.bank r + roadCost r }

/-- `_apply_build_settlement` -/
def applyBuildSettlement (s : CatanState) (vertex : Nat) : Option CatanState := do
  let pid := s.currentPlayer
  let vb ← setAt s.vertexBuildings vertex (some (.settlement, pid))
  let players ← setPlayer s.players pid fun p =>
    { p with remainingSettlements := p.remainingSettlements - 1,
             resources := fun r => p.resources r - settlementCost r }
  pure { s with vertexBuildings := vb, players := players,
                bank := fun r => s.bank r + settlementCost r }

/-- `_apply_build_city` -/
def applyBuildCity (s : CatanState) (vertex : Nat) : Option CatanState := do
  let pid := s.currentPlayer
  let vb ← setAt s.vertexBuildings vertex (some (.city, pid))
  let players ← setPlayer s.players pid fun p =>
    { p with remainingCities := p.remainingCities - 1,
             remainingSettlements := p.remainingSettlements + 1,
             resources := fun r => p.resources r - cityCost r }
  pure { s with vertexBuildings := vb, players := players,
                bank := fun r => s.bank r + cityCost r }

/-- `_apply_buy_dev_card` (`deck.pop()` draws from the end and raises on an
empty deck). -/
def applyBuyDevCard (s : CatanState) : Option CatanState := do
  let card ← s.devCardDeck.getLast?
  let players ← setPlayer s.players s.currentPlayer fun p =>
    { p with resources := fun r => p.resources r - devCardCost r,
             newDevCards := p.newDevCards ++ [card] }
  pure { s with devCardDeck := s.devCardDeck.dropLast, players := players,
                bank := fun r => s.bank r + devCardCost r }

/-- `_apply_play_knight` -/
def applyPlayKnight (s : CatanState) : Option CatanState := do
  let players ← setPlayer s.players s.currentPlayer fun p =>
    { p with devCards := removeDevCard p.devCards .knight,
             knightsPlayed := p.knightsPlayed + 1,
             hasPlayedDevCardThisTurn := true }
  let s1 ← updateLargestArmy { s with players := players }
  pure { s1 with phase := .MOVE_ROBBER }

/-- `_apply_play_road_building` -/
def applyPlayRoadBuilding (s : CatanState) : Option CatanState := do
  let players ← setPlayer s.players s.currentPlayer fun p =>
    { p with devCards := removeDevCard p.devCards .roadBuilding,
             hasPlayedDevCardThisTurn := true }
  let s1 := { s with players := players }
  let p ← s1.players.get? s1.currentPlayer
  let roadsToPlace := min 2 p.remainingRoads
  if roadsToPlace = 0 then pure s1
  else pure { s1 with phase := .ROAD_BUILDING_PLACE,
                      roadBuildingRoadsLeft := roadsToPlace }

/-- `_apply_place_road_building_road` -/
def applyPlaceRoadBuildingRoad (s : CatanState) (edge : Nat) : Option CatanState := do
  let pid := s.currentPlayer
  let s1 ← applyBuildRoad s pid edge true
  let s2 := { s1 with roadBuildingRoadsLeft := s1.roadBuildingRoadsLeft - 1 }
  let s3 ←
    if s2.roadBuildingRoadsLeft ≤ 0 then pure { s2 with phase := .TRADE_BUILD_PLAY }
    else do
      let valid ← getValidRoadEdgesNoResourceCheck s2 pid
      if valid.isEmpty then
        pure { s2 with phase := .TRADE_BUILD_PLAY, roadBuildingRoadsLeft := 0 }
      else pure s2
  updateLongestRoad s3

/-- `_apply_play_year_of_plenty` -/
def applyPlayYearOfPlenty (s : CatanState) : Option CatanState := do
  let players ← setPlayer s.players s.currentPlayer fun p =>
    { p with devCards := removeDevCard p.devCards .yearOfPlenty,
             hasPlayedDevCardThisTurn := true }
  pure { s with players := players, phase := .YEAR_OF_PLENTY_PICK }

/-- `_apply_pick_yop` -/
def applyPickYop (s : CatanState) (r1 r2 : Resource) : Option CatanState := do
  let players ← setPlayer s.players s.currentPlayer fun p =>
    { p with resources := addRes (addRes p.resources r1 1) r2 1 }
  pure { s with players := players,
                bank := addRes (addRes s.bank r1 (-1)) r2 (-1),
                phase := .TRADE_BUILD_PLAY }

/-- `_apply_play_monopoly` -/
def applyPlayMonopoly (s : CatanState) : Option CatanState := do
  let players ← setPlayer s.players s.currentPlayer fun p =>
    { p with devCards := removeDevCard p.devCards .monopoly,
             hasPlayedDevCardThisTurn := true }
  pure { s with players := players, phase := .MONOPOLY_PICK }

/-- `_apply_pick_monopoly` (`pid` and `amount` of the source are inlined;
both are pure locals used unchanged). -/
def applyPickMonopoly (s : CatanState) (resource : Resource) : Option CatanState := do
  let acc ← (List.range s.playerCount).foldlM
    (fun (acc : Int × List PlayerState) i => do
      if i = s.currentPlayer then pure acc
      else do
        let p ← acc.2.get? i
        if 0 < p.resources resource then
          pure (acc.1 + p.resources resource,
            acc.2.set i { p with resources := updRes p.resources resource 0 })
        else pure acc)
    (0, s.players)
  let players ← setPlayer acc.2 s.currentPlayer fun p =>
    { p with resources := addRes p.resources resource acc.1 }
  pure { s with players := players, phase := .TRADE_BUILD_PLAY }

/-- `_apply_maritime_trade` -/
def applyMaritimeTrade (s : CatanState) (give receive : Resource) :
    Option CatanState := do
  let pid := s.currentPlayer
  let ratio ← playerTradeRatioFn s pid give
  let players ← setPlayer s.players pid fun p =>
    { p with resources := addRes (addRes p.resources give (-(ratio : Int))) receive 1 }
  pure { s with players := players,
                bank := addRes (addRes s.bank give (ratio : Int)) receive (-1) }

/-- `_apply_end_turn`: promote new dev cards, clear the per-turn flag, check
victory, else pass the turn (`(pid + 1) % player_count`, which raises in
Python when `player_count = 0`). -/
def applyEndTurn (s : CatanState) : Option CatanState := do
  let players ← setPlayer s.players s.currentPlayer fun p =>
    { p with devCards := p.devCards ++ p.newDevCards, newDevCards := [],
             hasPlayedDevCardThisTurn := false }
  let s2 ← checkGameOver { s with players := players }
  if s2.phase = .GAME_OVER then pure s2
  else if s2.playerCount = 0 then none
  else
    pure { s2 with currentPlayer := (s2.currentPlayer + 1) % s2.playerCount,
                   turnNumber := s2.turnNumber + 1, lastRoll := none,
                   phase := .ROLL_DICE }

/-! ## `step` -/

/-- The pseudo-random draws a single `step` call can consume. -/
structure StepRand where
  d1 : Nat
  d2 : Nat
  stealIdx : Nat

/-- `CatanEnv.step`, state-transition part.  The unknown-action `ValueError`
branch is unrepresentable because `Action` is closed. -/
def stepState (s : CatanState) (a : Action) (rnd : StepRand) : Option CatanState :=
  match a with
  | .PLACE_SETUP_SETTLEMENT v => applySetupSettlement s v
  | .PLACE_SETUP_ROAD e => applySetupRoad s e
  | .ROLL_DICE => applyRollDice s rnd.d1 rnd.d2
  | .DISCARD_RESOURCES counts => do
    let a0 ← counts.get? 0
    let a1 ← counts.get? 1
    let a2 ← counts.get? 2
    let a3 ← counts.get? 3
    let a4 ← counts.get? 4
    applyDiscard s fun r => match r with
      | .lumber => (a0 : Int)
      | .brick => (a1 : Int)
      | .wool => (a2 : Int)
      | .grain => (a3 : Int)
      | .ore => (a4 : Int)
  | .MOVE_ROBBER h => applyMoveRobber s h
  | .STEAL_RESOURCE v => applySteal s v rnd.stealIdx
  | .BUILD_ROAD e => do
    let s1 ← applyBuildRoad s s.currentPlayer e false
    updateLongestRoad s1
  | .BUILD_SETTLEMENT v => do
    let s1 ← applyBuildSettlement s v
    updateLongestRoad s1
  | .BUILD_CITY v => applyBuildCity s v
  | .BUY_DEV_CARD => applyBuyDevCard s
  | .PLAY_KNIGHT => applyPlayKnight s
  | .PLAY_ROAD_BUILDING => applyPlayRoadBuilding s
  | .PLACE_ROAD_BUILDING_ROAD e => applyPlaceRoadBuildingRoad s e
  | .PLAY_YEAR_OF_PLENTY => applyPlayYearOfPlenty s
  | .PICK_YEAR_OF_PLENTY_RESOURCES r1 r2 => applyPickYop s r1 r2
  | .PLAY_MONOPOLY => applyPlayMonopoly s
  | .PICK_MONOPOLY_RESOURCE r => applyPickMonopoly s r
  | .MARITIME_TRADE g r => applyMaritimeTrade s g r
  | .END_TURN => applyEndTurn s

/-- `CatanEnv.step`, full return value `(new_state, reward, done, info)`.
The code computes `reward = 0.0` unconditionally (the float literal is the
exact integer 0), and `info` carries the winner exactly when `done`. -/
def stepFull (s : CatanState) (a : Action) (rnd : StepRand) :
    Option (CatanState × Int × Bool × Option Nat) :=
  (stepState s a rnd).map fun s' =>
    (s', 0, decide (s'.phase = .GAME_OVER),
     if s'.phase = .GAME_OVER then s'.winner else none)

/-- `CatanEnv.__init__`: `raise ValueError` unless the player count is 3 or
4 (the argument is any Python `int`). -/
def envInitPlayerCount (playerCount : Int) : Option Int :=
  if playerCount = 3 ∨ playerCount = 4 then some playerCount else none

/-! ## Concrete states used for witnesses and counterexamples -/

/-- A token layout with the desert (hex 18 of `terrainDistribution`) empty. -/
def sampleHexNumbers : List (Option Nat) :=
  [some 11, some 3, some 6, some 5, some 4, some 9, some 10, some 8, some 4,
   some 11, some 12, some 9, some 10, some 8, some 3, some 6, some 2, some 5, none]

/-- A freshly reset state on the standard board (players 4, identity
shuffles, harbors irrelevant to the properties evaluated on it). -/
def sReset : CatanState :=
  { phase := .SETUP_PLACE_SETTLEMENT
    currentPlayer := 0
    playerCount := 4
    turnNumber := 0
    topology := standardTopology
    hexTerrains := terrainDistribution
    hexNumbers := sampleHexNumbers
    vertexBuildings := List.replicate standardTopology.vertexCount none
    edgeRoads := List.replicate standardTopology.edgeCount none
    harbors := []
    robberHex := 18
    players := (List.range 4).map PlayerState.init
    devCardDeck := devCardDistribution
    bank := fun _ => BANK_PER_RESOURCE
    longestRoadPlayer := none
    longestRoadLength := 0
    largestArmyPlayer := none
    largestArmySize := 0
    lastRoll := none
    setupRound := 0
    setupIdx := 0
    playersNeedingDiscard := []
    roadBuildingRoadsLeft := 0
    lastPlacedVertex := none
    winner := none }

/-- Player 0 about to win: three cities (vertices 0, 3, 7, pairwise
non-adjacent), both awards, five roads backing the longest-road award. -/
def winPlayers : List PlayerState :=
  [{ PlayerState.init 0 with knightsPlayed := 3, remainingCities := 1,
                             remainingRoads := 10 },
   PlayerState.init 1, PlayerState.init 2, PlayerState.init 3]

def winVertexBuildings : List (Option (BuildingKind × Nat)) :=
  (((List.replicate stdTopoData.vertexCount none).set 0
      (some (.city, 0))).set 3 (some (.city, 0))).set 7 (some (.city, 0))

def winEdgeRoads : List (Option Nat) :=
  (List.range stdTopoData.edgeCount).map fun e => if e < 5 then some 0 else none

def sWin : CatanState :=
  { sReset with
      phase := .TRADE_BUILD_PLAY
      turnNumber := 20
      topology := stdTopoData
      vertexBuildings := winVertexBuildings
      edgeRoads := winEdgeRoads
      players := winPlayers
      devCardDeck := []
      longestRoadPlayer := some 0
      longestRoadLength := 5
      largestArmyPlayer := some 0
      largestArmySize := 3
      lastRoll := some (2, 3)
      setupRound := 1
      setupIdx := 8 }

/-! ## Inversion helpers for the `Option` plumbing -/

theorem obind {α β : Type} {x : Option α} {f : α → Option β} {b : β}
    (h : x.bind f = some b) : ∃ a, x = some a ∧ f a = some b := by
  cases x with
  | none => simp at h
  | some a => exact ⟨a, rfl, h⟩

theorem setAt_inv {α : Type} {l : List α} {i : Nat} {a : α} {l' : List α}
    (h : setAt l i a = some l') : ∃ x, l.get? i = some x ∧ l' = l.set i a := by
  unfold setAt at h
  simp only [Option.pure_def, Option.bind_eq_bind] at h
  obtain ⟨x, hx, h⟩ := obind h
  simp only [Option.some.injEq] at h
  exact ⟨x, hx, h.symm⟩

theorem setPlayer_inv {l : List PlayerState} {i : Nat} {f : PlayerState → PlayerState}
    {l' : List PlayerState} (h : setPlayer l i f = some l') :
    ∃ p, l.get? i = some p ∧ l' = l.set i (f p) := by
  unfold setPlayer at h
  simp only [Option.pure_def, Option.bind_eq_bind] at h
  obtain ⟨p, hp, h⟩ := obind h
  simp only [Option.some.injEq] at h
  exact ⟨p, hp, h.symm⟩

/-! ## Frame and phase lemmas for the apply functions -/

theorem updateLongestRoad_frame {s s' : CatanState}
    (h : updateLongestRoad s = some s') :
    ∃ lp ll, s' = { s with longestRoadPlayer := lp, longestRoadLength := ll } := by
  unfold updateLongestRoad at h
  simp only [Option.pure_def, Option.bind_eq_bind] at h
  obtain ⟨fst, _, h⟩ := obind h
  obtain ⟨lp0, ll0⟩ := fst
  cases lp0 with
  | none =>
    obtain ⟨fin, _, h⟩ := obind h
    simp only [Option.some.injEq] at h
    exact ⟨fin.1, fin.2, h.symm⟩
  | some hp =>
    obtain ⟨cur, _, h⟩ := obind h
    split at h <;>
      (obtain ⟨fin, _, h⟩ := obind h
       simp only [Option.some.injEq] at h
       exact ⟨fin.1, fin.2, h.symm⟩)

theorem updateLargestArmy_frame {s s' : CatanState}
    (h : updateLargestArmy s = some s') :
    ∃ lp ll, s' = { s with largestArmyPlayer := lp, largestArmySize := ll } := by
  unfold updateLargestArmy at h
  simp only [Option.pure_def, Option.bind_eq_bind] at h
  obtain ⟨fin, _, h⟩ := obind h
  simp only [Option.some.injEq] at h
  exact ⟨fin.1, fin.2, h.symm⟩

theorem checkGameOver_spec {s s' : CatanState} (h : checkGameOver s = some s') :
    ∃ vp, calculateVp s s.currentPlayer = some vp ∧
      ((VP_TO_WIN ≤ vp ∧
        s' = { s with phase := .GAME_OVER, winner := some s.currentPlayer }) ∨
       (vp < VP_TO_WIN ∧ s' = s)) := by
  unfold checkGameOver at h
  simp only [Option.pure_def, Option.bind_eq_bind] at h
  obtain ⟨vp, hvp, h⟩ := obind h
  refine ⟨vp, hvp, ?_⟩
  split at h
  · simp only [Option.some.injEq] at h
    exact Or.inl ⟨by omega, h.symm⟩
  · simp only [Option.some.injEq] at h
    exact Or.inr ⟨by omega, h.symm⟩

theorem applySetupSettlement_phase {s s' : CatanState} {v : Nat}
    (h : applySetupSettlement s v = some s') : s'.phase = .SETUP_PLACE_ROAD := by
  unfold applySetupSettlement at h
  simp only [Option.pure_def, Option.bind_eq_bind] at h
  obtain ⟨vb, _, h⟩ := obind h
  obtain ⟨pl, _, h⟩ := obind h
  split at h
  · obtain ⟨adj, _, h⟩ := obind h
    obtain ⟨s2, _, h⟩ := obind h
    simp only [Option.some.injEq] at h
    subst h; rfl
  · obtain ⟨s2, _, h⟩ := obind h
    simp only [Option.some.injEq] at h
    subst h; rfl

theorem applySetupRoad_phase {s s' : CatanState} {e : Nat}
    (h : applySetupRoad s e = some s') :
    s'.phase = .ROLL_DICE ∨ s'.phase = .SETUP_PLACE_SETTLEMENT := by
  unfold applySetupRoad at h
  simp only [Option.pure_def, Option.bind_eq_bind] at h
  obtain ⟨er, _, h⟩ := obind h
  obtain ⟨pl, _, h⟩ := obind h
  split at h
  · simp only [Option.some.injEq] at h; subst h; left; rfl
  · obtain ⟨np, _, h⟩ := obind h
    simp only [Option.some.injEq] at h; subst h; right; rfl

theorem applyRollDice_phase {s s' : CatanState} {d1 d2 : Nat}
    (h : applyRollDice s d1 d2 = some s') :
    s'.phase = .MOVE_ROBBER ∨ s'.phase = .DISCARD ∨ s'.phase = .TRADE_BUILD_PLAY := by
  unfold applyRollDice at h
  simp only [Option.pure_def, Option.bind_eq_bind] at h
  split at h
  · obtain ⟨need, _, h⟩ := obind h
    split at h <;> (simp only [Option.some.injEq] at h; subst h; simp)
  · obtain ⟨s2, _, h⟩ := obind h
    simp only [Option.some.injEq] at h; subst h; simp

theorem applyDiscard_phase {s s' : CatanState} {amounts : Resource → Int}
    (h : applyDiscard s amounts = some s') :
    s'.phase = .MOVE_ROBBER ∨ s'.phase = s.phase := by
  unfold applyDiscard at h
  cases hq : s.playersNeedingDiscard with
  | nil => rw [hq] at h; simp at h
  | cons pid rest =>
    rw [hq] at h
    simp only [Option.pure_def, Option.bind_eq_bind] at h
    obtain ⟨pl, _, h⟩ := obind h
    split at h <;> (simp only [Option.some.injEq] at h; subst h; simp)

theorem applyMoveRobber_phase {s s' : CatanState} {hexId : Nat}
    (h : applyMoveRobber s hexId = some s') :
    s'.phase = .STEAL ∨ s'.phase = .TRADE_BUILD_PLAY := by
  unfold applyMoveRobber at h
  simp only [Option.pure_def, Option.bind_eq_bind] at h
  obtain ⟨t, _, h⟩ := obind h
  simp only [Option.some.injEq] at h
  subst h
  split <;> simp

theorem applySteal_phase {s s' : CatanState} {v : Option Nat} {i : Nat}
    (h : applySteal s v i = some s') : s'.phase = .TRADE_BUILD_PLAY := by
  unfold applySteal at h
  cases v with
  | none =>
    simp only [Option.pure_def, Option.some.injEq] at h
    subst h; rfl
  | some p =>
    simp only [Option.pure_def, Option.bind_eq_bind] at h
    obtain ⟨vp, _, h⟩ := obind h
    split at h
    · simp only [Option.some.injEq] at h; subst h; rfl
    · obtain ⟨st, _, h⟩ := obind h
      obtain ⟨p1, _, h⟩ := obind h
      obtain ⟨p2, _, h⟩ := obind h
      simp only [Option.some.injEq] at h
      subst h; rfl

theorem applyBuildRoad_phase {s s' : CatanState} {player edge : Nat} {free : Bool}
    (h : applyBuildRoad s player edge free = some s') : s'.phase = s.phase := by
  unfold applyBuildRoad at h
  simp only [Option.pure_def, Option.bind_eq_bind] at h
  obtain ⟨er, _, h⟩ := obind h
  obtain ⟨pl, _, h⟩ := obind h
  split at h
  · simp only [Option.some.injEq] at h; subst h; rfl
  · obtain ⟨p2, _, h⟩ := obind h
    simp only [Option.some.injEq] at h; subst h; rfl

theorem applyBuildSettlement_phase {s s' : CatanState} {v : Nat}
    (h : applyBuildSettlement s v = some s') : s'.phase = s.phase := by
  unfold applyBuildSettlement at h
  simp only [Option.pure_def, Option.bind_eq_bind] at h
  obtain ⟨vb, _, h⟩ := obind h
  obtain ⟨pl, _, h⟩ := obind h
  simp only [Option.some.injEq] at h; subst h; rfl

theorem applyBuildCity_phase {s s' : CatanState} {v : Nat}
    (h : applyBuildCity s v = some s') : s'.phase = s.phase := by
  unfold applyBuildCity at h
  simp only [Option.pure_def, Option.bind_eq_bind] at h
  obtain ⟨vb, _, h⟩ := obind h
  obtain ⟨pl, _, h⟩ := obind h
  simp only [Option.some.injEq] at h; subst h; rfl

theorem applyBuyDevCard_phase {s s' : CatanState}
    (h : applyBuyDevCard s = some s') : s'.phase = s.phase := by
  unfold applyBuyDevCard at h
  simp only [Option.pure_def, Option.bind_eq_bind] at h
  obtain ⟨card, _, h⟩ := obind h
  obtain ⟨pl, _, h⟩ := obind h
  simp only [Option.some.injEq] at h; subst h; rfl

theorem applyPlayKnight_phase {s s' : CatanState}
    (h : applyPlayKnight s = some s') : s'.phase = .MOVE_ROBBER := by
  unfold applyPlayKnight at h
  simp only [Option.pure_def, Option.bind_eq_bind] at h
  obtain ⟨pl, _, h⟩ := obind h
  obtain ⟨s1, _, h⟩ := obind h
  simp only [Option.some.injEq] at h; subst h; rfl

theorem applyPlayRoadBuilding_phase {s s' : CatanState}
    (h : applyPlayRoadBuilding s = some s') :
    s'.phase = s.phase ∨ s'.phase = .ROAD_BUILDING_PLACE := by
  unfold applyPlayRoadBuilding at h
  simp only [Option.pure_def, Option.bind_eq_bind] at h
  obtain ⟨pl, _, h⟩ := obind h
  obtain ⟨p, _, h⟩ := obind h
  split at h <;> (simp only [Option.some.injEq] at h; subst h; simp)

theorem applyPlaceRoadBuildingRoad_phase {s s' : CatanState} {e : Nat}
    (h : applyPlaceRoadBuildingRoad s e = some s') :
    s'.phase = .TRADE_BUILD_PLAY ∨ s'.phase = s.phase := by
  unfold applyPlaceRoadBuildingRoad at h
  simp only [Option.pure_def, Option.bind_eq_bind] at h
  obtain ⟨s1, hs1, h⟩ := obind h
  have hph1 : s1.phase = s.phase := applyBuildRoad_phase hs1
  split at h
  · obtain ⟨s3, hs3, h⟩ := obind h
    simp only [Option.some.injEq] at hs3
    obtain ⟨lp, ll, hfr⟩ := updateLongestRoad_frame h
    subst hfr
    subst hs3
    left; rfl
  · obtain ⟨valid, _, h⟩ := obind h
    split at h
    · obtain ⟨s3, hs3, h⟩ := obind h
      simp only [Option.some.injEq] at hs3
      obtain ⟨lp, ll, hfr⟩ := updateLongestRoad_frame h
      subst hfr
      subst hs3
      left; rfl
    · obtain ⟨s3, hs3, h⟩ := obind h
      simp only [Option.some.injEq] at hs3
      obtain ⟨lp, ll, hfr⟩ := updateLongestRoad_frame h
      subst hfr
      subst hs3
      right; exact hph1

theorem applyPlayYearOfPlenty_phase {s s' : CatanState}
    (h : applyPlayYearOfPlenty s = some s') : s'.phase = .YEAR_OF_PLENTY_PICK := by
  unfold applyPlayYearOfPlenty at h
  simp only [Option.pure_def, Option.bind_eq_bind] at h
  obtain ⟨pl, _, h⟩ := obind h
  simp only [Option.some.injEq] at h; subst h; rfl

theorem applyPickYop_phase {s s' : CatanState} {r1 r2 : Resource}
    (h : applyPickYop s r1 r2 = some s') : s'.phase = .TRADE_BUILD_PLAY := by
  unfold applyPickYop at h
  simp only [Option.pure_def, Option.bind_eq_bind] at h
  obtain ⟨pl, _, h⟩ := obind h
  simp only [Option.some.injEq] at h; subst h; rfl

theorem applyPlayMonopoly_phase {s s' : CatanState}
    (h : applyPlayMonopoly s = some s') : s'.phase = .MONOPOLY_PICK := by
  unfold applyPlayMonopoly at h
  simp only [Option.pure_def, Option.bind_eq_bind] at h
  obtain ⟨pl, _, h⟩ := obind h
  simp only [Option.some.injEq] at h; subst h; rfl

theorem applyPickMonopoly_phase {s s' : CatanState} {r : Resource}
    (h : applyPickMonopoly s r = some s') : s'.phase = .TRADE_BUILD_PLAY := by
  unfold applyPickMonopoly at h
  simp only [Option.pure_def, Option.bind_eq_bind] at h
  obtain ⟨acc, _, h⟩ := obind h
  obtain ⟨pl, _, h⟩ := obind h
  simp only [Option.some.injEq] at h; subst h; rfl

theorem applyMaritimeTrade_phase {s s' : CatanState} {g r : Resource}
    (h : applyMaritimeTrade s g r = some s') : s'.phase = s.phase := by
  unfold applyMaritimeTrade at h
  simp only [Option.pure_def, Option.bind_eq_bind] at h
  obtain ⟨ratio, _, h⟩ := obind h
  obtain ⟨pl, _, h⟩ := obind h
  simp only [Option.some.injEq] at h; subst h; rfl

/-! ## End-of-turn analysis -/

/-- Replacing the current player by one holding the same total number of
victory-point cards does not change the recomputed victory points. -/
theorem calculateVp_count_congr {s : CatanState} {p q : PlayerState}
    (hp : s.players.get? s.currentPlayer = some p)
    (hcount : q.devCards.count .victoryPoint + q.newDevCards.count .victoryPoint
            = p.devCards.count .victoryPoint + p.newDevCards.count .victoryPoint) :
    calculateVp { s with players := s.players.set s.currentPlayer q } s.currentPlayer
      = calculateVp s s.currentPlayer := by
  have hget : (s.players.set s.currentPlayer q).get? s.currentPlayer = some q := by
    rw [List.get?_set_eq, hp]; rfl
  unfold calculateVp
  have hv : vpBase { s with players := s.players.set s.currentPlayer q }
      s.currentPlayer = vpBase s s.currentPlayer := rfl
  rw [hv]
  cases hb : vpBase s s.currentPlayer with
  | none => rfl
  | some base =>
    simp only [Option.pure_def, Option.bind_eq_bind, Option.some_bind, hget, hp]
    dsimp only
    simp only [Option.some.injEq]
    omega

/-- What `_apply_end_turn` does when the incoming phase is not already
`GAME_OVER`: the game ends (with the current player as winner) exactly when
the current player's recomputed victory points reach 10, and the promotion
of newly bought development cards does not change that count. -/
theorem applyEndTurn_spec {s s' : CatanState} (hpre : s.phase ≠ .GAME_OVER)
    (h : applyEndTurn s = some s') :
    ∃ vp, calculateVp s s.currentPlayer = some vp ∧
      ((VP_TO_WIN ≤ vp ∧ s'.phase = .GAME_OVER ∧ s'.winner = some s.currentPlayer) ∨
       (vp < VP_TO_WIN ∧ s'.phase = .ROLL_DICE ∧ s'.winner = s.winner)) := by
  unfold applyEndTurn at h
  simp only [Option.pure_def, Option.bind_eq_bind] at h
  obtain ⟨players', hpl, h⟩ := obind h
  obtain ⟨s2, hs2, h⟩ := obind h
  obtain ⟨p, hp, hset⟩ := setPlayer_inv hpl
  subst hset
  obtain ⟨vp, hvp, hdisj⟩ := checkGameOver_spec hs2
  dsimp only at hvp
  rw [calculateVp_count_congr hp (by simp [List.count_append])] at hvp
  refine ⟨vp, hvp, ?_⟩
  rcases hdisj with ⟨hge, hs2eq⟩ | ⟨hlt, hs2eq⟩
  · subst hs2eq
    dsimp only at h
    rw [if_pos rfl] at h
    simp only [Option.some.injEq] at h
    subst h
    exact Or.inl ⟨hge, rfl, rfl⟩
  · subst hs2eq
    rw [if_neg hpre] at h
    split at h
    · cases h
    · simp only [Option.some.injEq] at h
      subst h
      exact Or.inr ⟨hlt, rfl, rfl⟩

/-- `END_TURN` is enumerated only in the `TRADE_BUILD_PLAY` phase. -/
theorem endTurn_mem_legal {s : CatanState} {acts : List Action}
    (h : getLegalActions s = some acts) (hm : Action.END_TURN ∈ acts) :
    s.phase = .TRADE_BUILD_PLAY := by
  unfold getLegalActions at h
  cases hph : s.phase <;> rw [hph] at h
  -- PRE_GAME
  · simp only [Option.some.injEq] at h; subst h; cases hm
  -- SETUP_PLACE_SETTLEMENT
  · simp only [Option.pure_def, Option.bind_eq_bind] at h
    obtain ⟨verts, _, h⟩ := obind h
    simp only [Option.some.injEq] at h; subst h
    obtain ⟨v, _, hv⟩ := List.mem_map.mp hm; cases hv
  -- SETUP_PLACE_ROAD
  · simp only [Option.pure_def, Option.bind_eq_bind] at h
    obtain ⟨edges, _, h⟩ := obind h
    simp only [Option.some.injEq] at h; subst h
    obtain ⟨v, _, hv⟩ := List.mem_map.mp hm; cases hv
  -- ROLL_DICE
  · simp only [Option.some.injEq] at h; subst h
    simp only [List.mem_singleton] at hm; cases hm
  -- DISCARD
  · cases hq : s.playersNeedingDiscard with
    | nil => rw [hq] at h; cases h
    | cons pid rest =>
      rw [hq] at h
      simp only [Option.pure_def, Option.bind_eq_bind] at h
      obtain ⟨p, _, h⟩ := obind h
      simp only [Option.some.injEq] at h; subst h
      obtain ⟨v, _, hv⟩ := List.mem_map.mp hm; cases hv
  -- MOVE_ROBBER
  · simp only [Option.some.injEq] at h; subst h
    obtain ⟨v, _, hv⟩ := List.mem_map.mp hm; cases hv
  -- STEAL
  · simp only [Option.pure_def, Option.bind_eq_bind] at h
    obtain ⟨targets, _, h⟩ := obind h
    split at h <;> (simp only [Option.some.injEq] at h; subst h)
    · simp only [List.mem_singleton] at hm; cases hm
    · obtain ⟨v, _, hv⟩ := List.mem_map.mp hm; cases hv
  -- TRADE_BUILD_PLAY is closed by the rfl attempt of the rw above
  -- ROAD_BUILDING_PLACE
  · simp only [Option.pure_def, Option.bind_eq_bind] at h
    obtain ⟨edges, _, h⟩ := obind h
    simp only [Option.some.injEq] at h; subst h
    obtain ⟨v, _, hv⟩ := List.mem_map.mp hm; cases hv
  -- YEAR_OF_PLENTY_PICK
  · simp only [Option.some.injEq] at h; subst h
    unfold yopActions at hm
    obtain ⟨ir, _, hmem2⟩ := List.mem_flatMap.mp hm
    obtain ⟨r2, _, hv⟩ := List.mem_filterMap.mp hmem2
    split at hv <;> split at hv <;> first
      | cases hv
      | simp at hv
  -- MONOPOLY_PICK
  · simp only [Option.some.injEq] at h; subst h
    obtain ⟨v, _, hv⟩ := List.mem_map.mp hm; cases hv
  -- GAME_OVER
  · simp only [Option.some.injEq] at h; subst h; cases hm

/-! ## Discard enumeration analysis (C5) -/

/-- Sum of a list of naturals as an integer. -/
def castSum (l : List Nat) : Int := (l.map fun (n : Nat) => (n : Int)).sum

theorem castSum_nil : castSum [] = 0 := rfl

theorem castSum_cons (a : Nat) (l : List Nat) :
    castSum (a :: l) = (a : Int) + castSum l := by
  unfold castSum
  rw [List.map_cons, List.sum_cons]

theorem castSum_nonneg (l : List Nat) : 0 ≤ castSum l := by
  induction l with
  | nil => simp [castSum_nil]
  | cons a t ih =>
    rw [castSum_cons]
    have ha : (0 : Int) ≤ (a : Int) := Int.natCast_nonneg a
    omega

theorem forall2_sum_le {hand : Resource → Int} :
    ∀ {suf : List Nat} {rs : List Resource},
      List.Forall₂ (fun (t : Nat) (r : Resource) => (t : Int) ≤ hand r) suf rs →
      castSum suf ≤ (rs.map hand).sum
  | _, _, List.Forall₂.nil => by simp [castSum_nil]
  | _, _, List.Forall₂.cons h hrest => by
    rw [castSum_cons, List.map_cons, List.sum_cons]
    exact add_le_add h (forall2_sum_le hrest)

/-- Membership in the `_recurse` backtracking enumeration: exactly the
extensions of `chosen` by one count per remaining resource slot, bounded by
the held quantity, summing to the remaining target. -/
theorem discardRecurse_mem (hand : Resource → Int) :
    ∀ (rs : List Resource) (remaining : Int) (chosen l : List Nat),
      l ∈ discardRecurse hand rs remaining chosen ↔
      ∃ suf, l = chosen ++ suf ∧
        List.Forall₂ (fun (t : Nat) (r : Resource) => (t : Int) ≤ hand r) suf rs ∧
        castSum suf = remaining := by
  intro rs
  induction rs with
  | nil =>
    intro remaining chosen l
    unfold discardRecurse
    constructor
    · intro hmem
      split at hmem
      · simp only [List.mem_singleton] at hmem
        subst hmem
        exact ⟨[], by simp, List.Forall₂.nil, by simp_all [castSum_nil]⟩
      · cases hmem
    · rintro ⟨suf, rfl, hf, hsum⟩
      cases hf
      rw [castSum_nil] at hsum
      rw [if_pos hsum.symm]
      simp
  | cons r rest ih =>
    intro remaining chosen l
    unfold discardRecurse
    rw [List.mem_flatMap]
    constructor
    · rintro ⟨take, htake, hmem⟩
      rw [List.mem_range] at htake
      split at hmem
      · cases hmem
      · rename_i hprune
        obtain ⟨suf, hl, hf, hsum⟩ := (ih _ _ _).mp hmem
        have htk : (take : Int) ≤ min (hand r) remaining := by omega
        refine ⟨take :: suf, by simp [hl], List.Forall₂.cons (le_min_iff.mp htk).1 hf, ?_⟩
        rw [castSum_cons]
        omega
    · rintro ⟨suf, rfl, hf, hsum⟩
      cases suf with
      | nil => cases hf
      | cons t sufTail =>
        rw [List.forall₂_cons] at hf
        obtain ⟨hhead, htail⟩ := hf
        rw [castSum_cons] at hsum
        have hsum' : castSum sufTail = remaining - t := by omega
        have hnn : 0 ≤ castSum sufTail := castSum_nonneg sufTail
        have hle : (t : Int) ≤ min (hand r) remaining := le_min hhead (by omega)
        refine ⟨t, by rw [List.mem_range]; omega, ?_⟩
        rw [if_neg (by
          push_neg
          calc remaining - (t : Int) = castSum sufTail := hsum'.symm
          _ ≤ (rest.map hand).sum := forall2_sum_le htail)]
        rw [show chosen ++ t :: sufTail = (chosen ++ [t]) ++ sufTail by simp]
        exact (ih _ _ _).mpr ⟨sufTail, rfl, htail, hsum'⟩

/-- Any member of a branch of the backtracking recursion records its branch
count at position `chosen.length`. -/
theorem discardRecurse_get_head (hand : Resource → Int) {rest : List Resource}
    {rem : Int} {chosen : List Nat} {t : Nat} {l : List Nat}
    (h : l ∈ if ((rest.map hand).sum < rem - (t : Int)) then ([] : List (List Nat))
         else discardRecurse hand rest (rem - (t : Int)) (chosen ++ [t])) :
    l.get? chosen.length = some t := by
  split at h
  · cases h
  · obtain ⟨suf, rfl, _, _⟩ := (discardRecurse_mem hand _ _ _ _).mp h
    rw [List.append_assoc]
    rw [List.get?_append_right (le_refl _)]
    simp

/-- The enumeration never repeats a combination. -/
theorem discardRecurse_nodup (hand : Resource → Int) :
    ∀ (rs : List Resource) (remaining : Int) (chosen : List Nat),
      (discardRecurse hand rs remaining chosen).Nodup := by
  intro rs
  induction rs with
  | nil =>
    intro remaining chosen
    unfold discardRecurse
    split <;> simp
  | cons r rest ih =>
    intro remaining chosen
    unfold discardRecurse
    rw [List.nodup_flatMap]
    refine ⟨fun take _ => ?_, ?_⟩
    · split
      · exact List.nodup_nil
      · exact ih _ _
    · refine (List.pairwise_lt_range _).imp ?_
      intro a b hab
      intro l hla hlb
      have h1 := discardRecurse_get_head hand hla
      have h2 := discardRecurse_get_head hand hlb
      rw [h1] at h2
      injection h2 with h2
      omega

/-! ## Claim theorems: C8, C9, C7 -/

/-- Claim C8: building the board topology from the standard 19-hex
coordinate list yields exactly 54 vertices and 72 edges; every vertex has 2
or 3 adjacent edges; and every edge's two endpoints are distinct vertices,
each of whose vertex-to-edges adjacency lists contains exactly that edge
entry for it. -/
theorem c8_topology_invariants :
    standardTopology = buildBoardTopology standardHexPositions ∧
    standardTopology.vertexCount = 54 ∧
    standardTopology.edgeCount = 72 ∧
    standardTopology.vertexAdjacentEdges.length = standardTopology.vertexCount ∧
    (∀ l ∈ standardTopology.vertexAdjacentEdges, l.length = 2 ∨ l.length = 3) ∧
    (∀ ee ∈ standardTopology.edgeEndpoints.enum,
      ee.2.1 ≠ ee.2.2 ∧
      ee.2.1 < standardTopology.vertexCount ∧
      ee.2.2 < standardTopology.vertexCount ∧
      (standardTopology.vertexAdjacentEdges.getD ee.2.1 []).count ee.1 = 1 ∧
      (standardTopology.vertexAdjacentEdges.getD ee.2.2 []).count ee.1 = 1) := by
  refine ⟨rfl, ?_⟩
  rw [← stdTopoData_eq]
  decide

/-- Claim C9: constructing the engine with a player count other than 3 or 4
fails at construction, and player counts 3 and 4 succeed. -/
theorem c9_constructor_player_count (n : Int) :
    (envInitPlayerCount n).isSome ↔ (n = 3 ∨ n = 4) := by
  unfold envInitPlayerCount
  split <;> simp_all

/-- Claim C2: a step out of a non-terminal state reaches phase `GAME_OVER`
only through an `END_TURN` action, and only when the acting player's
recomputed victory points are at least 10 at that moment; the winner is then
that player.  (Under legality `END_TURN` implies phase `TRADE_BUILD_PLAY`,
where the acting player is the current player; the second conjunct records
this.)  Conversely an `END_TURN` by a player with at least 10 recomputed VP
always ends the game. -/
theorem c2_game_over_only_via_end_turn (s s' : CatanState) (a : Action)
    (rnd : StepRand) (hpre : s.phase ≠ .GAME_OVER)
    (hstep : stepState s a rnd = some s') :
    (s'.phase = .GAME_OVER →
      a = .END_TURN ∧
      (∃ vp, calculateVp s s.currentPlayer = some vp ∧ VP_TO_WIN ≤ vp) ∧
      s'.winner = some s.currentPlayer) ∧
    (∀ acts, getLegalActions s = some acts → a ∈ acts → a = .END_TURN →
      s.phase = .TRADE_BUILD_PLAY ∧ getActingPlayer s = s.currentPlayer) ∧
    (a = .END_TURN → ∀ vp, calculateVp s s.currentPlayer = some vp →
      VP_TO_WIN ≤ vp → s'.phase = .GAME_OVER ∧ s'.winner = some s.currentPlayer) := by
  refine ⟨?_, ?_, ?_⟩
  · intro hgo
    cases a with
    | END_TURN =>
      obtain ⟨vp, hvp, hd⟩ := applyEndTurn_spec hpre hstep
      rcases hd with ⟨hge, hph, hw⟩ | ⟨hlt, hph, hw⟩
      · exact ⟨rfl, ⟨vp, hvp, hge⟩, hw⟩
      · rw [hph] at hgo; cases hgo
    | PLACE_SETUP_SETTLEMENT v =>
      rw [applySetupSettlement_phase hstep] at hgo; cases hgo
    | PLACE_SETUP_ROAD e =>
      rcases applySetupRoad_phase hstep with hq | hq <;> (rw [hq] at hgo; cases hgo)
    | ROLL_DICE =>
      rcases applyRollDice_phase hstep with hq | hq | hq <;> (rw [hq] at hgo; cases hgo)
    | DISCARD_RESOURCES counts =>
      simp only [stepState, Option.pure_def, Option.bind_eq_bind] at hstep
      obtain ⟨a0, _, hstep⟩ := obind hstep
      obtain ⟨a1, _, hstep⟩ := obind hstep
      obtain ⟨a2, _, hstep⟩ := obind hstep
      obtain ⟨a3, _, hstep⟩ := obind hstep
      obtain ⟨a4, _, hstep⟩ := obind hstep
      rcases applyDiscard_phase hstep with hq | hq
      · rw [hq] at hgo; cases hgo
      · rw [hq] at hgo; exact absurd hgo hpre
    | MOVE_ROBBER hexId =>
      rcases applyMoveRobber_phase hstep with hq | hq <;> (rw [hq] at hgo; cases hgo)
    | STEAL_RESOURCE victim =>
      rw [applySteal_phase hstep] at hgo; cases hgo
    | BUILD_ROAD e =>
      simp only [stepState, Option.pure_def, Option.bind_eq_bind] at hstep
      obtain ⟨s1, hs1, hstep⟩ := obind hstep
      obtain ⟨lp, ll, hfr⟩ := updateLongestRoad_frame hstep
      rw [hfr] at hgo
      dsimp only at hgo
      rw [applyBuildRoad_phase hs1] at hgo
      exact absurd hgo hpre
    | BUILD_SETTLEMENT v =>
      simp only [stepState, Option.pure_def, Option.bind_eq_bind] at hstep
      obtain ⟨s1, hs1, hstep⟩ := obind hstep
      obtain ⟨lp, ll, hfr⟩ := updateLongestRoad_frame hstep
      rw [hfr] at hgo
      dsimp only at hgo
      rw [applyBuildSettlement_phase hs1] at hgo
      exact absurd hgo hpre
    | BUILD_CITY v =>
      rw [applyBuildCity_phase hstep] at hgo; exact absurd hgo hpre
    | BUY_DEV_CARD =>
      rw [applyBuyDevCard_phase hstep] at hgo; exact absurd hgo hpre
    | PLAY_KNIGHT =>
      rw [applyPlayKnight_phase hstep] at hgo; cases hgo
    | PLAY_ROAD_BUILDING =>
      rcases applyPlayRoadBuilding_phase hstep with hq | hq
      · rw [hq] at hgo; exact absurd hgo hpre
      · rw [hq] at hgo; cases hgo
    | PLACE_ROAD_BUILDING_ROAD e =>
      rcases applyPlaceRoadBuildingRoad_phase hstep with hq | hq
      · rw [hq] at hgo; cases hgo
      · rw [hq] at hgo; exact absurd hgo hpre
    | PLAY_YEAR_OF_PLENTY =>
      rw [applyPlayYearOfPlenty_phase hstep] at hgo; cases hgo
    | PICK_YEAR_OF_PLENTY_RESOURCES r1 r2 =>
      rw [applyPickYop_phase hstep] at hgo; cases hgo
    | PLAY_MONOPOLY =>
      rw [applyPlayMonopoly_phase hstep] at hgo; cases hgo
    | PICK_MONOPOLY_RESOURCE r =>
      rw [applyPickMonopoly_phase hstep] at hgo; cases hgo
    | MARITIME_TRADE g r =>
      rw [applyMaritimeTrade_phase hstep] at hgo; exact absurd hgo hpre
  · intro acts hacts hmem ha
    subst ha
    have hph := endTurn_mem_legal hacts hmem
    refine ⟨hph, ?_⟩
    unfold getActingPlayer
    rw [if_neg]
    simp [hph]
  · rintro rfl vp hvp hge
    obtain ⟨vp', hvp', hd⟩ := applyEndTurn_spec hpre hstep
    rw [hvp] at hvp'
    injection hvp' with he
    subst he
    rcases hd with ⟨_, hph, hw⟩ | ⟨hlt, _, _⟩
    · exact ⟨hph, hw⟩
    · omega

/-- Claim C2 witness: at the concrete pre-win state `sWin`, END_TURN indeed
reaches `GAME_OVER` with player 0 as winner and recomputed VP 10. -/
theorem c2_game_over_witness :
    ∃ s', stepState sWin .END_TURN ⟨1, 1, 0⟩ = some s' ∧
      (Action.END_TURN = Action.END_TURN ∧
       (∃ vp, calculateVp sWin sWin.currentPlayer = some vp ∧ VP_TO_WIN ≤ vp) ∧
       s'.winner = some sWin.currentPlayer) := by
  have hph : (stepState sWin .END_TURN ⟨1, 1, 0⟩).map (fun t => t.phase) =
      some Phase.GAME_OVER := by decide
  cases hs : stepState sWin .END_TURN ⟨1, 1, 0⟩ with
  | none => rw [hs] at hph; cases hph
  | some s' =>
    rw [hs] at hph
    simp only [Option.map_some', Option.some.injEq] at hph
    have hc := (c2_game_over_only_via_end_turn sWin s' .END_TURN ⟨1, 1, 0⟩
      (by decide) hs).1 hph
    exact ⟨s', rfl, hc⟩

/-- Claim C5: in the `DISCARD` phase with head-of-queue player `pid` holding
hand `p.resources` (summing to `H`), the legal-action enumerator returns
exactly the 5-tuples of non-negative per-resource discard counts, bounded by
the held quantities, summing to `floor(H / 2)`, with no duplicates.  (The
counts are naturals, so non-negativity is by construction.) -/
theorem c5_discard_enumeration (s : CatanState) (pid : Nat) (rest : List Nat)
    (p : PlayerState) (acts : List Action)
    (hph : s.phase = .DISCARD)
    (hq : s.playersNeedingDiscard = pid :: rest)
    (hp : s.players.get? pid = some p)
    (hacts : getLegalActions s = some acts) :
    acts.Nodup ∧
    (∀ a, a ∈ acts ↔ ∃ c0 c1 c2 c3 c4 : Nat,
      a = .DISCARD_RESOURCES [c0, c1, c2, c3, c4] ∧
      (c0 : Int) ≤ p.resources .lumber ∧
      (c1 : Int) ≤ p.resources .brick ∧
      (c2 : Int) ≤ p.resources .wool ∧
      (c3 : Int) ≤ p.resources .grain ∧
      (c4 : Int) ≤ p.resources .ore ∧
      (c0 : Int) + c1 + c2 + c3 + c4 = (totalResources p.resources).fdiv 2) := by
  unfold getLegalActions at hacts
  rw [hph, hq] at hacts
  simp only [Option.pure_def, Option.bind_eq_bind] at hacts
  obtain ⟨p', hp', hacts⟩ := obind hacts
  rw [hp] at hp'
  injection hp' with hp'
  subst hp'
  simp only [Option.some.injEq] at hacts
  subst hacts
  unfold enumerateDiscard
  constructor
  · exact (discardRecurse_nodup p.resources _ _ _).map
      (fun a b hab => by injection hab)
  · intro a
    rw [List.mem_map]
    constructor
    · rintro ⟨l, hl, rfl⟩
      rw [discardRecurse_mem] at hl
      obtain ⟨suf, rfl, hf, hsum⟩ := hl
      rw [show Resource.all = [.lumber, .brick, .wool, .grain, .ore] from rfl] at hf
      obtain ⟨c0, u0, h0, hf, he0⟩ := List.forall₂_cons_right_iff.mp hf
      obtain ⟨c1, u1, h1, hf, he1⟩ := List.forall₂_cons_right_iff.mp hf
      obtain ⟨c2, u2, h2, hf, he2⟩ := List.forall₂_cons_right_iff.mp hf
      obtain ⟨c3, u3, h3, hf, he3⟩ := List.forall₂_cons_right_iff.mp hf
      obtain ⟨c4, u4, h4, hf, he4⟩ := List.forall₂_cons_right_iff.mp hf
      rw [List.forall₂_nil_right_iff] at hf
      subst hf
      subst he4
      subst he3
      subst he2
      subst he1
      subst he0
      refine ⟨c0, c1, c2, c3, c4, rfl, h0, h1, h2, h3, h4, ?_⟩
      simp only [castSum_cons, castSum_nil] at hsum
      omega
    · rintro ⟨c0, c1, c2, c3, c4, rfl, h0, h1, h2, h3, h4, hsum⟩
      refine ⟨[c0, c1, c2, c3, c4], ?_, rfl⟩
      rw [discardRecurse_mem]
      refine ⟨[c0, c1, c2, c3, c4], by simp, ?_, ?_⟩
      · rw [show Resource.all = [.lumber, .brick, .wool, .grain, .ore] from rfl]
        exact .cons h0 (.cons h1 (.cons h2 (.cons h3 (.cons h4 .nil))))
      · simp only [castSum_cons, castSum_nil]
        omega

/-- A concrete `DISCARD`-phase state: player 1 must discard 4 of their 9
cards (5 lumber, 4 brick). -/
def discPlayer : PlayerState :=
  { PlayerState.init 1 with resources := fun r =>
      match r with
      | .lumber => 5
      | .brick => 4
      | _ => 0 }

def sDisc : CatanState :=
  { sReset with
      phase := .DISCARD
      playersNeedingDiscard := [1]
      players := [PlayerState.init 0, discPlayer, PlayerState.init 2, PlayerState.init 3]
      bank := fun r =>
        match r with
        | .lumber => 14
        | .brick => 15
        | _ => 19
      lastRoll := some (3, 4) }

/-- Claim C5 witness: the enumerator on `sDisc` succeeds and is
duplicate-free, and the tuple (4,0,0,0,0) is enumerated while (5,0,0,0,0) is
not. -/
theorem c5_discard_witness :
    ∃ acts, getLegalActions sDisc = some acts ∧ acts.Nodup ∧
      Action.DISCARD_RESOURCES [4, 0, 0, 0, 0] ∈ acts ∧
      Action.DISCARD_RESOURCES [5, 0, 0, 0, 0] ∉ acts := by
  have hisSome : (getLegalActions sDisc).isSome = true := by decide
  cases hacts : getLegalActions sDisc with
  | none => rw [hacts] at hisSome; cases hisSome
  | some acts =>
    have hc := c5_discard_enumeration sDisc 1 [] discPlayer acts rfl rfl rfl hacts
    refine ⟨acts, rfl, hc.1, ?_, ?_⟩
    · exact (hc.2 _).mpr ⟨4, 0, 0, 0, 0, rfl, by decide, by decide, by decide,
        by decide, by decide, by decide⟩
    · intro hmem
      obtain ⟨c0, c1, c2, c3, c4, heq, _, _, _, _, _, hsum⟩ := (hc.2 _).mp hmem
      injection heq with hl
      injection hl with e0 hl
      injection hl with e1 hl
      injection hl with e2 hl
      injection hl with e3 hl
      injection hl with e4 _
      rw [show (totalResources discPlayer.resources).fdiv 2 = 4 from by decide] at hsum
      omega

/-! ## Maritime trade analysis (C6) -/

theorem getTradeRatioFn_foldl (pv : List Nat) (res : Resource) :
    ∀ (hs : List Harbor) (a : Nat), a ≤ 4 →
      hs.foldl
        (fun ratio h =>
          if h.vertices.1 ∈ pv ∨ h.vertices.2 ∈ pv then
            match h.htype with
            | .generic => min ratio 3
            | .res r => if r = res then min ratio 2 else ratio
          else ratio)
        a =
      min a
        (if ∃ h ∈ hs, h.htype = .res res ∧ (h.vertices.1 ∈ pv ∨ h.vertices.2 ∈ pv)
          then 2
         else if ∃ h ∈ hs, h.htype = .generic ∧ (h.vertices.1 ∈ pv ∨ h.vertices.2 ∈ pv)
          then 3
         else 4) := by
  intro hs
  induction hs with
  | nil =>
    intro a ha
    simp only [List.foldl_nil, List.not_mem_nil, false_and, exists_false,
      if_false]
    omega
  | cons h hs ih =>
    obtain ⟨ht, hvert⟩ := h
    intro a ha
    rw [List.foldl_cons]
    dsimp only
    by_cases hacc : hvert.1 ∈ pv ∨ hvert.2 ∈ pv
    · rw [if_pos hacc]
      cases ht with
      | generic =>
        dsimp only
        rw [ih (min a 3) (by omega)]
        simp only [List.exists_mem_cons_iff]
        simp only [hacc, and_true, reduceCtorEq, false_or, true_and, true_or,
          if_true]
        split_ifs <;> omega
      | res hr =>
        dsimp only
        by_cases hrr : hr = res
        · rw [if_pos hrr, ih (min a 2) (by omega)]
          simp only [List.exists_mem_cons_iff]
          simp only [hacc, and_true, HarborType.res.injEq, hrr, true_and,
            reduceCtorEq, false_or, true_or, if_true]
          split_ifs <;> omega
        · rw [if_neg hrr, ih a ha]
          simp only [List.exists_mem_cons_iff]
          simp only [hacc, and_true, HarborType.res.injEq, hrr, reduceCtorEq,
            false_or, false_and]
    · rw [if_neg hacc, ih a ha]
      simp only [List.exists_mem_cons_iff]
      simp only [hacc, and_false, false_or]

theorem isValidMaritimeTrade_char {s : CatanState} {pid : Nat} {g r : Resource}
    {p : PlayerState} {pv : List Nat}
    (hp : s.players.get? pid = some p)
    (hpv : getPlayerVertices s pid = some pv) :
    ∃ v, isValidMaritimeTrade s pid g r = some v ∧
      (v = true ↔
        (g ≠ r ∧ (getTradeRatioFn s.harbors pv g : Int) ≤ p.resources g ∧
         1 ≤ s.bank r)) := by
  unfold isValidMaritimeTrade playerTradeRatioFn
  by_cases hgr : g = r
  · rw [if_pos hgr]
    exact ⟨false, rfl, by simp [hgr]⟩
  · rw [if_neg hgr]
    simp only [hpv, hp, Option.pure_def, Option.bind_eq_bind, Option.some_bind]
    split_ifs with h1 h2
    · exact ⟨false, rfl, by simp; intro _ h; omega⟩
    · exact ⟨false, rfl, by simp; intro _ h; omega⟩
    · exact ⟨true, rfl, by simp [hgr]; constructor <;> omega⟩

/-- The inner `for receive in RESOURCES` loop of the maritime-trade
enumeration. -/
theorem maritimeInner_mem {s : CatanState} {pid : Nat} (give : Resource) :
    ∀ (rs : List Resource) (acc ms : List Action),
      rs.foldlM
        (fun (acc2 : List Action) receive => do
          let v ← isValidMaritimeTrade s pid give receive
          pure (if v then acc2 ++ [Action.MARITIME_TRADE give receive] else acc2))
        acc = some ms →
      ∀ a, a ∈ ms ↔ a ∈ acc ∨ ∃ rc ∈ rs, a = .MARITIME_TRADE give rc ∧
        isValidMaritimeTrade s pid give rc = some true := by
  intro rs
  induction rs with
  | nil =>
    intro acc ms h a
    simp only [List.foldlM_nil, Option.pure_def, Option.some.injEq] at h
    subst h
    simp
  | cons rc rest ih =>
    intro acc ms h a
    rw [List.foldlM_cons] at h
    simp only [Option.pure_def, Option.bind_eq_bind] at h
    obtain ⟨acc', hacc', h⟩ := obind h
    obtain ⟨v, hv, hacc'⟩ := obind hacc'
    simp only [Option.some.injEq] at hacc'
    subst hacc'
    rw [ih _ _ h a]
    simp only [List.exists_mem_cons_iff]
    cases v with
    | true =>
      simp only [if_true]
      rw [List.mem_append, List.mem_singleton]
      constructor
      · rintro ((hma | hma) | hma)
        · exact Or.inl hma
        · exact Or.inr (Or.inl ⟨hma, hv⟩)
        · exact Or.inr (Or.inr hma)
      · rintro (hma | (⟨rfl, _⟩ | hma))
        · exact Or.inl (Or.inl hma)
        · exact Or.inl (Or.inr rfl)
        · exact Or.inr hma
    | false =>
      simp only [Bool.false_eq_true, if_false]
      constructor
      · rintro (hma | hma)
        · exact Or.inl hma
        · exact Or.inr (Or.inr hma)
      · rintro (hma | (⟨rfl, hval⟩ | hma))
        · exact Or.inl hma
        · rw [hv] at hval; cases hval
        · exact Or.inr hma

/-- The full `for give in RESOURCES: for receive in RESOURCES` loop. -/
theorem maritimeOuter_mem {s : CatanState} {pid : Nat} :
    ∀ (gs : List Resource) (acc ms : List Action),
      gs.foldlM
        (fun acc give =>
          Resource.all.foldlM
            (fun (acc2 : List Action) receive => do
              let v ← isValidMaritimeTrade s pid give receive
              pure (if v then acc2 ++ [Action.MARITIME_TRADE give receive] else acc2))
            acc)
        acc = some ms →
      ∀ a, a ∈ ms ↔ a ∈ acc ∨ ∃ g ∈ gs, ∃ rc ∈ Resource.all,
        a = .MARITIME_TRADE g rc ∧
        isValidMaritimeTrade s pid g rc = some true := by
  intro gs
  induction gs with
  | nil =>
    intro acc ms h a
    simp only [List.foldlM_nil, Option.pure_def, Option.some.injEq] at h
    subst h
    simp
  | cons g rest ih =>
    intro acc ms h a
    rw [List.foldlM_cons] at h
    obtain ⟨acc', hacc', h⟩ := obind h
    rw [ih _ _ h a, maritimeInner_mem g _ _ _ hacc' a]
    simp only [List.exists_mem_cons_iff]
    constructor
    · rintro ((h1 | h1) | h1)
      · exact Or.inl h1
      · exact Or.inr (Or.inl h1)
      · exact Or.inr (Or.inr h1)
    · rintro (h1 | (h1 | h1))
      · exact Or.inl (Or.inl h1)
      · exact Or.inl (Or.inr h1)
      · exact Or.inr h1

theorem resource_mem_all (r : Resource) : r ∈ Resource.all := by
  cases r <;> simp [Resource.all]

/-! ## Sums of per-player counters -/

/-- Sum of all player hands for one resource (the spec's `sum(player
hands)`). -/
def handsTotal (s : CatanState) (r : Resource) : Int :=
  (s.players.map fun q => q.resources r).sum

theorem map_sum_set {α : Type} (f : α → Int) :
    ∀ (l : List α) (i : Nat) (x p : α), l.get? i = some p →
      ((l.set i x).map f).sum = (l.map f).sum - f p + f x := by
  intro l
  induction l with
  | nil => intro i x p h; cases h
  | cons a t ih =>
    intro i x p h
    cases i with
    | zero =>
      simp only [List.get?] at h
      injection h with h
      subst h
      simp only [List.set, List.map_cons, List.sum_cons]
      omega
    | succ n =>
      simp only [List.get?] at h
      have := ih n x p h
      simp only [List.set, List.map_cons, List.sum_cons, this]
      omega

theorem map_sum_zero {α : Type} (f : α → Int) :
    ∀ (l : List α), (∀ q ∈ l, f q = 0) → (l.map f).sum = 0 := by
  intro l
  induction l with
  | nil => intro _; simp
  | cons a t ih =>
    intro h
    simp only [List.map_cons, List.sum_cons, h a (List.mem_cons_self a t),
      ih fun q hq => h q (List.mem_cons_of_mem a hq)]
    omega

/-- A list whose entries all vanish under `f` except possibly position
`pid` sums to the value at `pid`. -/
theorem map_sum_single {α : Type} (f : α → Int) :
    ∀ (l : List α) (pid : Nat) (p : α), l.get? pid = some p →
      (∀ i, i < l.length → i ≠ pid → ∃ q, l.get? i = some q ∧ f q = 0) →
      (l.map f).sum = f p := by
  intro l
  induction l with
  | nil => intro pid p h; cases h
  | cons a t ih =>
    intro pid p h hz
    cases pid with
    | zero =>
      simp only [List.get?] at h
      injection h with h
      subst h
      simp only [List.map_cons, List.sum_cons]
      have hzt : ∀ q ∈ t, f q = 0 := by
        intro q hq
        obtain ⟨j, hj⟩ := List.mem_iff_get?.mp hq
        have hjlen : j < t.length := (List.get?_eq_some.mp hj).1
        obtain ⟨q', hq', hfq'⟩ := hz (j + 1) (by simp; omega) (Nat.succ_ne_zero j)
        simp only [List.get?] at hq'
        rw [hj] at hq'
        injection hq' with hq'
        rw [hq']
        exact hfq'
      rw [map_sum_zero f t hzt]
      omega
    | succ n =>
      simp only [List.get?] at h
      have ha : f a = 0 := by
        obtain ⟨q, hq, h0⟩ := hz 0 (by simp) (by omega)
        simp only [List.get?] at hq
        injection hq with hq
        rw [hq]
        exact h0
      have ht : (t.map f).sum = f p := by
        apply ih n p h
        intro i hi hne
        obtain ⟨q, hq, h0⟩ := hz (i + 1) (by simp; omega) (by omega)
        simp only [List.get?] at hq
        exact ⟨q, hq, h0⟩
      simp only [List.map_cons, List.sum_cons, ha, ht]
      omega

/-- Claim C6: in the `TRADE_BUILD_PLAY` phase, a maritime trade of `g` for
`r` is enumerated exactly when `g ≠ r`, the hand holds at least the best
applicable harbor ratio of `g` (4 by default, 3 with an accessible generic
harbor, 2 with an accessible `g`-specific harbor, as the second conjunct
characterises), and the bank holds at least 1 of `r`; applying it moves
exactly that ratio of `g` from hand to bank and exactly 1 of `r` from bank
to hand, leaving every other counter unchanged. -/
theorem c6_maritime_trade (s : CatanState) (g r : Resource) (rnd : StepRand)
    (acts : List Action) (p : PlayerState) (pv : List Nat)
    (hph : s.phase = .TRADE_BUILD_PLAY)
    (hp : s.players.get? s.currentPlayer = some p)
    (hpv : getPlayerVertices s s.currentPlayer = some pv)
    (hacts : getLegalActions s = some acts) :
    (Action.MARITIME_TRADE g r ∈ acts ↔
      g ≠ r ∧ ((getTradeRatioFn s.harbors pv g : Int) ≤ p.resources g) ∧
      1 ≤ s.bank r) ∧
    (getTradeRatioFn s.harbors pv g =
      if ∃ h ∈ s.harbors, h.htype = .res g ∧ (h.vertices.1 ∈ pv ∨ h.vertices.2 ∈ pv)
        then 2
      else if ∃ h ∈ s.harbors, h.htype = .generic ∧ (h.vertices.1 ∈ pv ∨ h.vertices.2 ∈ pv)
        then 3
      else 4) ∧
    (Action.MARITIME_TRADE g r ∈ acts →
      ∃ s' q, stepState s (.MARITIME_TRADE g r) rnd = some s' ∧
        s'.players = s.players.set s.currentPlayer q ∧
        q.resources g = p.resources g - (getTradeRatioFn s.harbors pv g : Int) ∧
        q.resources r = p.resources r + 1 ∧
        (∀ x, x ≠ g → x ≠ r → q.resources x = p.resources x) ∧
        q.devCards = p.devCards ∧ q.newDevCards = p.newDevCards ∧
        s'.bank g = s.bank g + (getTradeRatioFn s.harbors pv g : Int) ∧
        s'.bank r = s.bank r - 1 ∧
        (∀ x, x ≠ g → x ≠ r → s'.bank x = s.bank x) ∧
        s'.phase = s.phase ∧ s'.vertexBuildings = s.vertexBuildings ∧
        s'.edgeRoads = s.edgeRoads ∧ s'.devCardDeck = s.devCardDeck) := by
  have hratioChar : getTradeRatioFn s.harbors pv g =
      if ∃ h ∈ s.harbors, h.htype = .res g ∧ (h.vertices.1 ∈ pv ∨ h.vertices.2 ∈ pv)
        then 2
      else if ∃ h ∈ s.harbors, h.htype = .generic ∧ (h.vertices.1 ∈ pv ∨ h.vertices.2 ∈ pv)
        then 3
      else 4 := by
    unfold getTradeRatioFn
    rw [getTradeRatioFn_foldl pv g s.harbors 4 (le_refl 4)]
    split_ifs <;> omega
  unfold getLegalActions at hacts
  rw [hph] at hacts
  unfold tradeBuildPlayActions at hacts
  simp only [Option.pure_def, Option.bind_eq_bind] at hacts
  obtain ⟨roadEdges, _, hacts⟩ := obind hacts
  obtain ⟨settleVerts, _, hacts⟩ := obind hacts
  obtain ⟨cityVerts, _, hacts⟩ := obind hacts
  obtain ⟨canBuy, _, hacts⟩ := obind hacts
  obtain ⟨knightOk, _, hacts⟩ := obind hacts
  obtain ⟨rbOk, _, hacts⟩ := obind hacts
  obtain ⟨yopOk, _, hacts⟩ := obind hacts
  obtain ⟨monoOk, _, hacts⟩ := obind hacts
  obtain ⟨mar, hmar, hacts⟩ := obind hacts
  simp only [Option.some.injEq] at hacts
  subst hacts
  have hmemmar : Action.MARITIME_TRADE g r ∈ mar ↔
      isValidMaritimeTrade s s.currentPlayer g r = some true := by
    rw [maritimeOuter_mem Resource.all [] mar hmar]
    simp only [List.not_mem_nil, false_or]
    constructor
    · rintro ⟨gp, _, rc, _, heq, hval⟩
      injection heq with e1 e2
      subst e1
      subst e2
      exact hval
    · intro hval
      exact ⟨g, resource_mem_all g, r, resource_mem_all r, rfl, hval⟩
  obtain ⟨v, hvq, hiff⟩ := @isValidMaritimeTrade_char s s.currentPlayer g r p pv hp hpv
  have hmem : Action.MARITIME_TRADE g r ∈
      (roadEdges.map Action.BUILD_ROAD ++
        settleVerts.map Action.BUILD_SETTLEMENT ++
        cityVerts.map Action.BUILD_CITY ++
        (if canBuy then [Action.BUY_DEV_CARD] else []) ++
        (if knightOk then [Action.PLAY_KNIGHT] else []) ++
        (if rbOk then [Action.PLAY_ROAD_BUILDING] else []) ++
        (if yopOk then [Action.PLAY_YEAR_OF_PLENTY] else []) ++
        (if monoOk then [Action.PLAY_MONOPOLY] else []) ++
        mar ++ [Action.END_TURN]) ↔
      Action.MARITIME_TRADE g r ∈ mar := by
    simp only [List.mem_append, List.mem_map, List.mem_singleton,
      List.mem_ite_nil_right, reduceCtorEq, and_false, false_or, or_false,
      exists_false, exists_eq_right]
  have hvalIff : isValidMaritimeTrade s s.currentPlayer g r = some true ↔
      (g ≠ r ∧ ((getTradeRatioFn s.harbors pv g : Int) ≤ p.resources g) ∧
       1 ≤ s.bank r) := by
    rw [hvq]
    constructor
    · intro hx
      injection hx with hv
      exact hiff.mp hv
    · intro hc
      rw [hiff.mpr hc]
  refine ⟨by rw [hmem, hmemmar, hvalIff], hratioChar, ?_⟩
  intro hmem2
  have hval : isValidMaritimeTrade s s.currentPlayer g r = some true :=
    hmemmar.mp (hmem.mp hmem2)
  have hconds := hvalIff.mp hval
  obtain ⟨hgr, hhand, hbank⟩ := hconds
  have hratioFn : playerTradeRatioFn s s.currentPlayer g =
      some (getTradeRatioFn s.harbors pv g) := by
    unfold playerTradeRatioFn
    simp only [hpv, Option.pure_def, Option.bind_eq_bind, Option.some_bind]
  have happly : applyMaritimeTrade s g r = some { s with
      players := s.players.set s.currentPlayer
        { p with resources := addRes (addRes p.resources g
            (-(getTradeRatioFn s.harbors pv g : Int))) r 1 },
      bank := addRes (addRes s.bank g ((getTradeRatioFn s.harbors pv g : Int)))
        r (-1) } := by
    unfold applyMaritimeTrade setPlayer
    simp only [hratioFn, hp, Option.pure_def, Option.bind_eq_bind,
      Option.some_bind]
  refine ⟨_, _, happly, rfl, ?_, ?_, ?_, rfl, rfl, ?_, ?_, ?_, rfl, rfl, rfl, rfl⟩
  · simp [addRes, updRes, hgr, Ne.symm hgr]
    all_goals omega
  · simp [addRes, updRes, hgr, Ne.symm hgr]
    all_goals omega
  · intro x hxg hxr
    simp [addRes, updRes, hxg, hxr]
    all_goals omega
  · simp [addRes, updRes, hgr, Ne.symm hgr]
    all_goals omega
  · simp [addRes, updRes, hgr, Ne.symm hgr]
    all_goals omega
  · intro x hxg hxr
    simp [addRes, updRes, hxg, hxr]
    all_goals omega

/-- A `TRADE_BUILD_PLAY` state: player 0 holds exactly 4 lumber and has no
buildings, so no harbor applies and the ratio is 4:1. -/
def tradePlayer : PlayerState :=
  { PlayerState.init 0 with resources := fun r =>
      match r with
      | .lumber => 4
      | _ => 0 }

def sTrade : CatanState :=
  { sReset with
      phase := .TRADE_BUILD_PLAY
      players := [tradePlayer, PlayerState.init 1, PlayerState.init 2,
                  PlayerState.init 3]
      bank := fun r =>
        match r with
        | .lumber => 15
        | _ => 19
      lastRoll := some (3, 4)
      turnNumber := 3 }

/-- Claim C6 witness: trading 4 lumber for 1 brick is legal in `sTrade` and
moves exactly 4 lumber to the bank and 1 brick to the hand. -/
theorem c6_maritime_witness :
    ∃ acts, getLegalActions sTrade = some acts ∧
      Action.MARITIME_TRADE .lumber .brick ∈ acts ∧
      ∃ s' q, stepState sTrade (.MARITIME_TRADE .lumber .brick) ⟨1, 1, 0⟩ = some s' ∧
        s'.players = sTrade.players.set 0 q ∧
        q.resources .lumber = 0 ∧ q.resources .brick = 1 ∧
        s'.bank .lumber = 19 ∧ s'.bank .brick = 18 := by
  have hisSome : (getLegalActions sTrade).isSome = true := by decide
  have hpv : getPlayerVertices sTrade 0 = some [] := by decide
  cases hacts : getLegalActions sTrade with
  | none => rw [hacts] at hisSome; cases hisSome
  | some acts =>
    have hc := c6_maritime_trade sTrade .lumber .brick ⟨1, 1, 0⟩ acts tradePlayer
      [] rfl rfl hpv hacts
    have hratio : getTradeRatioFn sTrade.harbors [] .lumber = 4 := by decide
    have hmem : Action.MARITIME_TRADE .lumber .brick ∈ acts := by
      apply (hc.1).mpr
      refine ⟨by decide, ?_, by decide⟩
      rw [hratio]
      decide
    obtain ⟨s', q, hstep, hpl, hqg, hqr, _, _, _, hbg, hbr, _, _, _, _, _⟩ :=
      hc.2.2 hmem
    refine ⟨acts, rfl, hmem, s', q, hstep, hpl, ?_, ?_, ?_, ?_⟩
    · rw [hqg, hratio]; decide
    · rw [hqr]; decide
    · rw [hbg, hratio]; decide
    · rw [hbr]; decide

/-! ## Monopoly analysis (C10) -/

/-- Walking the first `n` player slots of the monopoly loop: every visited
opponent with a positive holding is zeroed and credited to the running
total, everyone else is untouched, and resource `r` is conserved. -/
theorem monopolyFold_spec (resource : Resource) (pid : Nat)
    (l0 : List PlayerState) (hnn : ∀ q ∈ l0, 0 ≤ q.resources resource) :
    ∀ n, n ≤ l0.length →
      ∃ tot l, (List.range n).foldlM
          (fun (acc : Int × List PlayerState) i => do
            if i = pid then pure acc
            else do
              let p ← acc.2.get? i
              if 0 < p.resources resource then
                pure (acc.1 + p.resources resource,
                  acc.2.set i { p with resources := updRes p.resources resource 0 })
              else pure acc)
          (0, l0) = some (tot, l) ∧
        l.length = l0.length ∧ 0 ≤ tot ∧
        ((l.map fun q => q.resources resource).sum + tot
          = (l0.map fun q => q.resources resource).sum) ∧
        (∀ i, i < n → i ≠ pid → ∃ q0, l0.get? i = some q0 ∧
          l.get? i = some { q0 with resources := updRes q0.resources resource 0 }) ∧
        (∀ i, n ≤ i ∨ i = pid → l.get? i = l0.get? i) := by
  intro n
  induction n with
  | zero =>
    intro _
    exact ⟨0, l0, by simp, rfl, le_refl 0, by omega, fun i hi => by omega,
      fun i _ => rfl⟩
  | succ n ihn =>
    intro hle
    obtain ⟨tot, l, hfold, hlen, htotnn, hcons, hzero, hkeep⟩ :=
      ihn (by omega)
    rw [List.range_succ]
    rw [List.foldlM_append, hfold]
    simp only [Option.bind_eq_bind, Option.some_bind, List.foldlM_cons,
      List.foldlM_nil]
    by_cases hnp : n = pid
    · rw [if_pos hnp]
      simp only [Option.pure_def, Option.some_bind]
      refine ⟨tot, l, rfl, hlen, htotnn, hcons, ?_, ?_⟩
      · intro i hi hne
        rcases Nat.lt_or_ge i n with hin | hin
        · exact hzero i hin hne
        · omega
      · intro i hi
        apply hkeep
        omega
    · rw [if_neg hnp]
      have hn0 : n < l0.length := by omega
      obtain ⟨q0, hq0⟩ : ∃ q0, l0.get? n = some q0 :=
        ⟨l0.get ⟨n, hn0⟩, List.get?_eq_get hn0⟩
      have hgetl : l.get? n = some q0 := by
        rw [hkeep n (Or.inl (le_refl n))]
        exact hq0
      have hq0mem : q0 ∈ l0 := List.get?_mem hq0
      have hq0nn : 0 ≤ q0.resources resource := hnn q0 hq0mem
      simp only [hgetl, Option.pure_def, Option.bind_eq_bind,
        Option.some_bind]
      by_cases hpos : 0 < q0.resources resource
      · rw [if_pos hpos]
        simp only [Option.some_bind]
        refine ⟨tot + q0.resources resource,
          l.set n { q0 with resources := updRes q0.resources resource 0 },
          rfl, by rw [List.length_set, hlen], by omega, ?_, ?_, ?_⟩
        · rw [map_sum_set _ l n _ q0 hgetl]
          have : updRes q0.resources resource 0 resource = 0 := by
            simp [updRes]
          dsimp only
          rw [this]
          omega
        · intro i hi hne
          rcases Nat.lt_or_ge i n with hin | hin
          · obtain ⟨qq, hqq1, hqq2⟩ := hzero i hin hne
            exact ⟨qq, hqq1, by rw [List.get?_set_ne _ _ (by omega)]; exact hqq2⟩
          · have hieq : i = n := by omega
            subst hieq
            refine ⟨q0, hq0, ?_⟩
            have hnl : i < l.length := by omega
            rw [List.get?_set_eq_of_lt _ hnl]
        · intro i hi
          rw [List.get?_set_ne _ _ (by omega : n ≠ i)]
          apply hkeep
          omega
      · rw [if_neg hpos]
        have hq0z : q0.resources resource = 0 := by omega
        have hid : ({ q0 with resources := updRes q0.resources resource 0 }
            : PlayerState) = q0 := by
          have : updRes q0.resources resource 0 = q0.resources := by
            funext x
            unfold updRes
            split
            · rename_i hx
              rw [hx, hq0z]
            · rfl
          rw [this]
        refine ⟨tot, l, rfl, hlen, htotnn, hcons, ?_, ?_⟩
        · intro i hi hne
          rcases Nat.lt_or_ge i n with hin | hin
          · exact hzero i hin hne
          · have : i = n := by omega
            subst this
            exact ⟨q0, hq0, by rw [hid]; exact hgetl⟩
        · intro i hi
          apply hkeep
          omega

/-- Claim C10: `PICK_MONOPOLY_RESOURCE r` transfers every other player's
entire (non-negative) holding of `r` to the current player, conserving the
total of `r` across hands, leaving the bank and all other resource counters
untouched, and sets the phase to `TRADE_BUILD_PLAY`. -/
theorem c10_monopoly_effects (s : CatanState) (r : Resource) (rnd : StepRand)
    (p : PlayerState)
    (hlen : s.players.length = s.playerCount)
    (hcur : s.currentPlayer < s.playerCount)
    (hp : s.players.get? s.currentPlayer = some p)
    (hnn : ∀ q ∈ s.players, 0 ≤ q.resources r) :
    ∃ s' q, stepState s (.PICK_MONOPOLY_RESOURCE r) rnd = some s' ∧
      s'.phase = .TRADE_BUILD_PLAY ∧
      s'.bank = s.bank ∧
      handsTotal s' r = handsTotal s r ∧
      (∀ i, i < s.playerCount → i ≠ s.currentPlayer →
        ∃ q0 qi, s.players.get? i = some q0 ∧ s'.players.get? i = some qi ∧
          qi.resources r = 0 ∧ (∀ x, x ≠ r → qi.resources x = q0.resources x)) ∧
      s'.players.get? s.currentPlayer = some q ∧
      q.resources r = handsTotal s r ∧
      (∀ x, x ≠ r → q.resources x = p.resources x) := by
  obtain ⟨tot, l, hfold, hlen2, htotnn, hcons, hzero, hkeep⟩ :=
    monopolyFold_spec r s.currentPlayer s.players hnn s.playerCount
      (le_of_eq hlen.symm)
  have hlget : l.get? s.currentPlayer = some p := by
    rw [hkeep s.currentPlayer (Or.inr rfl)]
    exact hp
  have hcurl : s.currentPlayer < l.length := by
    rw [hlen2, hlen]
    exact hcur
  have hsuml : (l.map fun q => q.resources r).sum = p.resources r := by
    apply map_sum_single _ l s.currentPlayer p hlget
    intro i hi hne
    obtain ⟨q0, _, hq2⟩ := hzero i (by omega) hne
    refine ⟨_, hq2, by simp [updRes]⟩
  show ∃ s' q, applyPickMonopoly s r = some s' ∧ _
  unfold applyPickMonopoly setPlayer
  simp only [Option.pure_def, Option.bind_eq_bind]
  simp only [Option.pure_def, Option.bind_eq_bind] at hfold
  rw [hfold]
  simp only [Option.some_bind, hlget]
  refine ⟨_, { p with resources := addRes p.resources r tot }, rfl, rfl, rfl,
    ?_, ?_, ?_, ?_, ?_⟩
  · show ((l.set s.currentPlayer _).map fun q => q.resources r).sum = handsTotal s r
    rw [map_sum_set _ l _ _ p hlget]
    unfold handsTotal
    have : addRes p.resources r tot r = p.resources r + tot := by
      simp [addRes, updRes]
    dsimp only
    rw [this]
    omega
  · intro i hi hne
    obtain ⟨q0, hq1, hq2⟩ := hzero i hi hne
    refine ⟨q0, { q0 with resources := updRes q0.resources r 0 }, hq1, ?_, ?_, ?_⟩
    · show (l.set s.currentPlayer _).get? i = _
      rw [List.get?_set_ne _ _ (by omega : s.currentPlayer ≠ i)]
      exact hq2
    · simp [updRes]
    · intro x hx
      simp [updRes, hx]
  · show (l.set s.currentPlayer _).get? s.currentPlayer = _
    rw [List.get?_set_eq_of_lt _ hcurl]
  · have : addRes p.resources r tot r = p.resources r + tot := by
      simp [addRes, updRes]
    dsimp only
    rw [this]
    unfold handsTotal
    omega
  · intro x hx
    simp [addRes, updRes, hx]

/-- A `MONOPOLY_PICK` state: players 1 and 3 hold 3 and 2 ore. -/
def sMono : CatanState :=
  { sReset with
      phase := .MONOPOLY_PICK
      players :=
        [PlayerState.init 0,
         { PlayerState.init 1 with resources := fun x =>
             match x with | .ore => 3 | _ => 0 },
         PlayerState.init 2,
         { PlayerState.init 3 with resources := fun x =>
             match x with | .ore => 2 | _ => 0 }]
      bank := fun x => match x with | .ore => 14 | _ => 19
      lastRoll := some (1, 2)
      turnNumber := 5 }

/-- Claim C10 witness: picking ore in `sMono` gives player 0 all 5 ore,
zeroes players 1 and 3, and keeps the bank. -/
theorem c10_monopoly_witness :
    ∃ s' q, stepState sMono (.PICK_MONOPOLY_RESOURCE .ore) ⟨1, 1, 0⟩ = some s' ∧
      s'.phase = .TRADE_BUILD_PLAY ∧ s'.bank = sMono.bank ∧
      handsTotal s' .ore = handsTotal sMono .ore ∧
      s'.players.get? 0 = some q ∧ q.resources .ore = handsTotal sMono .ore := by
  obtain ⟨s', q, hstep, hph, hbank, htot, hoth, hq, hqr, hqx⟩ :=
    c10_monopoly_effects sMono .ore ⟨1, 1, 0⟩ (PlayerState.init 0) rfl
      (by decide) rfl (by decide)
  exact ⟨s', q, hstep, hph, hbank, htot, hq, hqr⟩

/-! ## Resource-distribution analysis (C3) -/

theorem addRes_self (f : Resource → Int) (r : Resource) (k : Int) :
    addRes f r k r = f r + k := by
  unfold addRes updRes
  rw [if_pos rfl]

theorem addRes_ne (f : Resource → Int) (r : Resource) (k : Int) (x : Resource)
    (h : x ≠ r) : addRes f r k x = f x := by
  unfold addRes updRes
  rw [if_neg h]

theorem addRes_zero (f : Resource → Int) (r : Resource) : addRes f r 0 = f := by
  funext x
  unfold addRes updRes
  split
  · rename_i hx
    rw [hx]
    omega
  · rfl

theorem addRes_eval (f : Resource → Int) (a : Resource) (v : Int)
    (x : Resource) : addRes f a v x = if x = a then f a + v else f x := rfl

theorem addRes2_eval (f : Resource → Int) (a b : Resource) (va vb : Int)
    (x : Resource) : addRes (addRes f a va) b vb x
      = f x + (if x = a then va else 0) + (if x = b then vb else 0) := by
  rw [addRes_eval, addRes_eval, addRes_eval]
  split_ifs <;> subst_vars <;> first
  | omega
  | simp_all

theorem alookup_eq_zero {l : List (Nat × Nat)} {pid : Nat}
    (h : pid ∉ l.map Prod.fst) : alookup l pid = 0 := by
  induction l with
  | nil => rfl
  | cons x xs ih =>
    simp only [List.map_cons, List.mem_cons] at h
    push_neg at h
    unfold alookup
    rw [if_neg fun hx => h.1 hx.symm]
    exact ih h.2

theorem bumpDemand_lookup_eq (l : List (Nat × Nat)) (pid a : Nat) :
    alookup (bumpDemand l pid a) pid = alookup l pid + a := by
  induction l with
  | nil =>
    unfold bumpDemand alookup
    rw [if_pos rfl]
    show a = alookup [] pid + a
    unfold alookup
    omega
  | cons x xs ih =>
    unfold bumpDemand
    by_cases hx : x.1 = pid
    · rw [if_pos hx]
      unfold alookup
      rw [if_pos hx, if_pos hx]
    · rw [if_neg hx]
      unfold alookup
      rw [if_neg hx, if_neg hx]
      exact ih

theorem bumpDemand_lookup_ne (l : List (Nat × Nat)) (pid a q : Nat)
    (hq : q ≠ pid) : alookup (bumpDemand l pid a) q = alookup l q := by
  induction l with
  | nil =>
    unfold bumpDemand alookup
    rw [if_neg fun hx => hq hx.symm]
    rfl
  | cons x xs ih =>
    unfold bumpDemand
    by_cases hx : x.1 = pid
    · rw [if_pos hx]
      unfold alookup
      by_cases hxq : x.1 = q
      · exact absurd (hx.symm.trans hxq) fun h => hq h.symm
      · rw [if_neg hxq, if_neg hxq]
    · rw [if_neg hx]
      unfold alookup
      by_cases hxq : x.1 = q
      · rw [if_pos hxq, if_pos hxq]
      · rw [if_neg hxq, if_neg hxq]
        exact ih

theorem bumpDemand_sum (l : List (Nat × Nat)) (pid a : Nat) :
    ((bumpDemand l pid a).map Prod.snd).sum = (l.map Prod.snd).sum + a := by
  induction l with
  | nil => simp [bumpDemand]
  | cons x xs ih =>
    unfold bumpDemand
    by_cases hx : x.1 = pid
    · rw [if_pos hx]
      simp only [List.map_cons, List.sum_cons]
      omega
    · rw [if_neg hx]
      simp only [List.map_cons, List.sum_cons, ih]
      omega

theorem bumpDemand_keys_sub {l : List (Nat × Nat)} {pid a q : Nat}
    (h : q ∈ (bumpDemand l pid a).map Prod.fst) :
    q ∈ l.map Prod.fst ∨ q = pid := by
  induction l with
  | nil =>
    simp only [bumpDemand, List.map_cons, List.map_nil, List.mem_singleton] at h
    exact Or.inr h
  | cons x xs ih =>
    unfold bumpDemand at h
    by_cases hx : x.1 = pid
    · rw [if_pos hx] at h
      simp only [List.map_cons, List.mem_cons] at h ⊢
      rcases h with h | h
      · exact Or.inl (Or.inl h)
      · exact Or.inl (Or.inr h)
    · rw [if_neg hx] at h
      simp only [List.map_cons, List.mem_cons] at h ⊢
      rcases h with h | h
      · exact Or.inl (Or.inl h)
      · rcases ih h with h2 | h2
        · exact Or.inl (Or.inr h2)
        · exact Or.inr h2

theorem bumpDemand_nodup (l : List (Nat × Nat)) (pid a : Nat)
    (h : (l.map Prod.fst).Nodup) :
    ((bumpDemand l pid a).map Prod.fst).Nodup := by
  induction l with
  | nil => simp [bumpDemand]
  | cons x xs ih =>
    simp only [List.map_cons, List.nodup_cons] at h
    unfold bumpDemand
    by_cases hx : x.1 = pid
    · rw [if_pos hx]
      simp only [List.map_cons, List.nodup_cons]
      exact h
    · rw [if_neg hx]
      simp only [List.map_cons, List.nodup_cons]
      refine ⟨?_, ih h.2⟩
      intro hmem
      rcases bumpDemand_keys_sub hmem with h2 | h2
      · exact h.1 h2
      · exact hx h2

theorem specHexDemand_inv {st : CatanState} {verts : List Nat} {D : Nat}
    (h : specHexDemand st verts = some D) :
    ∃ bs, verts.mapM (fun vid => st.vertexBuildings.get? vid) = some bs ∧
      D = (bs.map specBuildingClaim).sum := by
  unfold specHexDemand at h
  cases hm : verts.mapM (fun vid => st.vertexBuildings.get? vid) with
  | none => rw [hm] at h; exact Option.noConfusion h
  | some bs =>
    rw [hm] at h
    simp only [Option.map_some', Option.some.injEq] at h
    exact ⟨bs, rfl, h.symm⟩

theorem specPlayerDemand_of_mapM {st : CatanState} {verts : List Nat}
    {bs : List (Option (BuildingKind × Nat))} (pid : Nat)
    (hm : verts.mapM (fun vid => st.vertexBuildings.get? vid) = some bs) :
    specPlayerDemand st verts pid = some
      ((bs.filter fun b =>
          match b with
          | some bb => bb.2 == pid
          | none => false).map specBuildingClaim).sum := by
  unfold specPlayerDemand
  rw [hm]
  rfl

/-- The per-hex demand scan: total demand is the sum of the building claims,
the association list's values sum to the same, its keys stay without repeats,
and each player's entry is the sum of that player's claims. -/
theorem demandFold_spec (st : CatanState) :
    ∀ (verts : List Nat) (bs : List (Option (BuildingKind × Nat))),
      verts.mapM (fun vid => st.vertexBuildings.get? vid) = some bs →
      ∀ (acc : Nat × List (Nat × Nat)),
      ∃ tot al, verts.foldlM
          (fun (acc : Nat × List (Nat × Nat)) vid => do
            let b ← st.vertexBuildings.get? vid
            match b with
            | none => pure acc
            | some bb =>
              let amount := if bb.1 = BuildingKind.city then 2 else 1
              pure (acc.1 + amount, bumpDemand acc.2 bb.2 amount))
          acc = some (tot, al) ∧
        tot = acc.1 + (bs.map specBuildingClaim).sum ∧
        (al.map Prod.snd).sum
          = (acc.2.map Prod.snd).sum + (bs.map specBuildingClaim).sum ∧
        ((acc.2.map Prod.fst).Nodup → (al.map Prod.fst).Nodup) ∧
        ∀ pid, alookup al pid = alookup acc.2 pid +
          ((bs.filter fun b =>
              match b with
              | some bb => bb.2 == pid
              | none => false).map specBuildingClaim).sum := by
  intro verts
  induction verts with
  | nil =>
    intro bs hbs acc
    simp only [List.mapM_nil, Option.pure_def, Option.some.injEq] at hbs
    subst hbs
    exact ⟨acc.1, acc.2, by simp, by simp, by simp, fun h => h, fun pid => by simp⟩
  | cons v vs ih =>
    intro bs hbs acc
    rw [List.mapM_cons] at hbs
    simp only [Option.pure_def, Option.bind_eq_bind] at hbs
    obtain ⟨b, hb, hbs⟩ := obind hbs
    obtain ⟨rest, hrest, hbs⟩ := obind hbs
    simp only [Option.some.injEq] at hbs
    subst hbs
    rw [List.foldlM_cons]
    simp only [Option.pure_def, Option.bind_eq_bind]
    rw [hb]
    simp only [Option.some_bind]
    cases b with
    | none =>
      obtain ⟨tot, al, hfold, htot, hsum, hnd, hlook⟩ := ih rest hrest acc
      refine ⟨tot, al, hfold, ?_, ?_, hnd, ?_⟩
      · simp only [List.map_cons, List.sum_cons, specBuildingClaim]
        omega
      · simp only [List.map_cons, List.sum_cons, specBuildingClaim]
        omega
      · intro pid
        have hl := hlook pid
        rw [List.filter_cons_of_neg]
        · exact hl
        · simp
    | some bb =>
      obtain ⟨tot, al, hfold, htot, hsum, hnd, hlook⟩ :=
        ih rest hrest (acc.1 + (if bb.1 = BuildingKind.city then 2 else 1),
          bumpDemand acc.2 bb.2 (if bb.1 = BuildingKind.city then 2 else 1))
      refine ⟨tot, al, hfold, ?_, ?_, ?_, ?_⟩
      · simp only [List.map_cons, List.sum_cons] at htot ⊢
        simp only [specBuildingClaim] at htot ⊢
        omega
      · simp only [List.map_cons, List.sum_cons] at hsum ⊢
        rw [bumpDemand_sum] at hsum
        simp only [specBuildingClaim] at hsum ⊢
        omega
      · intro hacc
        exact hnd (bumpDemand_nodup _ _ _ hacc)
      · intro pid
        have hl := hlook pid
        by_cases hp : bb.2 = pid
        · rw [hp, bumpDemand_lookup_eq] at hl
          rw [List.filter_cons_of_pos]
          · simp only [List.map_cons, List.sum_cons, specBuildingClaim]
            omega
          · simp [hp]
        · rw [bumpDemand_lookup_ne _ _ _ _ (fun h => hp h.symm)] at hl
          rw [List.filter_cons_of_neg]
          · exact hl
          · simp [hp]

/-- The per-hex payment scan over the demand association list (keys without
repeats): only players and bank change; the bank loses exactly the demand
total of resource `r`, and each player slot gains its association-list
entry. -/
theorem payFold_spec (r : Resource) :
    ∀ (al : List (Nat × Nat)) (st0 st2 : CatanState),
      (al.map Prod.fst).Nodup →
      al.foldlM
        (fun stAcc pa => do
          let players' ← setPlayer stAcc.players pa.1 fun p =>
            { p with resources := addRes p.resources r (pa.2 : Int) }
          pure { stAcc with players := players',
                            bank := addRes stAcc.bank r (-(pa.2 : Int)) })
        st0 = some st2 →
      (∃ ps bk, st2 = { st0 with players := ps, bank := bk }) ∧
      st2.players.length = st0.players.length ∧
      st2.bank r = st0.bank r - ((al.map Prod.snd).sum : Int) ∧
      (∀ x, x ≠ r → st2.bank x = st0.bank x) ∧
      (∀ pid p, st0.players.get? pid = some p →
        st2.players.get? pid =
          some { p with
                 resources := addRes p.resources r ((alookup al pid : Nat) : Int) }) ∧
      (∀ x, (st2.players.map fun q => q.resources x).sum
        = (st0.players.map fun q => q.resources x).sum
          + (if x = r then ((al.map Prod.snd).sum : Int) else 0)) ∧
      ((∀ q ∈ st0.players, ∀ x, 0 ≤ q.resources x) →
        ∀ q ∈ st2.players, ∀ x, 0 ≤ q.resources x) := by
  intro al
  induction al with
  | nil =>
    intro st0 st2 _ h
    simp only [List.foldlM_nil, Option.pure_def, Option.some.injEq] at h
    subst h
    refine ⟨⟨st0.players, st0.bank, rfl⟩, rfl, by simp, fun x _ => rfl, ?_,
      by intro x; split <;> simp, fun hnn => hnn⟩
    intro pid p hp
    have hz : alookup ([] : List (Nat × Nat)) pid = 0 := rfl
    rw [hz]
    show st0.players.get? pid = some { p with resources := addRes p.resources r ((0 : Nat) : Int) }
    rw [show ((0 : Nat) : Int) = 0 from rfl, addRes_zero]
    exact hp
  | cons hd rest ih =>
    intro st0 st2 hnd h
    simp only [List.map_cons, List.nodup_cons] at hnd
    rw [List.foldlM_cons] at h
    simp only [Option.pure_def, Option.bind_eq_bind] at h
    obtain ⟨st1, hstep, hrest⟩ := obind h
    obtain ⟨players', hsp, hstep⟩ := obind hstep
    obtain ⟨p0, hp0, hpl'⟩ := setPlayer_inv hsp
    simp only [Option.some.injEq] at hstep
    subst hpl'
    obtain ⟨⟨ps, bk, hfr⟩, hlen, hbr, hbx, hplayers, hsums, hnn⟩ :=
      ih st1 st2 hnd.2 hrest
    have hp0lt : hd.1 < st0.players.length := by
      rcases List.get?_eq_some.mp hp0 with ⟨hlt, _⟩
      exact hlt
    subst hstep
    have hp0mem : p0 ∈ st0.players := List.get?_mem hp0
    refine ⟨⟨ps, bk, hfr⟩, ?_, ?_, ?_, ?_, ?_, ?_⟩
    · rw [hlen]
      show (st0.players.set hd.1 _).length = st0.players.length
      exact List.length_set st0.players _ _
    · rw [hbr]
      have hb1 : addRes st0.bank r (-(hd.2 : Int)) r = st0.bank r + (-(hd.2 : Int)) :=
        addRes_self _ _ _
      show addRes st0.bank r (-(hd.2 : Int)) r - ((rest.map Prod.snd).sum : Int)
        = st0.bank r - (((hd.2 :: rest.map Prod.snd).sum : Nat) : Int)
      rw [hb1]
      simp only [List.sum_cons]
      push_cast
      omega
    · intro x hx
      rw [hbx x hx]
      exact addRes_ne _ _ _ _ hx
    · intro pid p hp
      by_cases hpid : pid = hd.1
      · subst hpid
        have hpp0 : p = p0 := Option.some.inj (hp.symm.trans hp0)
        subst hpp0
        have hget1 : (st0.players.set hd.1
            { p with resources := addRes p.resources r (hd.2 : Int) }).get? hd.1 =
            some { p with resources := addRes p.resources r (hd.2 : Int) } :=
          List.get?_set_eq_of_lt _ hp0lt
        have h2 := hplayers hd.1 _ hget1
        rw [alookup_eq_zero hnd.1] at h2
        rw [show ((0 : Nat) : Int) = 0 from rfl, addRes_zero] at h2
        rw [h2]
        show _ = some { p with
          resources := addRes p.resources r ((alookup (hd :: rest) hd.1 : Nat) : Int) }
        have hl : alookup (hd :: rest) hd.1 = hd.2 := by
          show (if hd.1 = hd.1 then hd.2 else alookup rest hd.1) = hd.2
          rw [if_pos rfl]
        rw [hl]
      · have hget1 : (st0.players.set hd.1
            { p0 with resources := addRes p0.resources r (hd.2 : Int) }).get? pid =
            st0.players.get? pid :=
          List.get?_set_ne _ _ fun h2 => hpid h2.symm
        have := hplayers pid p (by rw [hget1]; exact hp)
        rw [this]
        have hl : alookup (hd :: rest) pid = alookup rest pid := by
          show (if hd.1 = pid then hd.2 else alookup rest pid) = alookup rest pid
          rw [if_neg fun h2 => hpid h2.symm]
        rw [hl]
    · intro x
      have hs1 := hsums x
      dsimp only at hs1
      have hset := map_sum_set (fun (q : PlayerState) => q.resources x)
        st0.players hd.1
        { p0 with resources := addRes p0.resources r (hd.2 : Int) } p0 hp0
      dsimp only at hset
      have haddx : addRes p0.resources r (hd.2 : Int) x
          = if x = r then p0.resources x + (hd.2 : Int) else p0.resources x := by
        rw [addRes_eval]
        split_ifs with hxx
        · rw [hxx]
        · rfl
      rw [haddx] at hset
      by_cases hx : x = r
      · rw [if_pos hx] at hs1 hset ⊢
        rw [hs1, hset]
        simp only [List.map_cons, List.sum_cons]
        push_cast
        omega
      · rw [if_neg hx] at hs1 hset ⊢
        rw [hs1, hset]
        omega
    · intro hnn0
      apply hnn
      intro q hq x
      dsimp only at hq
      rcases List.mem_or_eq_of_mem_set hq with hmem | heq
      · exact hnn0 q hmem x
      · subst heq
        show (0 : Int) ≤ addRes p0.resources r (hd.2 : Int) x
        rw [addRes_eval]
        have h1 := hnn0 p0 hp0mem x
        have h2 := hnn0 p0 hp0mem r
        split_ifs <;> omega

/-- Claim C3 (amended): `_distribute_resources` on a non-7 roll walks the
hexes in index order running `distHexStep` on each; for one hex, a token
mismatch, the robber, or a non-producing terrain leave the state unchanged,
and otherwise the shortage check is per hex: if this hex's own demand
exceeds the bank's current supply of its resource the whole hex is skipped,
else every adjacent settlement claims 1 unit and every adjacent city 2
units, the bank losing exactly the hex's total demand. -/
theorem c3_distribution_per_hex (st : CatanState) (d hid : Nat)
    (st' : CatanState) (h : distHexStep st d hid = some st') :
    (∀ sAny dt, distributeResources sAny dt =
      if dt = 7 then some sAny
      else (List.range sAny.hexTerrains.length).foldlM
        (fun st2 hid2 => distHexStep st2 dt hid2) sAny) ∧
    (∀ num, st.hexNumbers.get? hid = some num → num ≠ some d → st' = st) ∧
    (hid = st.robberHex → st' = st) ∧
    (∀ terr, st.hexTerrains.get? hid = some terr →
      terrainToResource terr = none → st' = st) ∧
    ∀ terr r verts D,
      st.hexNumbers.get? hid = some (some d) →
      hid ≠ st.robberHex →
      st.hexTerrains.get? hid = some terr →
      terrainToResource terr = some r →
      st.topology.hexVertices.get? hid = some verts →
      specHexDemand st verts = some D →
      ((st.bank r < (D : Int) → st' = st) ∧
       (¬ st.bank r < (D : Int) →
         (∃ ps bk, st' = { st with players := ps, bank := bk }) ∧
         st'.players.length = st.players.length ∧
         st'.bank r = st.bank r - (D : Int) ∧
         (∀ x, x ≠ r → st'.bank x = st.bank x) ∧
         ∀ pid p, st.players.get? pid = some p →
           ∃ a, specPlayerDemand st verts pid = some a ∧
             st'.players.get? pid =
               some { p with
                      resources := addRes p.resources r ((a : Nat) : Int) })) := by
  unfold distHexStep at h
  simp only [Option.pure_def, Option.bind_eq_bind] at h
  obtain ⟨num0, hnum0, h⟩ := obind h
  refine ⟨fun sAny dt => rfl, ?_, ?_, ?_, ?_⟩
  · intro num hnum hne
    have hd0 : num0 = num := Option.some.inj (hnum0.symm.trans hnum)
    subst hd0
    rw [if_pos hne] at h
    exact (Option.some.inj h).symm
  · intro hrob
    by_cases hm : num0 ≠ some d
    · rw [if_pos hm] at h
      exact (Option.some.inj h).symm
    · rw [if_neg hm, if_pos hrob] at h
      exact (Option.some.inj h).symm
  · intro terr hterr hnone
    by_cases hm : num0 ≠ some d
    · rw [if_pos hm] at h
      exact (Option.some.inj h).symm
    · by_cases hr : hid = st.robberHex
      · rw [if_neg hm, if_pos hr] at h
        exact (Option.some.inj h).symm
      · rw [if_neg hm, if_neg hr] at h
        obtain ⟨terr0, hterr0, h⟩ := obind h
        have hd0 : terr0 = terr := Option.some.inj (hterr0.symm.trans hterr)
        subst hd0
        rw [hnone] at h
        exact (Option.some.inj h).symm
  · intro terr r verts D hnum hrob hterr htr hverts hD
    have hd0 : num0 = some d := Option.some.inj (hnum0.symm.trans hnum)
    subst hd0
    rw [if_neg (not_not_intro rfl), if_neg hrob] at h
    obtain ⟨terr0, hterr0, h⟩ := obind h
    have hd1 : terr = terr0 := Option.some.inj (hterr.symm.trans hterr0)
    subst hd1
    rw [htr] at h
    obtain ⟨verts0, hverts0, h⟩ := obind h
    have hd2 : verts = verts0 := Option.some.inj (hverts.symm.trans hverts0)
    subst hd2
    obtain ⟨bs, hbs, hDval⟩ := specHexDemand_inv hD
    obtain ⟨tot, al, hfold, htot, hsum, hnd, hlook⟩ :=
      demandFold_spec st verts bs hbs (0, [])
    simp only [Option.pure_def, Option.bind_eq_bind] at hfold
    rw [hfold] at h
    simp only [Option.some_bind] at h
    have htD : tot = D := by omega
    refine ⟨?_, ?_⟩
    · intro hlt
      have hcond : st.bank r < (((tot, al).1 : Nat) : Int) := by
        show st.bank r < ((tot : Nat) : Int)
        rw [htD]
        exact hlt
      rw [if_pos hcond] at h
      exact (Option.some.inj h).symm
    · intro hge
      have hcond : ¬ st.bank r < (((tot, al).1 : Nat) : Int) := by
        show ¬ st.bank r < ((tot : Nat) : Int)
        rw [htD]
        exact hge
      rw [if_neg hcond] at h
      have hnodup : (((0, ([] : List (Nat × Nat))).2.map Prod.fst)).Nodup := by
        simp
      obtain ⟨hfr, hlen, hbr, hbx, hplayers, -, -⟩ :=
        payFold_spec r al st st' (hnd hnodup) h
      have halD : (al.map Prod.snd).sum = D := by
        have hs := hsum
        dsimp only at hs
        simp only [List.map_nil, List.sum_nil] at hs
        omega
      refine ⟨hfr, hlen, ?_, hbx, ?_⟩
      · rw [hbr, halD]
      · intro pid p hp
        refine ⟨alookup al pid, ?_, hplayers pid p hp⟩
        rw [specPlayerDemand_of_mapM pid hbs]
        have hlk := hlook pid
        dsimp only at hlk
        rw [show alookup ([] : List (Nat × Nat)) pid = 0 from rfl,
          Nat.zero_add] at hlk
        rw [hlk]

/-- Two forest hexes both numbered 6: a settlement of player 0 on hex 0
(vertex 3, on no other hex) and one of player 1 on hex 1 (vertex 7, on no
other hex), one lumber left in the bank.  The roll-wide lumber demand on a
6 is 2, more than the bank holds, yet hex 0 still pays player 0. -/
def sDist : CatanState :=
  { sReset with
      phase := .TRADE_BUILD_PLAY
      topology := stdTopoData
      hexTerrains := ((List.replicate 19 Terrain.desert).set 0 .forest).set 1 .forest
      hexNumbers := ((List.replicate 19 (none : Option Nat)).set 0 (some 6)).set 1 (some 6)
      vertexBuildings := ((List.replicate 54 (none : Option (BuildingKind × Nat))).set 3
        (some (.settlement, 0))).set 7 (some (.settlement, 1))
      edgeRoads := List.replicate 72 (none : Option Nat)
      bank := fun x => match x with | .lumber => 1 | _ => 19
      lastRoll := some (2, 4) }

/-- Claim C3 counterexample: the claimed roll-wide skip rule is false — in
`sDist` the roll-wide lumber demand (2) exceeds the bank (1), yet player 0
still receives 1 lumber from hex 0. -/
theorem c3_per_roll_counterexample : ¬ perRollSkipClaim := by
  intro hclaim
  have hrun : (distributeResources sDist 6).map
      (fun s2 => (s2.players.get? 0).map fun p => p.resources Resource.lumber) =
      some (some 1) := by decide
  cases hdist : distributeResources sDist 6 with
  | none =>
    rw [hdist] at hrun
    exact Option.noConfusion hrun
  | some s' =>
    rw [hdist] at hrun
    simp only [Option.map_some', Option.some.injEq] at hrun
    cases hp' : s'.players.get? 0 with
    | none =>
      rw [hp'] at hrun
      exact Option.noConfusion hrun
    | some p' =>
      rw [hp'] at hrun
      simp only [Option.map_some', Option.some.injEq] at hrun
      have hsame := hclaim sDist 6 .lumber s' 2 (by decide) hdist (by decide)
        (by decide) 0 (PlayerState.init 0) p' rfl hp'
      rw [hsame] at hrun
      exact absurd hrun (by decide)

/-- Claim C3 witness: running `distHexStep` on hex 0 of `sDist` (demand 1,
bank 1) pays in full — the bank drops to 0 and player 0 holds 1 lumber. -/
theorem c3_per_hex_witness :
    ∃ st', distHexStep sDist 6 0 = some st' ∧
      st'.bank Resource.lumber = 0 ∧
      (st'.players.get? 0).map (fun p => p.resources Resource.lumber) = some 1 := by
  obtain ⟨st', hst'⟩ : ∃ st', distHexStep sDist 6 0 = some st' := ⟨_, rfl⟩
  obtain ⟨-, -, -, -, hmain⟩ := c3_distribution_per_hex sDist 6 0 st' hst'
  obtain ⟨-, hpay⟩ := hmain Terrain.forest Resource.lumber [0, 1, 2, 3, 4, 5] 1
    (by decide) (by decide) (by decide) (by decide) (by decide) (by decide)
  obtain ⟨-, -, hbank, -, hplayers⟩ := hpay (by decide)
  obtain ⟨a, ha, hp0⟩ := hplayers 0 (PlayerState.init 0) rfl
  have ha1 : a = 1 := by
    have : specPlayerDemand sDist [0, 1, 2, 3, 4, 5] 0 = some 1 := by decide
    exact Option.some.inj (ha.symm.trans this)
  subst ha1
  refine ⟨st', hst', ?_, ?_⟩
  · rw [hbank]
    decide
  · rw [hp0]
    simp only [Option.map_some', Option.some.injEq]
    decide

/-! ## Longest-road award analysis (C4) -/

/-- The first loop of `update_longest_road`, started from an award already
held (`some H`, stored length `L0`): the running pair always stays `some`,
its length only grows, every length of at least `MIN_LONGEST_ROAD` seen so
far is bounded by it, and the holder either is still `H` with the stored
length, or is the first index whose length reached the new, strictly larger
running maximum. -/
theorem lrFold1_spec (s : CatanState) (f : Nat → Nat) (H L0 : Nat)
    (hf : ∀ pid, pid < s.playerCount → calcLongestRoad s pid = some (f pid)) :
    ∀ n, n ≤ s.playerCount →
      ∃ p L, (List.range n).foldlM
          (fun (acc : Option Nat × Nat) pid => do
            let len ← calcLongestRoad s pid
            if MIN_LONGEST_ROAD ≤ len then
              match acc.1 with
              | none => pure (some pid, len)
              | some _ => if acc.2 < len then pure (some pid, len) else pure acc
            else pure acc)
          (some H, L0) = some (some p, L) ∧
        L0 ≤ L ∧ (∀ i, i < n → MIN_LONGEST_ROAD ≤ f i → f i ≤ L) ∧
        ((p = H ∧ L = L0) ∨
         (p < n ∧ MIN_LONGEST_ROAD ≤ f p ∧ f p = L ∧ L0 < L ∧
           ∀ i, i < p → f i < L)) := by
  intro n
  induction n with
  | zero =>
    intro _
    exact ⟨H, L0, by simp, le_refl _, fun i hi => by omega, Or.inl ⟨rfl, rfl⟩⟩
  | succ n ihn =>
    intro hle
    obtain ⟨p, L, hfold, hL0, hub, hcase⟩ := ihn (by omega)
    rw [List.range_succ, List.foldlM_append, hfold]
    simp only [Option.pure_def, Option.bind_eq_bind, Option.some_bind,
      List.foldlM_cons, List.foldlM_nil]
    rw [hf n (by omega)]
    simp only [Option.some_bind]
    dsimp only
    by_cases h5 : MIN_LONGEST_ROAD ≤ f n
    · rw [if_pos h5]
      by_cases hlt : L < f n
      · rw [if_pos hlt]
        refine ⟨n, f n, by simp, by omega, ?_,
          Or.inr ⟨by omega, h5, rfl, by omega, ?_⟩⟩
        · intro i hi hfi
          rcases Nat.lt_or_ge i n with hin | hin
          · have := hub i hin hfi
            omega
          · have hieq : i = n := by omega
            subst hieq
            omega
        · intro i hi
          by_cases hfi : MIN_LONGEST_ROAD ≤ f i
          · have := hub i hi hfi
            omega
          · omega
      · rw [if_neg hlt]
        refine ⟨p, L, by simp, hL0, ?_, ?_⟩
        · intro i hi hfi
          rcases Nat.lt_or_ge i n with hin | hin
          · exact hub i hin hfi
          · have hieq : i = n := by omega
            subst hieq
            omega
        · rcases hcase with h | ⟨h1, h2, h3, h4, h5p⟩
          · exact Or.inl h
          · exact Or.inr ⟨by omega, h2, h3, h4, h5p⟩
    · rw [if_neg h5]
      refine ⟨p, L, by simp, hL0, ?_, ?_⟩
      · intro i hi hfi
        rcases Nat.lt_or_ge i n with hin | hin
        · exact hub i hin hfi
        · have hieq : i = n := by omega
          subst hieq
          omega
      · rcases hcase with h | ⟨h1, h2, h3, h4, h5p⟩
        · exact Or.inl h
        · exact Or.inr ⟨by omega, h2, h3, h4, h5p⟩

/-- The rescan loop of `update_longest_road`, started from `(none, 0)`: the
result is `none` with length 0 when nobody reaches `MIN_LONGEST_ROAD`, and
otherwise the first index attaining the maximum length. -/
theorem lrRescan_spec (s : CatanState) (f : Nat → Nat)
    (hf : ∀ pid, pid < s.playerCount → calcLongestRoad s pid = some (f pid)) :
    ∀ n, n ≤ s.playerCount →
      ∃ q L, (List.range n).foldlM
          (fun (acc : Option Nat × Nat) pid => do
            let len ← calcLongestRoad s pid
            if MIN_LONGEST_ROAD ≤ len ∧ acc.2 < len then pure (some pid, len)
            else pure acc)
          ((none : Option Nat), 0) = some (q, L) ∧
        ((q = none ∧ L = 0 ∧ ∀ i, i < n → f i < MIN_LONGEST_ROAD) ∨
         (∃ j, q = some j ∧ j < n ∧ MIN_LONGEST_ROAD ≤ f j ∧ f j = L ∧
           (∀ i, i < n → f i ≤ L) ∧ ∀ i, i < j → f i < L)) := by
  have hmin : MIN_LONGEST_ROAD = 5 := rfl
  intro n
  induction n with
  | zero =>
    intro _
    exact ⟨none, 0, by simp, Or.inl ⟨rfl, rfl, fun i hi => by omega⟩⟩
  | succ n ihn =>
    intro hle
    obtain ⟨q, L, hfold, hcase⟩ := ihn (by omega)
    rw [List.range_succ, List.foldlM_append, hfold]
    simp only [Option.pure_def, Option.bind_eq_bind, Option.some_bind,
      List.foldlM_cons, List.foldlM_nil]
    rw [hf n (by omega)]
    simp only [Option.some_bind]
    dsimp only
    by_cases hc : MIN_LONGEST_ROAD ≤ f n ∧ L < f n
    · rw [if_pos hc]
      refine ⟨some n, f n, by simp,
        Or.inr ⟨n, rfl, by omega, hc.1, rfl, ?_, ?_⟩⟩
      · intro i hi
        rcases Nat.lt_or_ge i n with hin | hin
        · rcases hcase with ⟨_, hL, hlt⟩ | ⟨j, _, _, _, _, hub, _⟩
          · have := hlt i hin
            omega
          · have := hub i hin
            omega
        · have hieq : i = n := by omega
          subst hieq
          omega
      · intro i hi
        rcases hcase with ⟨_, hL, hlt⟩ | ⟨j, _, _, _, _, hub, _⟩
        · have := hlt i hi
          omega
        · have := hub i hi
          omega
    · rw [if_neg hc]
      have hor : f n < MIN_LONGEST_ROAD ∨ f n ≤ L := by
        rcases Nat.lt_or_ge (f n) MIN_LONGEST_ROAD with h | h
        · exact Or.inl h
        · right
          by_contra h2
          exact hc ⟨h, by omega⟩
      refine ⟨q, L, by simp, ?_⟩
      rcases hcase with ⟨hq, hL, hlt⟩ | ⟨j, hq, hj, h5j, hfjL, hub, hstrict⟩
      · left
        refine ⟨hq, hL, ?_⟩
        intro i hi
        rcases Nat.lt_or_ge i n with hin | hin
        · exact hlt i hin
        · have hieq : i = n := by omega
          subst hieq
          omega
      · right
        refine ⟨j, hq, by omega, h5j, hfjL, ?_, hstrict⟩
        intro i hi
        rcases Nat.lt_or_ge i n with hin | hin
        · exact hub i hin
        · have hieq : i = n := by omega
          subst hieq
          omega

/-- Claim C4: after `update_longest_road` with a current holder `H` and
per-player recomputed lengths `f`.  The hypothesis `hJ` is the function's
own invariant: at most one player `b` may hold a recomputed length that is
both at least `MIN_LONGEST_ROAD` and above the stored award length.  The
final conjunct (c) proves the bound is re-established for every player on
exit; between two updates only the single player who placed a road can have
grown (settlements only shorten roads, and every road placement — build,
setup or road-building card — triggers an update or happens below the
threshold), so `hJ` holds at every call the program makes, with `b` the
acting player.  Then: (a) when `f H` is still at least `MIN_LONGEST_ROAD`,
the holder keeps the award unless it passes to a player whose recomputed
length strictly exceeds `f H`; (b) when `f H` drops below
`MIN_LONGEST_ROAD`, the award is recomputed from scratch: it goes to the
first player index attaining the maximum recomputed length if that maximum
reaches `MIN_LONGEST_ROAD`, and to nobody (length 0) otherwise. -/
theorem c4_longest_road_update (s : CatanState) (H b : Nat) (f : Nat → Nat)
    (hH : s.longestRoadPlayer = some H)
    (hHN : H < s.playerCount)
    (hf : ∀ pid, pid < s.playerCount → calcLongestRoad s pid = some (f pid))
    (hJ : ∀ q, q < s.playerCount → q ≠ b →
      f q < MIN_LONGEST_ROAD ∨ f q ≤ s.longestRoadLength) :
    ∃ s', updateLongestRoad s = some s' ∧
      (MIN_LONGEST_ROAD ≤ f H →
        (s'.longestRoadPlayer = some H ∨
         ∃ p, s'.longestRoadPlayer = some p ∧ p < s.playerCount ∧
           f H < f p)) ∧
      (f H < MIN_LONGEST_ROAD →
        ((∃ j, s'.longestRoadPlayer = some j ∧ j < s.playerCount ∧
            MIN_LONGEST_ROAD ≤ f j ∧ s'.longestRoadLength = f j ∧
            (∀ i, i < s.playerCount → f i ≤ f j) ∧
            ∀ i, i < j → f i < f j) ∨
         (s'.longestRoadPlayer = none ∧ s'.longestRoadLength = 0 ∧
           ∀ i, i < s.playerCount → f i < MIN_LONGEST_ROAD))) ∧
      (∀ q, q < s.playerCount →
        f q < MIN_LONGEST_ROAD ∨ f q ≤ s'.longestRoadLength) := by
  obtain ⟨p, L, hfold1, hL0, hub, hcase⟩ :=
    lrFold1_spec s f H s.longestRoadLength hf s.playerCount (le_refl _)
  have hpN : p < s.playerCount := by
    rcases hcase with ⟨h1, _⟩ | ⟨h1, _, _, _, _⟩
    · rw [h1]
      exact hHN
    · exact h1
  unfold updateLongestRoad
  rw [hH]
  simp only [Option.pure_def, Option.bind_eq_bind]
  simp only [Option.pure_def, Option.bind_eq_bind] at hfold1
  rw [hfold1]
  simp only [Option.some_bind]
  rw [hf p hpN]
  simp only [Option.some_bind]
  by_cases hcur : f p < MIN_LONGEST_ROAD
  · rw [if_pos hcur]
    obtain ⟨q, L2, hfold2, hcase2⟩ :=
      lrRescan_spec s f hf s.playerCount (le_refl _)
    simp only [Option.pure_def, Option.bind_eq_bind] at hfold2
    rw [hfold2]
    simp only [Option.some_bind]
    refine ⟨_, rfl, ?_, ?_, ?_⟩
    · intro ha
      exfalso
      rcases hcase with ⟨hpH, _⟩ | ⟨_, h5p, _, _, _⟩
      · subst hpH
        omega
      · omega
    · intro _
      rcases hcase2 with ⟨hq, hL2, hlt⟩ | ⟨j, hq, hj, h5j, hfjL, hub2, hstrict⟩
      · right
        exact ⟨hq, hL2, hlt⟩
      · left
        refine ⟨j, hq, hj, h5j, hfjL.symm, ?_, ?_⟩
        · intro i hi
          rw [hfjL]
          exact hub2 i hi
        · intro i hi
          rw [hfjL]
          exact hstrict i hi
    · intro q2 hq2
      rcases hcase2 with ⟨hq, hL2, hlt⟩ | ⟨j, hq, hj, h5j, hfjL, hub2, hstrict⟩
      · exact Or.inl (hlt q2 hq2)
      · exact Or.inr (hub2 q2 hq2)
  · rw [if_neg hcur]
    refine ⟨_, rfl, ?_, ?_, ?_⟩
    · intro h5H
      rcases hcase with ⟨hpH, _⟩ | ⟨hpn, h5p, hfpL, hL0L, hstrict⟩
      · left
        show some p = some H
        rw [hpH]
      · by_cases hpH : p = H
        · left
          show some p = some H
          rw [hpH]
        · right
          refine ⟨p, rfl, hpn, ?_⟩
          have hfHL : f H ≤ L := hub H hHN h5H
          rcases Nat.lt_or_ge H p with hHp | hHp
          · have := hstrict H hHp
            omega
          · -- `H` comes after `p`; a tie would make both exceed the stored
            -- length, forcing both to be the single possible exceeder `b`
            have hHb : f H < MIN_LONGEST_ROAD ∨
                f H ≤ s.longestRoadLength ∨ H = b := by
              by_cases hHbb : H = b
              · exact Or.inr (Or.inr hHbb)
              · rcases hJ H hHN hHbb with h | h
                · exact Or.inl h
                · exact Or.inr (Or.inl h)
            have hpb : p = b ∨ f p ≤ s.longestRoadLength := by
              by_cases hpbb : p = b
              · exact Or.inl hpbb
              · rcases hJ p hpn hpbb with h | h
                · omega
                · exact Or.inr h
            rcases hHb with h | h | h
            · omega
            · omega
            · rcases hpb with h2 | h2
              · exact absurd (h2.trans h.symm) hpH
              · omega
    · intro hb5
      rcases hcase with ⟨hpH, _⟩ | ⟨hpn, h5p, hfpL, hL0L, hstrict⟩
      · exfalso
        subst hpH
        omega
      · left
        refine ⟨p, rfl, hpn, h5p, hfpL.symm, ?_, ?_⟩
        · intro i hi
          by_cases hfi : MIN_LONGEST_ROAD ≤ f i
          · have := hub i hi hfi
            omega
          · omega
        · intro i hi
          have := hstrict i hi
          omega
    · intro q2 hq2
      by_cases h5q : MIN_LONGEST_ROAD ≤ f q2
      · exact Or.inr (hub q2 hq2 h5q)
      · exact Or.inl (by omega)

/-- A state holding the longest-road award while no roads are on the
board: every recomputed length is 0. -/
def sLr : CatanState :=
  { sReset with
      topology := stdTopoData
      edgeRoads := List.replicate stdTopoData.edgeCount none
      longestRoadPlayer := some 0
      longestRoadLength := 5 }

/-- Player 0 holds the award with the stored length 5 and a five-edge chain
(edges 0–4 join vertices 0–5 on the standard board), so the recomputed
lengths are 5 for player 0 and 0 for everyone else. -/
def sLr2 : CatanState :=
  { sReset with
      topology := stdTopoData
      edgeRoads := (List.range stdTopoData.edgeCount).map
        fun e => if e < 5 then some 0 else none
      longestRoadPlayer := some 0
      longestRoadLength := 5 }

/-- Claim C4 witness: in `sLr2` the holder's recomputed length is still 5,
branch (a) applies and — nobody exceeding 5 — the holder keeps the award;
in `sLr` every recomputed length is 0, below the threshold, and the rescan
clears the award. -/
theorem c4_longest_road_witness :
    (∃ s', updateLongestRoad sLr2 = some s' ∧
      s'.longestRoadPlayer = some 0) ∧
    (∃ s', updateLongestRoad sLr = some s' ∧
      s'.longestRoadPlayer = none ∧ s'.longestRoadLength = 0) := by
  constructor
  · obtain ⟨s', hs', hA, _, _⟩ :=
      c4_longest_road_update sLr2 0 0 (fun pid => if pid = 0 then 5 else 0)
        rfl (by decide)
        (fun pid hpid => by
          have h4 : pid < 4 := hpid
          interval_cases pid <;> decide)
        (fun q hq hqb => Or.inl (by
          show (if q = 0 then 5 else 0) < MIN_LONGEST_ROAD
          rw [if_neg hqb]
          decide))
    rcases hA (by decide) with h1 | ⟨p, hp, hpn, hlt⟩
    · exact ⟨s', hs', h1⟩
    · exfalso
      have hlt2 : (5 : Nat) < if p = 0 then 5 else 0 := hlt
      by_cases hp0 : p = 0
      · rw [if_pos hp0] at hlt2
        exact absurd hlt2 (by decide)
      · rw [if_neg hp0] at hlt2
        exact absurd hlt2 (by decide)
  · obtain ⟨s', hs', _, hb, _⟩ :=
      c4_longest_road_update sLr 0 0 (fun _ => 0) rfl (by decide)
        (fun pid hpid => by
          have h4 : pid < 4 := hpid
          interval_cases pid <;> decide)
        (fun q hq hqb => Or.inl (by
          show (0 : Nat) < MIN_LONGEST_ROAD
          decide))
    rcases hb (by decide) with ⟨j, _, _, h5j, _⟩ | ⟨h1, h2, _⟩
    · exact absurd h5j (by decide)
    · exact ⟨s', hs', h1, h2⟩

/-! ## Reachability and resource conservation (C1) -/

/-- All hand counters non-negative. -/
def HandsNonneg (s : CatanState) : Prop :=
  ∀ p ∈ s.players, ∀ r, 0 ≤ p.resources r

/-- The claim's resource invariant: non-negative hands and bank, and, per
resource, hands plus bank summing to the fixed 19. -/
def ResInv (s : CatanState) : Prop :=
  HandsNonneg s ∧ (∀ r, 0 ≤ s.bank r) ∧
  ∀ r, handsTotal s r + s.bank r = BANK_PER_RESOURCE

/-- How much the second-round setup grants may have handed out after `k`
placements with `n` players (3 per round-two settlement). -/
def setupBound (k n : Nat) : Int := 3 * ((k - n : Nat) : Int)

/-- Setup-phase bookkeeping that makes `ResInv` inductive through the
starting-resource grants of the second setup round (the grant loop pays
from the bank without checking it, so the bank must still hold enough). -/
def SetupAcct (s : CatanState) : Prop :=
  (s.phase = .SETUP_PLACE_SETTLEMENT →
    s.topology = standardTopology ∧ s.playerCount ≤ 4 ∧
    s.setupIdx < 2 * s.playerCount ∧
    s.setupRound = (if s.playerCount ≤ s.setupIdx then 1 else 0) ∧
    ∀ r, handsTotal s r ≤ setupBound s.setupIdx s.playerCount) ∧
  (s.phase = .SETUP_PLACE_ROAD →
    s.topology = standardTopology ∧ s.playerCount ≤ 4 ∧
    s.setupIdx + 1 ≤ 2 * s.playerCount ∧
    ∀ r, handsTotal s r ≤ setupBound (s.setupIdx + 1) s.playerCount)

/-- `ResInv` together with the player-list length agreeing with
`playerCount` (true from reset on; the monopoly scan needs it). -/
def ResInvN (s : CatanState) : Prop :=
  ResInv s ∧ s.players.length = s.playerCount

/-- The full inductive invariant. -/
def StateInv (s : CatanState) : Prop := ResInvN s ∧ SetupAcct s

/-- What `reset()` guarantees and the conservation argument uses: 3 or 4
fresh players, full banks, the standard board, and the opening setup
bookkeeping.  Every state `reset()` can produce satisfies this (the hex
numbers, harbors, deck order and robber placement are left free). -/
def ResetState (s : CatanState) : Prop :=
  (s.playerCount = 3 ∨ s.playerCount = 4) ∧
  s.players = (List.range s.playerCount).map PlayerState.init ∧
  s.bank = (fun _ => BANK_PER_RESOURCE) ∧
  s.topology = standardTopology ∧
  s.phase = .SETUP_PLACE_SETTLEMENT ∧
  s.setupIdx = 0 ∧ s.setupRound = 0

/-- States reachable from a reset state by legal actions; the random draws
are unconstrained, which over-approximates the draws Python makes. -/
inductive Reachable : CatanState → Prop
  | reset (s : CatanState) (h : ResetState s) : Reachable s
  | step (s s' : CatanState) (a : Action) (rnd : StepRand) (acts : List Action)
      (hr : Reachable s) (hl : getLegalActions s = some acts) (ha : a ∈ acts)
      (hs : stepState s a rnd = some s') : Reachable s'

theorem resetState_inv {s : CatanState} (h : ResetState s) : StateInv s := by
  obtain ⟨hN, hpl, hbk, htopo, hph, hidx, hrnd⟩ := h
  have hlen : s.players.length = s.playerCount := by
    rw [hpl, List.length_map, List.length_range]
  have hzero : ∀ r, handsTotal s r = 0 := by
    intro r
    unfold handsTotal
    rw [hpl]
    apply map_sum_zero
    intro q hq
    obtain ⟨i, _, hip⟩ := List.mem_map.mp hq
    rw [← hip]
    rfl
  refine ⟨⟨⟨?_, ?_, ?_⟩, hlen⟩, ?_, ?_⟩
  · intro p hp r
    rw [hpl] at hp
    obtain ⟨i, _, hip⟩ := List.mem_map.mp hp
    rw [← hip]
    show (0 : Int) ≤ 0
    exact le_refl 0
  · intro r
    rw [hbk]
    show (0 : Int) ≤ BANK_PER_RESOURCE
    decide
  · intro r
    rw [hzero r, hbk]
    show (0 : Int) + BANK_PER_RESOURCE = BANK_PER_RESOURCE
    decide
  · intro _
    refine ⟨htopo, by omega, by omega, ?_, ?_⟩
    · rw [hidx, hrnd, if_neg (by omega)]
    · intro r
      rw [hzero r]
      unfold setupBound
      rw [hidx]
      simp
  · intro hroad
    rw [hph] at hroad
    exact absurd hroad (by decide)

/-- Pointwise `get?`-level congruence of mapped sums. -/
theorem map_sum_get?_congr {α : Type} (f g : α → Int) :
    ∀ (l0 l1 : List α),
      (∀ i, (l0.get? i).map f = (l1.get? i).map g) →
      (l0.map f).sum = (l1.map g).sum := by
  intro l0
  induction l0 with
  | nil =>
    intro l1 h
    cases l1 with
    | nil => rfl
    | cons b t => have h0 := h 0; simp at h0
  | cons a t ih =>
    intro l1 h
    cases l1 with
    | nil => have h0 := h 0; simp at h0
    | cons b t1 =>
      have h0 := h 0
      simp only [List.get?, Option.map_some', Option.some.injEq] at h0
      have ht := ih t1 fun i => h (i + 1)
      simp only [List.map_cons, List.sum_cons, h0, ht]

theorem hasResources_le {hand cost : Resource → Int}
    (h : hasResources hand cost = true) : ∀ r, cost r ≤ hand r := by
  intro r
  unfold hasResources at h
  rw [List.all_eq_true] at h
  exact of_decide_eq_true (h r (resource_mem_all r))

/-- A `setPlayer` whose update keeps the resource map fixed keeps every
per-resource sum and only rearranges hands already present. -/
theorem setPlayer_neutral_sums {l l' : List PlayerState} {i : Nat}
    {f : PlayerState → PlayerState}
    (h : setPlayer l i f = some l')
    (hres : ∀ q, (f q).resources = q.resources) :
    (∀ x, ((l'.map fun q => q.resources x).sum
      = (l.map fun q => q.resources x).sum)) ∧
    ∀ q ∈ l', ∃ q0, q0 ∈ l ∧ q.resources = q0.resources := by
  obtain ⟨p, hp, hl'⟩ := setPlayer_inv h
  subst hl'
  constructor
  · intro x
    rw [map_sum_set _ l i (f p) p hp]
    simp only [hres]
    omega
  · intro q hq
    rcases List.mem_or_eq_of_mem_set hq with hmem | heq
    · exact ⟨q, hmem, rfl⟩
    · subst heq
      exact ⟨p, List.get?_mem hp, hres p⟩

/-- Transfer of `ResInv` along resource-preserving state surgery. -/
theorem resinv_of_parts {s s' : CatanState}
    (hsum : ∀ x, handsTotal s' x = handsTotal s x)
    (hmem : ∀ q ∈ s'.players, ∃ q0, q0 ∈ s.players ∧ q.resources = q0.resources)
    (hbk : ∀ x, s'.bank x = s.bank x)
    (hinv : ResInv s) : ResInv s' := by
  obtain ⟨hh, hb, hc⟩ := hinv
  refine ⟨?_, ?_, ?_⟩
  · intro q hq r
    obtain ⟨q0, hq0, hres⟩ := hmem q hq
    rw [hres]
    exact hh q0 hq0 r
  · intro r
    rw [hbk r]
    exact hb r
  · intro r
    rw [hsum r, hbk r]
    exact hc r

theorem setPlayer_length {l l' : List PlayerState} {i : Nat}
    {f : PlayerState → PlayerState} (h : setPlayer l i f = some l') :
    l'.length = l.length := by
  obtain ⟨p, hp, hl⟩ := setPlayer_inv h
  subst hl
  simp [List.length_set]

theorem applyMoveRobber_resinv {s s' : CatanState} {hexId : Nat}
    (h : applyMoveRobber s hexId = some s') (hinv : ResInvN s) : ResInvN s' := by
  unfold applyMoveRobber at h
  simp only [Option.pure_def, Option.bind_eq_bind] at h
  obtain ⟨t, _, h⟩ := obind h
  simp only [Option.some.injEq] at h
  subst h
  exact ⟨resinv_of_parts (fun x => rfl) (fun q hq => ⟨q, hq, rfl⟩)
    (fun x => rfl) hinv.1, hinv.2⟩

theorem mem_replicate_avail {c : Resource → Int} {x : Resource}
    (h : x ∈ Resource.all.flatMap fun r => List.replicate (c r).toNat r) :
    0 < c x := by
  obtain ⟨r, _, hmem⟩ := List.mem_flatMap.mp h
  rw [List.mem_replicate] at hmem
  obtain ⟨hn, hx⟩ := hmem
  subst hx
  omega

theorem applySteal_resinv {s s' : CatanState} {v : Option Nat} {i : Nat}
    (hne : ∀ t, v = some t → t ≠ s.currentPlayer)
    (h : applySteal s v i = some s') (hinv : ResInvN s) : ResInvN s' := by
  unfold applySteal at h
  cases v with
  | none =>
    simp only [Option.pure_def, Option.some.injEq] at h
    subst h
    exact ⟨resinv_of_parts (fun x => rfl) (fun q hq => ⟨q, hq, rfl⟩)
      (fun x => rfl) hinv.1, hinv.2⟩
  | some t =>
    simp only [Option.pure_def, Option.bind_eq_bind] at h
    obtain ⟨vres, hvres, h⟩ := obind h
    split at h
    · simp only [Option.some.injEq] at h
      subst h
      exact ⟨resinv_of_parts (fun x => rfl) (fun q hq => ⟨q, hq, rfl⟩)
        (fun x => rfl) hinv.1, hinv.2⟩
    · obtain ⟨stolen, hstolen, h⟩ := obind h
      obtain ⟨players1, hp1, h⟩ := obind h
      obtain ⟨players2, hp2, h⟩ := obind h
      simp only [Option.some.injEq] at h
      subst h
      have htv : t ≠ s.currentPlayer := hne t rfl
      have hpos : 0 < vres.resources stolen :=
        mem_replicate_avail (List.get?_mem hstolen)
      obtain ⟨pv, hpv, hpl1⟩ := setPlayer_inv hp1
      have hveq : pv = vres := Option.some.inj (hpv.symm.trans hvres)
      subst hveq
      subst hpl1
      obtain ⟨pc, hpc, hpl2⟩ := setPlayer_inv hp2
      have hpc0 : s.players.get? s.currentPlayer = some pc := by
        rw [← hpc]
        exact (List.get?_set_ne _ _ htv).symm
      subst hpl2
      obtain ⟨⟨hh, hb, hc⟩, hlen⟩ := hinv
      refine ⟨?_, by simp only [List.length_set]; exact hlen⟩
      have hpcmem : pc ∈ s.players := List.get?_mem hpc0
      have hpvmem : pv ∈ s.players := List.get?_mem hpv
      refine ⟨?_, hb, ?_⟩
      · intro q hq r
        rcases List.mem_or_eq_of_mem_set hq with hq1 | hq1
        · rcases List.mem_or_eq_of_mem_set hq1 with hq2 | hq2
          · exact hh q hq2 r
          · subst hq2
            show (0 : Int) ≤ addRes pv.resources stolen (-1) r
            by_cases hx : r = stolen
            · rw [← hx, addRes_self]
              rw [← hx] at hpos
              omega
            · rw [addRes_ne _ _ _ _ hx]
              exact hh pv hpvmem r
        · subst hq1
          show (0 : Int) ≤ addRes pc.resources stolen 1 r
          by_cases hx : r = stolen
          · rw [← hx, addRes_self]
            have := hh pc hpcmem r
            omega
          · rw [addRes_ne _ _ _ _ hx]
            exact hh pc hpcmem r
      · intro r
        have h2 : (s.players.map fun q => q.resources r).sum + s.bank r
            = BANK_PER_RESOURCE := hc r
        have hs1 : ((s.players.set t
              { pv with resources := addRes pv.resources stolen (-1) }).map
              fun q => q.resources r).sum
            = (s.players.map fun q => q.resources r).sum
              - pv.resources r + addRes pv.resources stolen (-1) r :=
          map_sum_set _ _ t _ pv hpv
        have hs2 := map_sum_set (fun (q : PlayerState) => q.resources r)
          (s.players.set t { pv with resources := addRes pv.resources stolen (-1) })
          s.currentPlayer
          { pc with resources := addRes pc.resources stolen 1 } pc hpc
        show ((_ : List PlayerState).map fun q => q.resources r).sum + s.bank r
          = BANK_PER_RESOURCE
        rw [hs2, hs1]
        dsimp only
        by_cases hx : r = stolen
        · rw [← hx, addRes_self, addRes_self]
          omega
        · rw [addRes_ne _ _ _ _ hx, addRes_ne _ _ _ _ hx]
          omega

theorem applyPlayYearOfPlenty_resinv {s s' : CatanState}
    (h : applyPlayYearOfPlenty s = some s') (hinv : ResInvN s) : ResInvN s' := by
  unfold applyPlayYearOfPlenty at h
  simp only [Option.pure_def, Option.bind_eq_bind] at h
  obtain ⟨players, hsp, h⟩ := obind h
  simp only [Option.some.injEq] at h
  subst h
  obtain ⟨hsum, hmem⟩ := setPlayer_neutral_sums hsp (fun q => rfl)
  exact ⟨resinv_of_parts hsum hmem (fun x => rfl) hinv.1,
    by show players.length = s.playerCount
       rw [setPlayer_length hsp]
       exact hinv.2⟩

theorem applyPlayMonopoly_resinv {s s' : CatanState}
    (h : applyPlayMonopoly s = some s') (hinv : ResInvN s) : ResInvN s' := by
  unfold applyPlayMonopoly at h
  simp only [Option.pure_def, Option.bind_eq_bind] at h
  obtain ⟨players, hsp, h⟩ := obind h
  simp only [Option.some.injEq] at h
  subst h
  obtain ⟨hsum, hmem⟩ := setPlayer_neutral_sums hsp (fun q => rfl)
  exact ⟨resinv_of_parts hsum hmem (fun x => rfl) hinv.1,
    by show players.length = s.playerCount
       rw [setPlayer_length hsp]
       exact hinv.2⟩

theorem applyPlayRoadBuilding_resinv {s s' : CatanState}
    (h : applyPlayRoadBuilding s = some s') (hinv : ResInvN s) : ResInvN s' := by
  unfold applyPlayRoadBuilding at h
  simp only [Option.pure_def, Option.bind_eq_bind] at h
  obtain ⟨players, hsp, h⟩ := obind h
  obtain ⟨p, _, h⟩ := obind h
  obtain ⟨hsum, hmem⟩ := setPlayer_neutral_sums hsp (fun q => rfl)
  have hlen : players.length = s.playerCount := by
    rw [setPlayer_length hsp]
    exact hinv.2
  split at h <;>
    (simp only [Option.some.injEq] at h
     subst h
     exact ⟨resinv_of_parts hsum hmem (fun x => rfl) hinv.1, hlen⟩)

theorem applyPlayKnight_resinv {s s' : CatanState}
    (h : applyPlayKnight s = some s') (hinv : ResInvN s) : ResInvN s' := by
  unfold applyPlayKnight at h
  simp only [Option.pure_def, Option.bind_eq_bind] at h
  obtain ⟨players, hsp, h⟩ := obind h
  obtain ⟨s1, hs1, h⟩ := obind h
  simp only [Option.some.injEq] at h
  subst h
  obtain ⟨hsum, hmem⟩ := setPlayer_neutral_sums hsp (fun q => rfl)
  obtain ⟨lp, ll, hfr⟩ := updateLargestArmy_frame hs1
  subst hfr
  exact ⟨resinv_of_parts hsum hmem (fun x => rfl) hinv.1,
    by show players.length = s.playerCount
       rw [setPlayer_length hsp]
       exact hinv.2⟩

theorem applyEndTurn_resinv {s s' : CatanState}
    (h : applyEndTurn s = some s') (hinv : ResInvN s) : ResInvN s' := by
  unfold applyEndTurn at h
  simp only [Option.pure_def, Option.bind_eq_bind] at h
  obtain ⟨players, hsp, h⟩ := obind h
  obtain ⟨s2, hs2, h⟩ := obind h
  obtain ⟨hsum, hmem⟩ := setPlayer_neutral_sums hsp (fun q => rfl)
  have hlen : players.length = s.playerCount := by
    rw [setPlayer_length hsp]
    exact hinv.2
  have hinv2 : ResInvN s2 ∧ s2.playerCount = s.playerCount := by
    obtain ⟨vp, _, hcase⟩ := checkGameOver_spec hs2
    rcases hcase with ⟨_, hfr⟩ | ⟨_, hfr⟩ <;>
      (subst hfr
       exact ⟨⟨resinv_of_parts hsum hmem (fun x => rfl) hinv.1, hlen⟩, rfl⟩)
  split at h
  · simp only [Option.some.injEq] at h
    subst h
    exact hinv2.1
  · split at h
    · exact Option.noConfusion h
    · simp only [Option.some.injEq] at h
      subst h
      exact ⟨resinv_of_parts (fun x => rfl) (fun q hq => ⟨q, hq, rfl⟩)
        (fun x => rfl) hinv2.1.1, hinv2.1.2⟩

/-- The pay-a-cost-to-the-bank update pattern shared by the build and
dev-card purchases. -/
theorem resinv_pay {s s' : CatanState} (i : Nat) (p : PlayerState)
    {p' : PlayerState} (cost : Resource → Int)
    (hp : s.players.get? i = some p)
    (hpl : s'.players = s.players.set i p')
    (hres : ∀ r, p'.resources r = p.resources r - cost r)
    (hbk : ∀ r, s'.bank r = s.bank r + cost r)
    (hcost : ∀ r, 0 ≤ cost r)
    (hcan : ∀ r, cost r ≤ p.resources r)
    (hinv : ResInv s) : ResInv s' := by
  obtain ⟨hh, hb, hc⟩ := hinv
  refine ⟨?_, ?_, ?_⟩
  · intro q hq r
    rw [hpl] at hq
    rcases List.mem_or_eq_of_mem_set hq with hmem | heq
    · exact hh q hmem r
    · subst heq
      rw [hres r]
      have := hcan r
      omega
  · intro r
    rw [hbk r]
    have h1 := hb r
    have h2 := hcost r
    omega
  · intro r
    have hsum : (s'.players.map fun q => q.resources r).sum
        = (s.players.map fun q => q.resources r).sum
          - p.resources r + p'.resources r := by
      rw [hpl]
      exact map_sum_set _ _ i p' p hp
    have h1 := hres r
    have h2 : (s.players.map fun q => q.resources r).sum + s.bank r
        = BANK_PER_RESOURCE := hc r
    show (s'.players.map fun q => q.resources r).sum + s'.bank r
      = BANK_PER_RESOURCE
    rw [hsum, hbk r]
    omega

theorem roadCost_nonneg : ∀ r, 0 ≤ roadCost r := by
  intro r
  cases r <;> decide

theorem settlementCost_nonneg : ∀ r, 0 ≤ settlementCost r := by
  intro r
  cases r <;> decide

theorem cityCost_nonneg : ∀ r, 0 ≤ cityCost r := by
  intro r
  cases r <;> decide

theorem devCardCost_nonneg : ∀ r, 0 ≤ devCardCost r := by
  intro r
  cases r <;> decide

theorem getValidRoadEdges_mem {s : CatanState} {pid : Nat} {l : List Nat}
    {e : Nat} (h : getValidRoadEdges s pid = some l) (he : e ∈ l) :
    ∃ p, s.players.get? pid = some p ∧
      hasResources p.resources roadCost = true := by
  unfold getValidRoadEdges at h
  simp only [Option.pure_def, Option.bind_eq_bind] at h
  obtain ⟨p, hp, h⟩ := obind h
  refine ⟨p, hp, ?_⟩
  split at h
  · simp only [Option.some.injEq] at h
    subst h
    cases he
  · split at h
    · simp only [Option.some.injEq] at h
      subst h
      cases he
    · rename_i hres
      simpa using hres

theorem getValidSettlementVertices_mem {s : CatanState} {pid : Nat}
    {l : List Nat} {v : Nat} (h : getValidSettlementVertices s pid = some l)
    (hv : v ∈ l) :
    ∃ p, s.players.get? pid = some p ∧
      hasResources p.resources settlementCost = true := by
  unfold getValidSettlementVertices at h
  simp only [Option.pure_def, Option.bind_eq_bind] at h
  obtain ⟨p, hp, h⟩ := obind h
  refine ⟨p, hp, ?_⟩
  split at h
  · simp only [Option.some.injEq] at h
    subst h
    cases hv
  · split at h
    · simp only [Option.some.injEq] at h
      subst h
      cases hv
    · rename_i hres
      simpa using hres

theorem getValidCityVertices_mem {s : CatanState} {pid : Nat}
    {l : List Nat} {v : Nat} (h : getValidCityVertices s pid = some l)
    (hv : v ∈ l) :
    ∃ p, s.players.get? pid = some p ∧
      hasResources p.resources cityCost = true := by
  unfold getValidCityVertices at h
  simp only [Option.pure_def, Option.bind_eq_bind] at h
  obtain ⟨p, hp, h⟩ := obind h
  refine ⟨p, hp, ?_⟩
  split at h
  · simp only [Option.some.injEq] at h
    subst h
    cases hv
  · split at h
    · simp only [Option.some.injEq] at h
      subst h
      cases hv
    · rename_i hres
      simpa using hres

theorem canBuyDevCard_true {s : CatanState} {pid : Nat}
    (h : canBuyDevCard s pid = some true) :
    ∃ p, s.players.get? pid = some p ∧
      hasResources p.resources devCardCost = true := by
  unfold canBuyDevCard at h
  simp only [Option.pure_def, Option.bind_eq_bind] at h
  split at h
  · simp at h
  · obtain ⟨p, hp, h⟩ := obind h
    simp only [Option.some.injEq] at h
    exact ⟨p, hp, h⟩

theorem applyBuildRoad_resinv {s s' : CatanState} {player edge : Nat}
    {p : PlayerState}
    (hp : s.players.get? player = some p)
    (hcan : hasResources p.resources roadCost = true)
    (h : applyBuildRoad s player edge false = some s')
    (hinv : ResInvN s) : ResInvN s' := by
  unfold applyBuildRoad at h
  simp only [Option.pure_def, Option.bind_eq_bind, Bool.false_eq_true,
    if_false] at h
  obtain ⟨er, her, h⟩ := obind h
  obtain ⟨players, hsp, h⟩ := obind h
  obtain ⟨players2, hsp2, h⟩ := obind h
  simp only [Option.some.injEq] at h
  subst h
  obtain ⟨p0, hp0, hpl⟩ := setPlayer_inv hsp
  have hpe : p = p0 := Option.some.inj (hp.symm.trans hp0)
  subst hpe
  subst hpl
  have hplt : player < s.players.length := (List.get?_eq_some.mp hp).1
  obtain ⟨p1, hp1, hpl2⟩ := setPlayer_inv hsp2
  have hp1v : p1 = { p with remainingRoads := p.remainingRoads - 1 } := by
    have : (s.players.set player
        { p with remainingRoads := p.remainingRoads - 1 }).get? player =
        some { p with remainingRoads := p.remainingRoads - 1 } :=
      List.get?_set_eq_of_lt _ hplt
    exact Option.some.inj (hp1.symm.trans this)
  subst hp1v
  subst hpl2
  refine ⟨?_, ?_⟩
  · exact resinv_pay player p roadCost hp (by rw [List.set_set])
      (fun r => rfl) (fun r => rfl) roadCost_nonneg
      (hasResources_le hcan) hinv.1
  · show ((s.players.set player _).set player _).length = s.playerCount
    simp only [List.length_set]
    exact hinv.2

theorem applyBuildSettlement_resinv {s s' : CatanState} {v : Nat}
    {p : PlayerState}
    (hp : s.players.get? s.currentPlayer = some p)
    (hcan : hasResources p.resources settlementCost = true)
    (h : applyBuildSettlement s v = some s')
    (hinv : ResInvN s) : ResInvN s' := by
  unfold applyBuildSettlement at h
  simp only [Option.pure_def, Option.bind_eq_bind] at h
  obtain ⟨vb, hvb, h⟩ := obind h
  obtain ⟨players, hsp, h⟩ := obind h
  simp only [Option.some.injEq] at h
  subst h
  obtain ⟨p0, hp0, hpl⟩ := setPlayer_inv hsp
  have hpe : p = p0 := Option.some.inj (hp.symm.trans hp0)
  subst hpe
  subst hpl
  refine ⟨?_, ?_⟩
  · exact resinv_pay s.currentPlayer p settlementCost hp rfl
      (fun r => rfl) (fun r => rfl) settlementCost_nonneg
      (hasResources_le hcan) hinv.1
  · show (s.players.set _ _).length = s.playerCount
    simp only [List.length_set]
    exact hinv.2

theorem applyBuildCity_resinv {s s' : CatanState} {v : Nat}
    {p : PlayerState}
    (hp : s.players.get? s.currentPlayer = some p)
    (hcan : hasResources p.resources cityCost = true)
    (h : applyBuildCity s v = some s')
    (hinv : ResInvN s) : ResInvN s' := by
  unfold applyBuildCity at h
  simp only [Option.pure_def, Option.bind_eq_bind] at h
  obtain ⟨vb, hvb, h⟩ := obind h
  obtain ⟨players, hsp, h⟩ := obind h
  simp only [Option.some.injEq] at h
  subst h
  obtain ⟨p0, hp0, hpl⟩ := setPlayer_inv hsp
  have hpe : p = p0 := Option.some.inj (hp.symm.trans hp0)
  subst hpe
  subst hpl
  refine ⟨?_, ?_⟩
  · exact resinv_pay s.currentPlayer p cityCost hp rfl
      (fun r => rfl) (fun r => rfl) cityCost_nonneg
      (hasResources_le hcan) hinv.1
  · show (s.players.set _ _).length = s.playerCount
    simp only [List.length_set]
    exact hinv.2

theorem applyBuyDevCard_resinv {s s' : CatanState} {p : PlayerState}
    (hp : s.players.get? s.currentPlayer = some p)
    (hcan : hasResources p.resources devCardCost = true)
    (h : applyBuyDevCard s = some s')
    (hinv : ResInvN s) : ResInvN s' := by
  unfold applyBuyDevCard at h
  simp only [Option.pure_def, Option.bind_eq_bind] at h
  obtain ⟨card, hcard, h⟩ := obind h
  obtain ⟨players, hsp, h⟩ := obind h
  simp only [Option.some.injEq] at h
  subst h
  obtain ⟨p0, hp0, hpl⟩ := setPlayer_inv hsp
  have hpe : p = p0 := Option.some.inj (hp.symm.trans hp0)
  subst hpe
  subst hpl
  refine ⟨?_, ?_⟩
  · exact resinv_pay s.currentPlayer p devCardCost hp rfl
      (fun r => rfl) (fun r => rfl) devCardCost_nonneg
      (hasResources_le hcan) hinv.1
  · show (s.players.set _ _).length = s.playerCount
    simp only [List.length_set]
    exact hinv.2

theorem isValidMaritimeTrade_true_inv {s : CatanState} {pid : Nat}
    {g r : Resource} (h : isValidMaritimeTrade s pid g r = some true) :
    g ≠ r ∧ ∃ ratio p, playerTradeRatioFn s pid g = some ratio ∧
      s.players.get? pid = some p ∧
      (ratio : Int) ≤ p.resources g ∧ 0 < s.bank r := by
  unfold isValidMaritimeTrade at h
  split at h
  · simp at h
  · rename_i hgr
    simp only [Option.pure_def, Option.bind_eq_bind] at h
    obtain ⟨ratio, hratio, h⟩ := obind h
    obtain ⟨p, hp, h⟩ := obind h
    split at h
    · simp at h
    · split at h
      · simp at h
      · rename_i h1 h2
        exact ⟨hgr, ratio, p, hratio, hp, by omega, by omega⟩

theorem applyMaritimeTrade_resinv {s s' : CatanState} {g r : Resource}
    (hval : isValidMaritimeTrade s s.currentPlayer g r = some true)
    (h : applyMaritimeTrade s g r = some s')
    (hinv : ResInvN s) : ResInvN s' := by
  obtain ⟨hgr, ratio, p, hratio, hp, hhand, hbank⟩ :=
    isValidMaritimeTrade_true_inv hval
  unfold applyMaritimeTrade at h
  simp only [Option.pure_def, Option.bind_eq_bind] at h
  obtain ⟨ratio0, hratio0, h⟩ := obind h
  have hre : ratio = ratio0 := Option.some.inj (hratio.symm.trans hratio0)
  subst hre
  obtain ⟨players, hsp, h⟩ := obind h
  simp only [Option.some.injEq] at h
  subst h
  obtain ⟨p0, hp0, hpl⟩ := setPlayer_inv hsp
  have hpe : p = p0 := Option.some.inj (hp.symm.trans hp0)
  subst hpe
  subst hpl
  obtain ⟨⟨hh, hb, hc⟩, hlen⟩ := hinv
  have hpmem : p ∈ s.players := List.get?_mem hp
  refine ⟨⟨?_, ?_, ?_⟩, ?_⟩
  · intro q hq x
    rcases List.mem_or_eq_of_mem_set hq with hmem | heq
    · exact hh q hmem x
    · subst heq
      show (0 : Int) ≤ addRes (addRes p.resources g (-(ratio : Int))) r 1 x
      rw [addRes2_eval]
      by_cases hxg : x = g
      · subst hxg
        rw [if_pos rfl, if_neg hgr]
        have h2 := hh p hpmem x
        omega
      · rw [if_neg hxg]
        have h1 := hh p hpmem x
        split_ifs <;> omega
  · intro x
    show (0 : Int) ≤ addRes (addRes s.bank g (ratio : Int)) r (-1) x
    rw [addRes2_eval]
    by_cases hxr : x = r
    · subst hxr
      rw [if_pos rfl, if_neg (fun h2 => hgr h2.symm)]
      omega
    · rw [if_neg hxr]
      have h1 := hb x
      split_ifs <;> omega
  · intro x
    have hsum := map_sum_set (fun (q : PlayerState) => q.resources x)
      s.players s.currentPlayer
      { p with resources := addRes (addRes p.resources g (-(ratio : Int))) r 1 }
      p hp
    have h2 : (s.players.map fun q => q.resources x).sum + s.bank x
        = BANK_PER_RESOURCE := hc x
    show ((s.players.set s.currentPlayer _).map fun q => q.resources x).sum
      + addRes (addRes s.bank g (ratio : Int)) r (-1) x = BANK_PER_RESOURCE
    rw [hsum]
    dsimp only
    rw [addRes2_eval, addRes2_eval]
    split_ifs <;> omega
  · show (s.players.set _ _).length = s.playerCount
    simp only [List.length_set]
    exact hlen

theorem yopActions_mem {s : CatanState} {a : Action} (h : a ∈ yopActions s) :
    ∃ r1 r2, a = .PICK_YEAR_OF_PLENTY_RESOURCES r1 r2 ∧
      ((r1 = r2 ∧ 2 ≤ s.bank r1) ∨
       (r1 ≠ r2 ∧ 1 ≤ s.bank r1 ∧ 1 ≤ s.bank r2)) := by
  unfold yopActions at h
  obtain ⟨ir, _, h2⟩ := List.mem_flatMap.mp h
  obtain ⟨r2, _, hv⟩ := List.mem_filterMap.mp h2
  split at hv
  · rename_i heq
    split at hv
    · rename_i hbk
      simp only [Option.some.injEq] at hv
      exact ⟨ir.2, r2, hv.symm, Or.inl ⟨heq, hbk⟩⟩
    · cases hv
  · rename_i hne
    split at hv
    · rename_i hbk
      simp only [Option.some.injEq] at hv
      exact ⟨ir.2, r2, hv.symm, Or.inr ⟨hne, hbk.1, hbk.2⟩⟩
    · cases hv

theorem applyPickYop_resinv {s s' : CatanState} {r1 r2 : Resource}
    (hbk : (r1 = r2 ∧ 2 ≤ s.bank r1) ∨
      (r1 ≠ r2 ∧ 1 ≤ s.bank r1 ∧ 1 ≤ s.bank r2))
    (h : applyPickYop s r1 r2 = some s')
    (hinv : ResInvN s) : ResInvN s' := by
  unfold applyPickYop at h
  simp only [Option.pure_def, Option.bind_eq_bind] at h
  obtain ⟨players, hsp, h⟩ := obind h
  simp only [Option.some.injEq] at h
  subst h
  obtain ⟨p, hp, hpl⟩ := setPlayer_inv hsp
  subst hpl
  obtain ⟨⟨hh, hb, hc⟩, hlen⟩ := hinv
  have hpmem : p ∈ s.players := List.get?_mem hp
  refine ⟨⟨?_, ?_, ?_⟩, ?_⟩
  · intro q hq x
    rcases List.mem_or_eq_of_mem_set hq with hmem | heq
    · exact hh q hmem x
    · subst heq
      show (0 : Int) ≤ addRes (addRes p.resources r1 1) r2 1 x
      rw [addRes2_eval]
      have h1 := hh p hpmem x
      split_ifs <;> omega
  · intro x
    show (0 : Int) ≤ addRes (addRes s.bank r1 (-1)) r2 (-1) x
    rw [addRes2_eval]
    rcases hbk with ⟨heq, hge⟩ | ⟨hne, hge1, hge2⟩
    · subst heq
      by_cases hx : x = r1
      · rw [if_pos hx, hx]
        omega
      · rw [if_neg hx]
        have := hb x
        omega
    · by_cases hx1 : x = r1
      · have hx2 : ¬ x = r2 := by
          rw [hx1]
          exact hne
        rw [if_pos hx1, if_neg hx2, hx1]
        omega
      · rw [if_neg hx1]
        by_cases hx2 : x = r2
        · rw [if_pos hx2, hx2]
          omega
        · rw [if_neg hx2]
          have := hb x
          omega
  · intro x
    have hsum := map_sum_set (fun (q : PlayerState) => q.resources x)
      s.players s.currentPlayer
      { p with resources := addRes (addRes p.resources r1 1) r2 1 } p hp
    have h2 : (s.players.map fun q => q.resources x).sum + s.bank x
        = BANK_PER_RESOURCE := hc x
    show ((s.players.set s.currentPlayer _).map fun q => q.resources x).sum
      + addRes (addRes s.bank r1 (-1)) r2 (-1) x = BANK_PER_RESOURCE
    rw [hsum]
    dsimp only
    rw [addRes2_eval, addRes2_eval]
    split_ifs <;> omega
  · show (s.players.set _ _).length = s.playerCount
    simp only [List.length_set]
    exact hlen

theorem applyPickMonopoly_resinv {s s' : CatanState} {r : Resource}
    (h : applyPickMonopoly s r = some s')
    (hinv : ResInvN s) : ResInvN s' := by
  obtain ⟨⟨hh, hb, hc⟩, hlen⟩ := hinv
  obtain ⟨tot, l, hfold, hlen2, htotnn, hcons, hzero, hkeep⟩ :=
    monopolyFold_spec r s.currentPlayer s.players (fun q hq => hh q hq r)
      s.playerCount (le_of_eq hlen.symm)
  unfold applyPickMonopoly setPlayer at h
  simp only [Option.pure_def, Option.bind_eq_bind] at h
  simp only [Option.pure_def, Option.bind_eq_bind] at hfold
  rw [hfold] at h
  simp only [Option.some_bind] at h
  obtain ⟨players2, hpl2, h⟩ := obind h
  obtain ⟨pcur, hpcur, hpl2⟩ := obind hpl2
  simp only [Option.some.injEq] at hpl2
  subst hpl2
  simp only [Option.some.injEq] at h
  subst h
  -- every slot of `l` is the original with `r` possibly zeroed
  have hslot : ∀ i, (l.get? i = s.players.get? i) ∨
      (∃ q0, s.players.get? i = some q0 ∧
        l.get? i = some { q0 with resources := updRes q0.resources r 0 }) := by
    intro i
    by_cases hip : i = s.currentPlayer
    · exact Or.inl (hkeep i (Or.inr hip))
    · rcases Nat.lt_or_ge i s.playerCount with hin | hin
      · obtain ⟨q0, hq1, hq2⟩ := hzero i hin hip
        exact Or.inr ⟨q0, hq1, hq2⟩
      · exact Or.inl (hkeep i (Or.inl hin))
  have hmeml : ∀ q ∈ l, ∀ x, 0 ≤ q.resources x := by
    intro q hq x
    obtain ⟨j, hj⟩ := List.mem_iff_get?.mp hq
    rcases hslot j with hj2 | ⟨q0, hq1, hj2⟩
    · rw [hj2] at hj
      exact hh q (List.get?_mem hj) x
    · rw [hj] at hj2
      injection hj2 with hj2
      subst hj2
      show (0 : Int) ≤ updRes q0.resources r 0 x
      unfold updRes
      split
      · omega
      · exact hh q0 (List.get?_mem hq1) x
  have hothersum : ∀ x, x ≠ r →
      (l.map fun q => q.resources x).sum
        = (s.players.map fun q => q.resources x).sum := by
    intro x hx
    apply map_sum_get?_congr
    intro i
    rcases hslot i with hi | ⟨q0, hq1, hi⟩
    · rw [hi]
    · rw [hi, hq1]
      simp only [Option.map_some', Option.some.injEq]
      show updRes q0.resources r 0 x = q0.resources x
      unfold updRes
      rw [if_neg hx]
  have hpmem : pcur ∈ l := List.get?_mem hpcur
  have hcurlt : s.currentPlayer < l.length := (List.get?_eq_some.mp hpcur).1
  refine ⟨⟨?_, hb, ?_⟩, ?_⟩
  · intro q hq x
    rcases List.mem_or_eq_of_mem_set hq with hmem | heq
    · exact hmeml q hmem x
    · subst heq
      show (0 : Int) ≤ addRes pcur.resources r tot x
      rw [addRes_eval]
      have h1 := hmeml pcur hpmem x
      have h2 := hmeml pcur hpmem r
      split_ifs <;> omega
  · intro x
    have hsum := map_sum_set (fun (q : PlayerState) => q.resources x) l
      s.currentPlayer { pcur with resources := addRes pcur.resources r tot }
      pcur hpcur
    have h2 : (s.players.map fun q => q.resources x).sum + s.bank x
        = BANK_PER_RESOURCE := hc x
    show ((l.set s.currentPlayer _).map fun q => q.resources x).sum
      + s.bank x = BANK_PER_RESOURCE
    rw [hsum]
    dsimp only
    rw [addRes_eval]
    by_cases hx : x = r
    · subst hx
      rw [if_pos rfl]
      omega
    · rw [if_neg hx, hothersum x hx]
      omega
  · show (l.set _ _).length = s.playerCount
    simp only [List.length_set]
    rw [hlen2]
    exact hlen

theorem demandFold_inv (st : CatanState) :
    ∀ (verts : List Nat) (acc out : Nat × List (Nat × Nat)),
      verts.foldlM
        (fun (acc : Nat × List (Nat × Nat)) vid => do
          let b ← st.vertexBuildings.get? vid
          match b with
          | none => pure acc
          | some bb =>
            let amount := if bb.1 = BuildingKind.city then 2 else 1
            pure (acc.1 + amount, bumpDemand acc.2 bb.2 amount))
        acc = some out →
      ∃ bs, verts.mapM (fun vid => st.vertexBuildings.get? vid) = some bs := by
  intro verts
  induction verts with
  | nil =>
    intro acc out _
    exact ⟨[], rfl⟩
  | cons v vs ih =>
    intro acc out h
    rw [List.foldlM_cons] at h
    simp only [Option.pure_def, Option.bind_eq_bind] at h
    obtain ⟨acc1, hstep, h⟩ := obind h
    obtain ⟨b, hb, _⟩ := obind hstep
    obtain ⟨bs, hbs⟩ := ih _ _ h
    refine ⟨b :: bs, ?_⟩
    rw [List.mapM_cons]
    simp only [Option.pure_def, Option.bind_eq_bind, hb, Option.some_bind,
      hbs]

theorem distHexStep_resinv {st st2 : CatanState} {d hid : Nat}
    (h : distHexStep st d hid = some st2) (hinv : ResInvN st) : ResInvN st2 := by
  unfold distHexStep at h
  simp only [Option.pure_def, Option.bind_eq_bind] at h
  obtain ⟨num0, hnum0, h⟩ := obind h
  by_cases hm : num0 ≠ some d
  · rw [if_pos hm] at h
    exact (Option.some.inj h) ▸ hinv
  · rw [if_neg hm] at h
    by_cases hr : hid = st.robberHex
    · rw [if_pos hr] at h
      exact (Option.some.inj h) ▸ hinv
    · rw [if_neg hr] at h
      obtain ⟨terr, hterr, h⟩ := obind h
      split at h
      · exact (Option.some.inj h) ▸ hinv
      · rename_i r hrsome
        obtain ⟨verts, hverts, h⟩ := obind h
        have hex : ∃ bs, verts.mapM (fun vid => st.vertexBuildings.get? vid)
            = some bs := by
          rcases obind h with ⟨dem, hdem, -⟩
          exact demandFold_inv st verts (0, []) dem hdem
        obtain ⟨bs, hbs⟩ := hex
        obtain ⟨tot, al, hfold, htot, hsum, hnd, hlook⟩ :=
          demandFold_spec st verts bs hbs (0, [])
        simp only [Option.pure_def, Option.bind_eq_bind] at hfold
        rw [hfold] at h
        simp only [Option.some_bind] at h
        by_cases hbank : st.bank r < (((tot, al).1 : Nat) : Int)
        · rw [if_pos hbank] at h
          exact (Option.some.inj h) ▸ hinv
        · rw [if_neg hbank] at h
          have hnodup : (al.map Prod.fst).Nodup := hnd (by simp)
          obtain ⟨⟨ps, bk, hfr⟩, hlen, hbr, hbx, _, hsums, hnn⟩ :=
            payFold_spec r al st st2 hnodup h
          obtain ⟨⟨hh, hb, hc⟩, hlenN⟩ := hinv
          have halsum : ((al.map Prod.snd).sum : Int) = (tot : Int) := by
            have hs := hsum
            dsimp only at hs
            simp only [List.map_nil, List.sum_nil] at hs
            omega
          refine ⟨⟨?_, ?_, ?_⟩, ?_⟩
          · intro q hq x
            exact hnn hh q hq x
          · intro x
            by_cases hx : x = r
            · subst hx
              rw [hbr, halsum]
              show (0 : Int) ≤ st.bank x - (tot : Int)
              have hb2 : ¬ st.bank x < ((tot : Nat) : Int) := hbank
              omega
            · rw [hbx x hx]
              exact hb x
          · intro x
            have hsx := hsums x
            have hcx : (st.players.map fun q => q.resources x).sum + st.bank x
                = BANK_PER_RESOURCE := hc x
            show (st2.players.map fun q => q.resources x).sum + st2.bank x
              = BANK_PER_RESOURCE
            rw [hsx]
            by_cases hx : x = r
            · subst hx
              rw [if_pos rfl, hbr]
              omega
            · rw [if_neg hx, hbx x hx]
              omega
          · rw [hlen, hfr]
            exact hlenN

theorem distFold_resinv {d : Nat} :
    ∀ (l : List Nat) (st st2 : CatanState),
      ResInvN st →
      l.foldlM (fun st hid => distHexStep st d hid) st = some st2 →
      ResInvN st2 := by
  intro l
  induction l with
  | nil =>
    intro st st2 hinv h
    simp only [List.foldlM_nil, Option.pure_def, Option.some.injEq] at h
    exact h ▸ hinv
  | cons a t ih =>
    intro st st2 hinv h
    rw [List.foldlM_cons] at h
    simp only [Option.bind_eq_bind] at h
    obtain ⟨st1, h1, h⟩ := obind h
    exact ih st1 st2 (distHexStep_resinv h1 hinv) h

theorem applyRollDice_resinv {s s' : CatanState} {d1 d2 : Nat}
    (h : applyRollDice s d1 d2 = some s') (hinv : ResInvN s) : ResInvN s' := by
  unfold applyRollDice at h
  simp only [Option.pure_def, Option.bind_eq_bind] at h
  split at h
  · obtain ⟨need, _, h⟩ := obind h
    split at h <;>
      (simp only [Option.some.injEq] at h
       subst h
       exact hinv)
  · obtain ⟨s2, hs2, h⟩ := obind h
    simp only [Option.some.injEq] at h
    subst h
    unfold distributeResources at hs2
    split at hs2
    · simp only [Option.pure_def, Option.some.injEq] at hs2
      exact hs2 ▸ hinv
    · have hres := distFold_resinv _ _ _
        (show ResInvN { s with lastRoll := some (d1, d2) } from hinv) hs2
      exact hres

theorem applyDiscard_resinv {s s' : CatanState} {amounts : Resource → Int}
    (hbound : ∀ pid rest, s.playersNeedingDiscard = pid :: rest →
      ∀ p, s.players.get? pid = some p →
        ∀ r, 0 ≤ amounts r ∧ amounts r ≤ p.resources r)
    (h : applyDiscard s amounts = some s') (hinv : ResInvN s) : ResInvN s' := by
  unfold applyDiscard at h
  cases hq : s.playersNeedingDiscard with
  | nil =>
    rw [hq] at h
    exact Option.noConfusion h
  | cons pid rest =>
    rw [hq] at h
    simp only [Option.pure_def, Option.bind_eq_bind] at h
    obtain ⟨players, hsp, h⟩ := obind h
    obtain ⟨p, hp, hpl⟩ := setPlayer_inv hsp
    subst hpl
    have hb := hbound pid rest hq p hp
    split at h <;>
      (simp only [Option.some.injEq] at h
       subst h
       refine ⟨resinv_pay pid p amounts hp rfl (fun r => rfl) (fun r => rfl)
         (fun r => (hb r).1) (fun r => (hb r).2) hinv.1, ?_⟩
       show (s.players.set _ _).length = s.playerCount
       simp only [List.length_set]
       exact hinv.2)

theorem insertSorted_mem {a x : Nat} :
    ∀ {l : List Nat}, x ∈ insertSorted a l → x = a ∨ x ∈ l := by
  intro l
  induction l with
  | nil =>
    intro h
    simp only [insertSorted, List.mem_singleton] at h
    exact Or.inl h
  | cons b bs ih =>
    intro h
    unfold insertSorted at h
    split at h
    · rcases List.mem_cons.mp h with h1 | h1
      · exact Or.inl h1
      · exact Or.inr h1
    · rcases List.mem_cons.mp h with h1 | h1
      · exact Or.inr (List.mem_cons.mpr (Or.inl h1))
      · rcases ih h1 with h2 | h2
        · exact Or.inl h2
        · exact Or.inr (List.mem_cons.mpr (Or.inr h2))

theorem sortNats_mem {x : Nat} :
    ∀ {l : List Nat}, x ∈ sortNats l → x ∈ l := by
  intro l
  induction l with
  | nil =>
    intro h
    cases h
  | cons b bs ih =>
    intro h
    have h2 : x ∈ insertSorted b (sortNats bs) := h
    rcases insertSorted_mem h2 with h1 | h1
    · rw [h1]
      exact List.mem_cons_self b bs
    · exact List.mem_cons.mpr (Or.inr (ih h1))

theorem stealTargets_ne {s : CatanState} {hexId thief : Nat} {ts : List Nat}
    (h : getStealTargets s hexId thief = some ts) : ∀ t ∈ ts, t ≠ thief := by
  unfold getStealTargets at h
  simp only [Option.pure_def, Option.bind_eq_bind] at h
  obtain ⟨verts, _, h⟩ := obind h
  obtain ⟨targets, htargets, h⟩ := obind h
  simp only [Option.some.injEq] at h
  subst h
  intro t ht
  have ht2 : t ∈ targets := sortNats_mem ht
  suffices hsuff : ∀ (vl : List Nat) (acc : List Nat),
      (∀ x ∈ acc, x ≠ thief) →
      ∀ out, vl.foldlM
        (fun (acc : List Nat) vid => do
          let b ← s.vertexBuildings.get? vid
          match b with
          | some bb =>
            if bb.2 ≠ thief then do
              let p ← s.players.get? bb.2
              if 0 < totalResources p.resources then
                pure (if bb.2 ∈ acc then acc else acc ++ [bb.2])
              else pure acc
            else pure acc
          | none => pure acc)
        acc = some out → ∀ x ∈ out, x ≠ thief by
    exact hsuff verts [] (fun x hx => absurd hx (List.not_mem_nil x))
      targets htargets t ht2
  intro vl
  induction vl with
  | nil =>
    intro acc hacc out hfold x hx
    simp only [List.foldlM_nil, Option.pure_def, Option.some.injEq] at hfold
    subst hfold
    exact hacc x hx
  | cons v vs ih =>
    intro acc hacc out hfold x hx
    rw [List.foldlM_cons] at hfold
    simp only [Option.pure_def, Option.bind_eq_bind] at hfold
    obtain ⟨acc1, hstep, hfold⟩ := obind hfold
    obtain ⟨b, hb, hstep⟩ := obind hstep
    have hacc1 : ∀ y ∈ acc1, y ≠ thief := by
      cases b with
      | none =>
        simp only [Option.some.injEq] at hstep
        subst hstep
        exact hacc
      | some bb =>
        dsimp only at hstep
        by_cases hbb : bb.2 ≠ thief
        · rw [if_pos hbb] at hstep
          obtain ⟨p, _, hstep⟩ := obind hstep
          by_cases htr : 0 < totalResources p.resources
          · rw [if_pos htr] at hstep
            simp only [Option.some.injEq] at hstep
            subst hstep
            intro y hy
            by_cases hmm : bb.2 ∈ acc
            · rw [if_pos hmm] at hy
              exact hacc y hy
            · rw [if_neg hmm] at hy
              rcases List.mem_append.mp hy with h1 | h1
              · exact hacc y h1
              · rw [List.mem_singleton] at h1
                rw [h1]
                exact hbb
          · rw [if_neg htr] at hstep
            simp only [Option.some.injEq] at hstep
            subst hstep
            exact hacc
        · rw [if_neg hbb] at hstep
          simp only [Option.some.injEq] at hstep
          subst hstep
          exact hacc
    exact ih acc1 hacc1 out hfold x hx

theorem applyBuildRoadFree_resinv {s s' : CatanState} {player edge : Nat}
    (h : applyBuildRoad s player edge true = some s')
    (hinv : ResInvN s) : ResInvN s' := by
  unfold applyBuildRoad at h
  simp only [Option.pure_def, Option.bind_eq_bind] at h
  obtain ⟨er, her, h⟩ := obind h
  obtain ⟨players, hsp, h⟩ := obind h
  simp only [if_true] at h
  simp only [Option.some.injEq] at h
  subst h
  obtain ⟨hsum, hmem⟩ := setPlayer_neutral_sums hsp (fun q => rfl)
  refine ⟨resinv_of_parts hsum hmem (fun x => rfl) hinv.1, ?_⟩
  show players.length = s.playerCount
  rw [setPlayer_length hsp]
  exact hinv.2

theorem applyPlaceRoadBuildingRoad_resinv {s s' : CatanState} {e : Nat}
    (h : applyPlaceRoadBuildingRoad s e = some s')
    (hinv : ResInvN s) : ResInvN s' := by
  unfold applyPlaceRoadBuildingRoad at h
  simp only [Option.pure_def, Option.bind_eq_bind] at h
  obtain ⟨s1, hs1, h⟩ := obind h
  have hinv1 := applyBuildRoadFree_resinv hs1 hinv
  split at h
  · simp only [Option.some_bind] at h
    obtain ⟨lp, ll, hfr⟩ := updateLongestRoad_frame h
    subst hfr
    exact hinv1
  · obtain ⟨valid, _, h⟩ := obind h
    split at h <;>
      (simp only [Option.some_bind] at h
       obtain ⟨lp, ll, hfr⟩ := updateLongestRoad_frame h
       subst hfr
       exact hinv1)

theorem getSetupOrder_length (n : Nat) : (getSetupOrder n).length = 2 * n := by
  unfold getSetupOrder
  simp only [List.length_append, List.length_reverse, List.length_range]
  omega

/-- On the standard board every vertex touches at most 3 hexes. -/
theorem stdTopo_adjHexes_le3 :
    ∀ l ∈ standardTopology.vertexAdjacentHexes, l.length ≤ 3 := by
  rw [← stdTopoData_eq]
  decide

theorem setupAcct_of_phase {s : CatanState}
    (h1 : s.phase ≠ .SETUP_PLACE_SETTLEMENT)
    (h2 : s.phase ≠ .SETUP_PLACE_ROAD) : SetupAcct s :=
  ⟨fun hq => absurd hq h1, fun hq => absurd hq h2⟩

theorem applyEndTurn_phases {s s' : CatanState}
    (h : applyEndTurn s = some s') :
    s'.phase = .GAME_OVER ∨ s'.phase = .ROLL_DICE := by
  unfold applyEndTurn at h
  simp only [Option.pure_def, Option.bind_eq_bind] at h
  obtain ⟨players, _, h⟩ := obind h
  obtain ⟨s2, _, h⟩ := obind h
  split at h
  · rename_i hgo
    simp only [Option.some.injEq] at h
    subst h
    exact Or.inl hgo
  · split at h
    · exact Option.noConfusion h
    · simp only [Option.some.injEq] at h
      subst h
      exact Or.inr rfl

/-- The second-round starting-resource loop: only players and bank change,
hands only grow, every resource is conserved, and each resource's hand
total grows by at most the number of hexes walked. -/
theorem grantFold_spec (pid : Nat) :
    ∀ (hexes : List Nat) (st st2 : CatanState),
      hexes.foldlM
        (fun st hid => do
          let terr ← st.hexTerrains.get? hid
          match terrainToResource terr with
          | none => pure st
          | some res => do
            let players' ← setPlayer st.players pid fun p =>
              { p with resources := addRes p.resources res 1 }
            pure { st with players := players', bank := addRes st.bank res (-1) })
        st = some st2 →
      (∃ ps bk, st2 = { st with players := ps, bank := bk }) ∧
      st2.players.length = st.players.length ∧
      (∀ q ∈ st2.players, ∃ q0 ∈ st.players, ∀ x, q0.resources x ≤ q.resources x) ∧
      (∀ x, (st2.players.map fun q => q.resources x).sum + st2.bank x
        = (st.players.map fun q => q.resources x).sum + st.bank x) ∧
      (∀ x, (st2.players.map fun q => q.resources x).sum
        ≤ (st.players.map fun q => q.resources x).sum + (hexes.length : Int)) := by
  intro hexes
  induction hexes with
  | nil =>
    intro st st2 h
    simp only [List.foldlM_nil, Option.pure_def, Option.some.injEq] at h
    subst h
    exact ⟨⟨st.players, st.bank, rfl⟩, rfl,
      fun q hq => ⟨q, hq, fun x => le_refl _⟩, fun x => rfl,
      fun x => by simp⟩
  | cons hid hexes ih =>
    intro st st2 h
    rw [List.foldlM_cons] at h
    simp only [Option.pure_def, Option.bind_eq_bind] at h
    obtain ⟨st1, hstep, h⟩ := obind h
    obtain ⟨terr, hterr, hstep⟩ := obind hstep
    obtain ⟨fr1, len1, comp1, cons1, grow1⟩ := ih st1 st2 h
    split at hstep
    · simp only [Option.some.injEq] at hstep
      subst hstep
      refine ⟨fr1, len1, comp1, cons1, ?_⟩
      intro x
      have := grow1 x
      simp only [List.length_cons]
      push_cast
      omega
    · rename_i res heq
      obtain ⟨players', hsp, hstep⟩ := obind hstep
      obtain ⟨p0, hp0, hpl⟩ := setPlayer_inv hsp
      subst hpl
      simp only [Option.some.injEq] at hstep
      subst hstep
      dsimp only at fr1 len1 comp1 cons1 grow1
      have hset : ∀ x, ((st.players.set pid
            { p0 with resources := addRes p0.resources res 1 }).map
            fun q => q.resources x).sum
          = (st.players.map fun q => q.resources x).sum - p0.resources x
            + addRes p0.resources res 1 x := by
        intro x
        have := map_sum_set (fun (q : PlayerState) => q.resources x) st.players
          pid { p0 with resources := addRes p0.resources res 1 } p0 hp0
        dsimp only at this
        exact this
      refine ⟨?_, ?_, ?_, ?_, ?_⟩
      · obtain ⟨ps, bk, hfr⟩ := fr1
        exact ⟨ps, bk, hfr⟩
      · rw [len1]
        simp [List.length_set]
      · intro q hq
        obtain ⟨q1, hq1, hle1⟩ := comp1 q hq
        rcases List.mem_or_eq_of_mem_set hq1 with hmem | heq1
        · exact ⟨q1, hmem, hle1⟩
        · refine ⟨p0, List.get?_mem hp0, ?_⟩
          intro x
          have h1 : addRes p0.resources res 1 x ≤ q.resources x := by
            have hq1x := hle1 x
            rw [heq1] at hq1x
            exact hq1x
          rw [addRes_eval] at h1
          by_cases hx : x = res
          · rw [if_pos hx] at h1
            rw [hx] at h1 ⊢
            omega
          · rw [if_neg hx] at h1
            omega
      · intro x
        have hc1 : (st2.players.map fun q => q.resources x).sum + st2.bank x
            = ((st.players.map fun q => q.resources x).sum - p0.resources x
              + addRes p0.resources res 1 x) + addRes st.bank res (-1) x := by
          have hcc := cons1 x
          rw [hset x] at hcc
          exact hcc
        rw [hc1, addRes_eval, addRes_eval]
        by_cases hx : x = res
        · simp only [if_pos hx]
          rw [hx]
          omega
        · simp only [if_neg hx]
          omega
      · intro x
        have hg1 : (st2.players.map fun q => q.resources x).sum
            ≤ ((st.players.map fun q => q.resources x).sum - p0.resources x
              + addRes p0.resources res 1 x) + (hexes.length : Int) := by
          have hgg := grow1 x
          rw [hset x] at hgg
          exact hgg
        have h2 : addRes p0.resources res 1 x ≤ p0.resources x + 1 := by
          rw [addRes_eval]
          by_cases hx : x = res
          · rw [if_pos hx]
            exact le_of_eq (by rw [hx])
          · rw [if_neg hx]
            omega
        simp only [List.length_cons]
        push_cast
        push_cast at hg1
        omega

theorem applySetupSettlement_inv {s s' : CatanState} {v : Nat}
    (hph : s.phase = .SETUP_PLACE_SETTLEMENT)
    (hinv : StateInv s)
    (h : applySetupSettlement s v = some s') : StateInv s' := by
  obtain ⟨⟨⟨hh, hb, hc⟩, hlen⟩, hacct⟩ := hinv
  obtain ⟨htopo, hN4, hidx, hrnd, hbound⟩ := hacct.1 hph
  unfold applySetupSettlement at h
  simp only [Option.pure_def, Option.bind_eq_bind] at h
  obtain ⟨vb, hvb, h⟩ := obind h
  obtain ⟨players, hsp, h⟩ := obind h
  obtain ⟨hsum1, hmem1⟩ := setPlayer_neutral_sums hsp (fun q => rfl)
  have hlen1 : players.length = s.players.length := setPlayer_length hsp
  -- the conclusion, given the facts the two branches each establish
  have hmain : ∀ s2 : CatanState,
      s2.playerCount = s.playerCount → s2.setupIdx = s.setupIdx →
      s2.topology = s.topology →
      (∀ q ∈ s2.players, ∀ x, 0 ≤ q.resources x) →
      s2.players.length = s.players.length →
      (∀ x, (s2.players.map fun q => q.resources x).sum + s2.bank x
        = handsTotal s x + s.bank x) →
      (∀ x, (s2.players.map fun q => q.resources x).sum
        ≤ handsTotal s x + 3) →
      (s.playerCount ≤ s.setupIdx ∨
        ∀ x, (s2.players.map fun q => q.resources x).sum = handsTotal s x) →
      s' = { s2 with lastPlacedVertex := some v, phase := .SETUP_PLACE_ROAD } →
      StateInv s' := by
    intro s2 hq2N hq2idx hq2topo hq2nn hq2len hq2cons hq2grow hq2ng hs'
    subst hs'
    refine ⟨⟨⟨?_, ?_, ?_⟩, ?_⟩, ?_, ?_⟩
    · intro q hq x
      exact hq2nn q hq x
    · intro x
      have h1 := hq2cons x
      have h2 := hq2grow x
      have h3 := hc x
      have h4 := hbound x
      show (0 : Int) ≤ s2.bank x
      unfold setupBound at h4
      unfold handsTotal at h1 h2 h3 h4
      have h5 : (BANK_PER_RESOURCE : Int) = 19 := rfl
      omega
    · intro x
      have h1 := hq2cons x
      have h3 := hc x
      show (s2.players.map fun q => q.resources x).sum + s2.bank x
        = BANK_PER_RESOURCE
      unfold handsTotal at h1 h3
      omega
    · show s2.players.length = s2.playerCount
      rw [hq2len, hq2N]
      exact hlen
    · intro hq
      exact Phase.noConfusion hq
    · intro _
      refine ⟨?_, ?_, ?_, ?_⟩
      · show s2.topology = standardTopology
        rw [hq2topo]
        exact htopo
      · show s2.playerCount ≤ 4
        rw [hq2N]
        exact hN4
      · show s2.setupIdx + 1 ≤ 2 * s2.playerCount
        rw [hq2idx, hq2N]
        omega
      · intro x
        show (s2.players.map fun q => q.resources x).sum
          ≤ setupBound (s2.setupIdx + 1) s2.playerCount
        rw [hq2idx, hq2N]
        have h2 := hq2grow x
        have h4 := hbound x
        unfold setupBound at h4 ⊢
        unfold handsTotal at h2 h4
        by_cases hNle : s.playerCount ≤ s.setupIdx
        · omega
        · have h5 := (hq2ng.resolve_left hNle) x
          unfold handsTotal at h5
          omega
  split at h
  · rename_i hcond
    have hNle : s.playerCount ≤ s.setupIdx := by
      by_contra hn
      rw [hrnd, if_neg hn] at hcond
      exact absurd hcond (by decide)
    obtain ⟨adjHexes, hadj, h⟩ := obind h
    obtain ⟨s2, hs2, h⟩ := obind h
    simp only [Option.some.injEq] at h
    have hadjlen : adjHexes.length ≤ 3 := by
      apply stdTopo_adjHexes_le3
      have hadj2 : s.topology.vertexAdjacentHexes.get? v = some adjHexes := hadj
      rw [htopo] at hadj2
      exact List.get?_mem hadj2
    obtain ⟨⟨ps, bk, hfr⟩, len2, comp2, cons2, grow2⟩ :=
      grantFold_spec s.currentPlayer adjHexes _ s2 hs2
    refine hmain s2 (by rw [hfr]) (by rw [hfr]) (by rw [hfr]) ?_ ?_ ?_ ?_
      (Or.inl hNle) h.symm
    · intro q hq x
      obtain ⟨q1, hq1, hle1⟩ := comp2 q hq
      have hq1' : q1 ∈ players := hq1
      obtain ⟨q0, hq0, hres0⟩ := hmem1 q1 hq1'
      have ha := hh q0 hq0 x
      have hb2 := hle1 x
      rw [hres0] at hb2
      omega
    · have hl2 : s2.players.length = players.length := len2
      rw [hl2]
      exact hlen1
    · intro x
      have hcx : (s2.players.map fun q => q.resources x).sum + s2.bank x
          = (players.map fun q => q.resources x).sum + s.bank x := cons2 x
      rw [hsum1 x] at hcx
      exact hcx
    · intro x
      have hgx : (s2.players.map fun q => q.resources x).sum
          ≤ (players.map fun q => q.resources x).sum + (adjHexes.length : Int) :=
        grow2 x
      rw [hsum1 x] at hgx
      have hle3 : (adjHexes.length : Int) ≤ 3 := by exact_mod_cast hadjlen
      unfold handsTotal
      omega
  · simp only [Option.some_bind, Option.some.injEq] at h
    refine hmain { s with vertexBuildings := vb, players := players }
      rfl rfl rfl ?_ hlen1 ?_ ?_ (Or.inr ?_) h.symm
    · intro q hq x
      have hq' : q ∈ players := hq
      obtain ⟨q0, hq0, hres0⟩ := hmem1 q hq'
      rw [hres0]
      exact hh q0 hq0 x
    · intro x
      show (players.map fun q => q.resources x).sum + s.bank x
        = handsTotal s x + s.bank x
      unfold handsTotal
      rw [hsum1 x]
    · intro x
      show (players.map fun q => q.resources x).sum ≤ handsTotal s x + 3
      unfold handsTotal
      rw [hsum1 x]
      omega
    · intro x
      show (players.map fun q => q.resources x).sum = handsTotal s x
      unfold handsTotal
      exact hsum1 x

theorem applySetupRoad_inv {s s' : CatanState} {e : Nat}
    (hph : s.phase = .SETUP_PLACE_ROAD)
    (hinv : StateInv s)
    (h : applySetupRoad s e = some s') : StateInv s' := by
  obtain ⟨⟨⟨hh, hb, hc⟩, hlen⟩, hacct⟩ := hinv
  obtain ⟨htopo, hN4, hidx1, hbound⟩ := hacct.2 hph
  unfold applySetupRoad at h
  simp only [Option.pure_def, Option.bind_eq_bind] at h
  obtain ⟨er, her, h⟩ := obind h
  obtain ⟨players, hsp, h⟩ := obind h
  obtain ⟨hsum1, hmem1⟩ := setPlayer_neutral_sums hsp (fun q => rfl)
  have hlen1 : players.length = s.players.length := setPlayer_length hsp
  have hresInv : ∀ (t : CatanState), t.players = players → t.bank = s.bank →
      t.playerCount = s.playerCount → ResInvN t := by
    intro t hpl hbk hpc
    refine ⟨⟨?_, ?_, ?_⟩, ?_⟩
    · intro q hq x
      rw [hpl] at hq
      obtain ⟨q0, hq0, hres0⟩ := hmem1 q hq
      rw [hres0]
      exact hh q0 hq0 x
    · intro x
      rw [hbk]
      exact hb x
    · intro x
      show (t.players.map fun q => q.resources x).sum + t.bank x
        = BANK_PER_RESOURCE
      rw [hpl, hbk, hsum1 x]
      exact hc x
    · rw [hpl, hpc, hlen1]
      exact hlen
  split at h
  · simp only [Option.some.injEq] at h
    subst h
    refine ⟨hresInv _ rfl rfl rfl,
      setupAcct_of_phase (fun hq => Phase.noConfusion hq)
        (fun hq => Phase.noConfusion hq)⟩
  · rename_i hlt
    obtain ⟨np, hnp, h⟩ := obind h
    simp only [Option.some.injEq] at h
    subst h
    have hidx2 : s.setupIdx + 1 < 2 * s.playerCount := by
      rw [getSetupOrder_length] at hlt
      have hlt2 : ¬(2 * s.playerCount ≤ s.setupIdx + 1) := hlt
      omega
    refine ⟨hresInv _ rfl rfl rfl, ?_, ?_⟩
    · intro _
      refine ⟨htopo, hN4, hidx2, rfl, ?_⟩
      intro x
      show (players.map fun q => q.resources x).sum
        ≤ setupBound (s.setupIdx + 1) s.playerCount
      rw [hsum1 x]
      exact hbound x
    · intro hq
      exact Phase.noConfusion hq

theorem setupAcct_of_eq {s : CatanState} {ph : Phase}
    (hph : s.phase = ph)
    (h1 : ¬(ph = Phase.SETUP_PLACE_SETTLEMENT))
    (h2 : ¬(ph = Phase.SETUP_PLACE_ROAD)) : SetupAcct s :=
  setupAcct_of_phase (fun hq => h1 (hph.symm.trans hq))
    (fun hq => h2 (hph.symm.trans hq))

/-- `ResInvN` only looks at players, bank and the player count. -/
theorem resinvN_frame {s t : CatanState}
    (hpl : t.players = s.players) (hbk : t.bank = s.bank)
    (hpc : t.playerCount = s.playerCount)
    (hinv : ResInvN s) : ResInvN t := by
  refine ⟨resinv_of_parts ?_ ?_ ?_ hinv.1, ?_⟩
  · intro x
    unfold handsTotal
    rw [hpl]
  · intro q hq
    rw [hpl] at hq
    exact ⟨q, hq, rfl⟩
  · intro x
    rw [hbk]
  · rw [hpl, hpc]
    exact hinv.2

/-- A discard tuple accepted against the five resource slots is five
counts, each bounded by the held amount. -/
theorem forall2_all5 {hand : Resource → Int} {suf : List Nat}
    (hf : List.Forall₂ (fun (t : Nat) (r : Resource) => (t : Int) ≤ hand r)
      suf Resource.all) :
    ∃ a0 a1 a2 a3 a4, suf = [a0, a1, a2, a3, a4] ∧
      (a0 : Int) ≤ hand .lumber ∧ (a1 : Int) ≤ hand .brick ∧
      (a2 : Int) ≤ hand .wool ∧ (a3 : Int) ≤ hand .grain ∧
      (a4 : Int) ≤ hand .ore := by
  have hg : List.Forall₂ (fun (t : Nat) (r : Resource) => (t : Int) ≤ hand r)
      suf [Resource.lumber, Resource.brick, Resource.wool, Resource.grain,
           Resource.ore] := hf
  rw [List.forall₂_cons_right_iff] at hg
  obtain ⟨a0, l0, h0, hg, rfl⟩ := hg
  rw [List.forall₂_cons_right_iff] at hg
  obtain ⟨a1, l1, h1, hg, rfl⟩ := hg
  rw [List.forall₂_cons_right_iff] at hg
  obtain ⟨a2, l2, h2, hg, rfl⟩ := hg
  rw [List.forall₂_cons_right_iff] at hg
  obtain ⟨a3, l3, h3, hg, rfl⟩ := hg
  rw [List.forall₂_cons_right_iff] at hg
  obtain ⟨a4, l4, h4, hg, rfl⟩ := hg
  rw [List.forall₂_nil_right_iff] at hg
  subst hg
  exact ⟨a0, a1, a2, a3, a4, rfl, h0, h1, h2, h3, h4⟩

/-- One legal `step` preserves the full invariant. -/
theorem stepState_inv {s s' : CatanState} {a : Action} {rnd : StepRand}
    {acts : List Action}
    (hl : getLegalActions s = some acts) (ha : a ∈ acts)
    (hs : stepState s a rnd = some s')
    (hinv : StateInv s) : StateInv s' := by
  unfold getLegalActions at hl
  cases hph : s.phase <;> rw [hph] at hl
  -- PRE_GAME
  · simp only [Option.some.injEq] at hl
    subst hl
    cases ha
  -- SETUP_PLACE_SETTLEMENT
  · simp only [Option.pure_def, Option.bind_eq_bind] at hl
    obtain ⟨verts, hverts, hl⟩ := obind hl
    simp only [Option.some.injEq] at hl
    subst hl
    obtain ⟨v, hv, heq⟩ := List.mem_map.mp ha
    subst heq
    have hs2 : applySetupSettlement s v = some s' := hs
    exact applySetupSettlement_inv hph hinv hs2
  -- SETUP_PLACE_ROAD
  · simp only [Option.pure_def, Option.bind_eq_bind] at hl
    obtain ⟨edges, hedges, hl⟩ := obind hl
    simp only [Option.some.injEq] at hl
    subst hl
    obtain ⟨e, he, heq⟩ := List.mem_map.mp ha
    subst heq
    have hs2 : applySetupRoad s e = some s' := hs
    exact applySetupRoad_inv hph hinv hs2
  -- ROLL_DICE
  · simp only [Option.some.injEq] at hl
    subst hl
    simp only [List.mem_singleton] at ha
    subst ha
    have hs2 : applyRollDice s rnd.d1 rnd.d2 = some s' := hs
    refine ⟨applyRollDice_resinv hs2 hinv.1, ?_⟩
    rcases applyRollDice_phase hs2 with h1 | h1 | h1 <;>
      exact setupAcct_of_eq h1 (by decide) (by decide)
  -- DISCARD
  · cases hq : s.playersNeedingDiscard with
    | nil =>
      rw [hq] at hl
      cases hl
    | cons pid rest =>
      rw [hq] at hl
      simp only [Option.pure_def, Option.bind_eq_bind] at hl
      obtain ⟨p, hp, hl⟩ := obind hl
      simp only [Option.some.injEq] at hl
      subst hl
      unfold enumerateDiscard at ha
      obtain ⟨l, hlmem, heq⟩ := List.mem_map.mp ha
      subst heq
      obtain ⟨suf, hsl, hf, hsum⟩ :=
        (discardRecurse_mem p.resources Resource.all
          ((totalResources p.resources).fdiv 2) [] l).mp hlmem
      simp only [List.nil_append] at hsl
      subst hsl
      obtain ⟨a0, a1, a2, a3, a4, hsufeq, hb0, hb1, hb2, hb3, hb4⟩ :=
        forall2_all5 hf
      subst hsufeq
      have hs2 : applyDiscard s (fun r => match r with
          | Resource.lumber => (a0 : Int)
          | Resource.brick => (a1 : Int)
          | Resource.wool => (a2 : Int)
          | Resource.grain => (a3 : Int)
          | Resource.ore => (a4 : Int)) = some s' := hs
      refine ⟨applyDiscard_resinv ?_ hs2 hinv.1, ?_⟩
      · intro pid2 rest2 hq2 p2 hp2 r
        rw [hq] at hq2
        injection hq2 with he1 he2
        subst he1
        have hpp : p2 = p := Option.some.inj (hp2.symm.trans hp)
        subst hpp
        cases r
        · exact ⟨Int.natCast_nonneg a0, hb0⟩
        · exact ⟨Int.natCast_nonneg a1, hb1⟩
        · exact ⟨Int.natCast_nonneg a2, hb2⟩
        · exact ⟨Int.natCast_nonneg a3, hb3⟩
        · exact ⟨Int.natCast_nonneg a4, hb4⟩
      · rcases applyDiscard_phase hs2 with h1 | h1
        · exact setupAcct_of_eq h1 (by decide) (by decide)
        · exact setupAcct_of_eq (h1.trans hph) (by decide) (by decide)
  -- MOVE_ROBBER
  · simp only [Option.some.injEq] at hl
    subst hl
    obtain ⟨hx, hxm, heq⟩ := List.mem_map.mp ha
    subst heq
    have hs2 : applyMoveRobber s hx = some s' := hs
    refine ⟨applyMoveRobber_resinv hs2 hinv.1, ?_⟩
    rcases applyMoveRobber_phase hs2 with h1 | h1 <;>
      exact setupAcct_of_eq h1 (by decide) (by decide)
  -- STEAL
  · simp only [Option.pure_def, Option.bind_eq_bind] at hl
    obtain ⟨targets, htg, hl⟩ := obind hl
    split at hl
    · simp only [Option.some.injEq] at hl
      subst hl
      simp only [List.mem_singleton] at ha
      subst ha
      have hs2 : applySteal s none rnd.stealIdx = some s' := hs
      have hne : ∀ u, (none : Option Nat) = some u → u ≠ s.currentPlayer :=
        fun u hu => Option.noConfusion hu
      exact ⟨applySteal_resinv hne hs2 hinv.1,
        setupAcct_of_eq (applySteal_phase hs2) (by decide) (by decide)⟩
    · simp only [Option.some.injEq] at hl
      subst hl
      obtain ⟨t, htm, heq⟩ := List.mem_map.mp ha
      subst heq
      have hs2 : applySteal s (some t) rnd.stealIdx = some s' := hs
      have hne : ∀ u, (some t : Option Nat) = some u → u ≠ s.currentPlayer := by
        intro u hu
        have ht2 : t = u := Option.some.inj hu
        subst ht2
        exact stealTargets_ne htg t htm
      exact ⟨applySteal_resinv hne hs2 hinv.1,
        setupAcct_of_eq (applySteal_phase hs2) (by decide) (by decide)⟩
  -- TRADE_BUILD_PLAY
  · unfold tradeBuildPlayActions at hl
    simp only [Option.pure_def, Option.bind_eq_bind] at hl
    obtain ⟨roadEdges, hre, hl⟩ := obind hl
    obtain ⟨settleVerts, hsv, hl⟩ := obind hl
    obtain ⟨cityVerts, hcv, hl⟩ := obind hl
    obtain ⟨canBuy, hcb, hl⟩ := obind hl
    obtain ⟨knightOk, hko, hl⟩ := obind hl
    obtain ⟨rbOk, hro, hl⟩ := obind hl
    obtain ⟨yopOk, hyo, hl⟩ := obind hl
    obtain ⟨monoOk, hmo, hl⟩ := obind hl
    obtain ⟨maritime, hmar, hl⟩ := obind hl
    simp only [Option.some.injEq] at hl
    subst hl
    simp only [List.mem_append] at ha
    rcases ha with ((((((((hA | hA) | hA) | hA) | hA) | hA) | hA) | hA) | hA) | hA
    · -- BUILD_ROAD
      obtain ⟨e, he, heq⟩ := List.mem_map.mp hA
      subst heq
      have hs2 : (applyBuildRoad s s.currentPlayer e false).bind
          updateLongestRoad = some s' := hs
      obtain ⟨s1, hbr, hup⟩ := obind hs2
      obtain ⟨p, hp, hcan⟩ := getValidRoadEdges_mem hre he
      have hinv1 : ResInvN s1 := applyBuildRoad_resinv hp hcan hbr hinv.1
      obtain ⟨lp, ll, hfr⟩ := updateLongestRoad_frame hup
      subst hfr
      refine ⟨resinvN_frame rfl rfl rfl hinv1, ?_⟩
      exact setupAcct_of_eq
        (show s1.phase = Phase.TRADE_BUILD_PLAY
          from (applyBuildRoad_phase hbr).trans hph) (by decide) (by decide)
    · -- BUILD_SETTLEMENT
      obtain ⟨v, hv, heq⟩ := List.mem_map.mp hA
      subst heq
      have hs2 : (applyBuildSettlement s v).bind
          updateLongestRoad = some s' := hs
      obtain ⟨s1, hbs, hup⟩ := obind hs2
      obtain ⟨p, hp, hcan⟩ := getValidSettlementVertices_mem hsv hv
      have hinv1 : ResInvN s1 := applyBuildSettlement_resinv hp hcan hbs hinv.1
      obtain ⟨lp, ll, hfr⟩ := updateLongestRoad_frame hup
      subst hfr
      refine ⟨resinvN_frame rfl rfl rfl hinv1, ?_⟩
      exact setupAcct_of_eq
        (show s1.phase = Phase.TRADE_BUILD_PLAY
          from (applyBuildSettlement_phase hbs).trans hph) (by decide) (by decide)
    · -- BUILD_CITY
      obtain ⟨v, hv, heq⟩ := List.mem_map.mp hA
      subst heq
      have hs2 : applyBuildCity s v = some s' := hs
      obtain ⟨p, hp, hcan⟩ := getValidCityVertices_mem hcv hv
      exact ⟨applyBuildCity_resinv hp hcan hs2 hinv.1,
        setupAcct_of_eq ((applyBuildCity_phase hs2).trans hph)
          (by decide) (by decide)⟩
    · -- BUY_DEV_CARD
      cases canBuy with
      | false => simp at hA
      | true =>
        simp at hA
        subst hA
        have hs2 : applyBuyDevCard s = some s' := hs
        obtain ⟨p, hp, hcan⟩ := canBuyDevCard_true hcb
        exact ⟨applyBuyDevCard_resinv hp hcan hs2 hinv.1,
          setupAcct_of_eq ((applyBuyDevCard_phase hs2).trans hph)
            (by decide) (by decide)⟩
    · -- PLAY_KNIGHT
      cases knightOk with
      | false => simp at hA
      | true =>
        simp at hA
        subst hA
        have hs2 : applyPlayKnight s = some s' := hs
        exact ⟨applyPlayKnight_resinv hs2 hinv.1,
          setupAcct_of_eq (applyPlayKnight_phase hs2) (by decide) (by decide)⟩
    · -- PLAY_ROAD_BUILDING
      cases rbOk with
      | false => simp at hA
      | true =>
        simp at hA
        subst hA
        have hs2 : applyPlayRoadBuilding s = some s' := hs
        refine ⟨applyPlayRoadBuilding_resinv hs2 hinv.1, ?_⟩
        rcases applyPlayRoadBuilding_phase hs2 with h1 | h1
        · exact setupAcct_of_eq (h1.trans hph) (by decide) (by decide)
        · exact setupAcct_of_eq h1 (by decide) (by decide)
    · -- PLAY_YEAR_OF_PLENTY
      cases yopOk with
      | false => simp at hA
      | true =>
        simp at hA
        subst hA
        have hs2 : applyPlayYearOfPlenty s = some s' := hs
        exact ⟨applyPlayYearOfPlenty_resinv hs2 hinv.1,
          setupAcct_of_eq (applyPlayYearOfPlenty_phase hs2)
            (by decide) (by decide)⟩
    · -- PLAY_MONOPOLY
      cases monoOk with
      | false => simp at hA
      | true =>
        simp at hA
        subst hA
        have hs2 : applyPlayMonopoly s = some s' := hs
        exact ⟨applyPlayMonopoly_resinv hs2 hinv.1,
          setupAcct_of_eq (applyPlayMonopoly_phase hs2) (by decide) (by decide)⟩
    · -- MARITIME_TRADE
      have hmem2 := (maritimeOuter_mem Resource.all [] maritime hmar a).mp hA
      rcases hmem2 with h0 | ⟨g, hg, rc, hrc, haeq, hval⟩
      · cases h0
      · subst haeq
        have hs2 : applyMaritimeTrade s g rc = some s' := hs
        exact ⟨applyMaritimeTrade_resinv hval hs2 hinv.1,
          setupAcct_of_eq ((applyMaritimeTrade_phase hs2).trans hph)
            (by decide) (by decide)⟩
    · -- END_TURN
      simp only [List.mem_singleton] at hA
      subst hA
      have hs2 : applyEndTurn s = some s' := hs
      refine ⟨applyEndTurn_resinv hs2 hinv.1, ?_⟩
      rcases applyEndTurn_phases hs2 with h1 | h1 <;>
        exact setupAcct_of_eq h1 (by decide) (by decide)
  -- ROAD_BUILDING_PLACE
  · simp only [Option.pure_def, Option.bind_eq_bind] at hl
    obtain ⟨edges, hedges, hl⟩ := obind hl
    simp only [Option.some.injEq] at hl
    subst hl
    obtain ⟨e, he, heq⟩ := List.mem_map.mp ha
    subst heq
    have hs2 : applyPlaceRoadBuildingRoad s e = some s' := hs
    refine ⟨applyPlaceRoadBuildingRoad_resinv hs2 hinv.1, ?_⟩
    rcases applyPlaceRoadBuildingRoad_phase hs2 with h1 | h1
    · exact setupAcct_of_eq h1 (by decide) (by decide)
    · exact setupAcct_of_eq (h1.trans hph) (by decide) (by decide)
  -- YEAR_OF_PLENTY_PICK
  · simp only [Option.some.injEq] at hl
    subst hl
    obtain ⟨r1, r2, haeq, hbk⟩ := yopActions_mem ha
    subst haeq
    have hs2 : applyPickYop s r1 r2 = some s' := hs
    exact ⟨applyPickYop_resinv hbk hs2 hinv.1,
      setupAcct_of_eq (applyPickYop_phase hs2) (by decide) (by decide)⟩
  -- MONOPOLY_PICK
  · simp only [Option.some.injEq] at hl
    subst hl
    obtain ⟨r, hrm, heq⟩ := List.mem_map.mp ha
    subst heq
    have hs2 : applyPickMonopoly s r = some s' := hs
    exact ⟨applyPickMonopoly_resinv hs2 hinv.1,
      setupAcct_of_eq (applyPickMonopoly_phase hs2) (by decide) (by decide)⟩
  -- GAME_OVER
  · simp only [Option.some.injEq] at hl
    subst hl
    cases ha

/-- Every reachable state satisfies the full invariant. -/
theorem reachable_stateInv {s : CatanState} (h : Reachable s) : StateInv s := by
  induction h with
  | reset t ht => exact resetState_inv ht
  | step t t' a rnd acts hr hl ha hstep ih => exact stepState_inv hl ha hstep ih

/-- Claim C1: in every state reachable from `reset()` by legal actions,
each player's count of every resource is non-negative, the bank's count of
every resource is non-negative, and for each resource the sum over all
player hands plus the bank equals the fixed per-resource bank total of 19.
-/
theorem c1_resource_conservation {s : CatanState} (h : Reachable s) :
    ∀ r, (∀ p ∈ s.players, 0 ≤ p.resources r) ∧ 0 ≤ s.bank r ∧
      handsTotal s r + s.bank r = BANK_PER_RESOURCE := by
  have hs : StateInv s := reachable_stateInv h
  intro r
  exact ⟨fun p hp => hs.1.1.1 p hp r, hs.1.1.2.1 r, hs.1.1.2.2 r⟩

theorem c1_resource_conservation_witness :
    (∀ p ∈ sReset.players, 0 ≤ p.resources Resource.lumber) ∧
    0 ≤ sReset.bank Resource.lumber ∧
    handsTotal sReset Resource.lumber + sReset.bank Resource.lumber
      = BANK_PER_RESOURCE :=
  c1_resource_conservation
    (Reachable.reset sReset ⟨Or.inr rfl, rfl, rfl, rfl, rfl, rfl, rfl⟩)
    Resource.lumber

/-- Claim C7 (code bug): on the END_TURN that ends the game, `step` returns
`done = true` and records the winner in `info`, but the returned
`terminal_reward` is `0`, not the `+1`/`-1` win/loss signal the claim and
the function's own docstring promise. -/
theorem c7_reward_zero_at_game_end :
    (stepFull sWin .END_TURN ⟨1, 1, 0⟩).map
        (fun out => (out.2.1, out.2.2.1, out.2.2.2, out.1.phase)) =
      some (0, true, some 0, Phase.GAME_OVER) := by
  decide

end Catan
